import Mathlib

/-!
# NE2000 (DS8390) network controller: register and receive-ring model

A shallow embedding of `src/hardware/ne2000.cpp`.  Every C function is a Lean
function of the same name on an explicit device state.

Conventions.
* Integer fields are `Nat`; where the C code narrows a value (assignment to a
  `uint8_t`/`uint16_t` field, `check_cast`, `unsigned` arithmetic) the model
  writes the reduction `% 2 ^ w` explicitly.  `check_cast<T>` is modelled as the
  `static_cast` it performs.
* One-bit register flags (`bx_bool` fields that only ever hold 0 or 1) are `Bool`.
* The arrays `physaddr`, `mchash`, `macaddr` are functions of the index.  The
  chip memory `mem` is a function of the (signed) array index, so that the
  pointer arithmetic `&s.mem[page * 256 - BX_NE2K_MEMSTART]` can be written as
  in the source; only the cells `0 ≤ i < BX_NE2K_MEMSIZ` exist in the C array.
* A buffer behind a pointer argument is a function of the byte index.  Where
  the pointer points into the chip memory itself (the loopback call of
  `rx_frame`), the buffer is a view of the current memory, so that what is read
  after a store is what the store left (`rx_frame_ptr`).
* The collaborators (interrupt controller, event queue, transport) are
  modelled by the fields `irq`, `events` and `trace` of the state.
* Log calls (`BX_DEBUG`, `BX_INFO`, `BX_ERROR`, `BX_PANIC`, all of which only
  print) are dropped.
-/

namespace NE2K

/-! ## Constants and data model -/

/-- The chip-memory constants `BX_NE2K_MEMSTART`, `BX_NE2K_MEMSIZ` and
`BX_NE2K_MEMEND`.  They are defined in `ne2000.h`, which is not part of the
sources at hand, so the model takes them as parameters. -/
structure Layout where
  MEMSTART : Nat
  MEMSIZ : Nat
  MEMEND : Nat

/-- A concrete layout used for examples: 32 KiB of chip memory starting at
chip address 16 KiB. -/
def layout32K : Layout where
  MEMSTART := 16 * 1024
  MEMSIZ := 32 * 1024
  MEMEND := 16 * 1024 + 32 * 1024

/-- Width of an I/O access (`io_width_t`). -/
inductive io_width_t where
  | byte
  | word
  | dword
  deriving DecidableEq, Repr

/-- Number of bytes of an access width (`enum_val`). -/
def enum_val : io_width_t → Nat
  | .byte => 1
  | .word => 2
  | .dword => 4

/-- Command Register fields. -/
structure CR_t where
  stop : Bool := false
  start : Bool := false
  tx_packet : Bool := false
  rdma_cmd : Nat := 0
  pgsel : Nat := 0

/-- Interrupt Status Register fields. -/
structure ISR_t where
  pkt_rx : Bool := false
  pkt_tx : Bool := false
  rx_err : Bool := false
  tx_err : Bool := false
  overwrite : Bool := false
  cnt_oflow : Bool := false
  rdma_done : Bool := false
  reset : Bool := false

/-- Interrupt Mask Register fields. -/
structure IMR_t where
  rx_inte : Bool := false
  tx_inte : Bool := false
  rxerr_inte : Bool := false
  txerr_inte : Bool := false
  overw_inte : Bool := false
  cofl_inte : Bool := false
  rdma_inte : Bool := false

/-- Data Configuration Register fields. -/
structure DCR_t where
  wdsize : Bool := false
  endian : Bool := false
  longaddr : Bool := false
  loop : Bool := false
  auto_rx : Bool := false
  fifo_size : Nat := 0

/-- Transmit Configuration Register fields. -/
structure TCR_t where
  crc_disable : Bool := false
  loop_cntl : Nat := 0
  ext_stoptx : Bool := false
  coll_prio : Bool := false

/-- Transmit Status Register fields. -/
structure TSR_t where
  tx_ok : Bool := false
  collided : Bool := false
  aborted : Bool := false
  no_carrier : Bool := false
  fifo_ur : Bool := false
  cd_hbeat : Bool := false
  ow_coll : Bool := false

/-- Receive Configuration Register fields. -/
structure RCR_t where
  errors_ok : Bool := false
  runts_ok : Bool := false
  broadcast : Bool := false
  multicast : Bool := false
  promisc : Bool := false
  monitor : Bool := false

/-- Receive Status Register fields. -/
structure RSR_t where
  rx_ok : Bool := false
  bad_crc : Bool := false
  bad_falign : Bool := false
  fifo_or : Bool := false
  rx_missed : Bool := false
  rx_mbit : Bool := false
  rx_disabled : Bool := false
  deferred : Bool := false

/-- What the device does to its collaborators, in order of occurrence. -/
inductive Effect where
  | activateIRQ
  | deactivateIRQ
  | sendPacket (frame : List Nat)
  | addEvent (tx_bits : Nat)
  | removeEvents
  | txEvent
  deriving DecidableEq, Repr

/-- The device state `bx_ne2k_t`, followed by the state of the collaborators:
`irq` is the interrupt input (set by `PIC_ActivateIRQ`, cleared by
`PIC_DeActivateIRQ`), `events` the scheduled `NE2000_TX_Event` entries (each
with the `tx_bits` its delay was computed from) and `trace` the effects so far. -/
structure State where
  CR : CR_t := {}
  ISR : ISR_t := {}
  IMR : IMR_t := {}
  DCR : DCR_t := {}
  TCR : TCR_t := {}
  TSR : TSR_t := {}
  RCR : RCR_t := {}
  RSR : RSR_t := {}
  local_dma : Nat := 0
  page_start : Nat := 0
  page_stop : Nat := 0
  bound_ptr : Nat := 0
  tx_page_start : Nat := 0
  num_coll : Nat := 0
  tx_bytes : Nat := 0
  fifo : Nat := 0
  remote_dma : Nat := 0
  remote_start : Nat := 0
  remote_bytes : Nat := 0
  tallycnt_0 : Nat := 0
  tallycnt_1 : Nat := 0
  tallycnt_2 : Nat := 0
  physaddr : Nat → Nat := fun _ => 0
  curr_page : Nat := 0
  mchash : Nat → Nat := fun _ => 0
  rempkt_ptr : Nat := 0
  localpkt_ptr : Nat := 0
  address_cnt : Nat := 0
  macaddr : Nat → Nat := fun _ => 0
  mem : Int → Nat := fun _ => 0
  base_address : Nat := 0
  base_irq : Nat := 0
  tx_timer_index : Nat := 0
  tx_timer_active : Bool := false
  irq : Bool := false
  events : List Nat := []
  trace : List Effect := []

/-- The value of a flag when shifted into a register byte. -/
def bit (b : Bool) : Nat := if b then 1 else 0

/-- The C test `(value & mask) == mask`. -/
def flag (value mask : Nat) : Bool := decide (value &&& mask = mask)

/-! ## Collaborators -/

/-- The call `PIC_ActivateIRQ(s.base_irq)`. -/
def PIC_ActivateIRQ (s : State) : State :=
  { s with irq := true, trace := s.trace ++ [Effect.activateIRQ] }

/-- The call `PIC_DeActivateIRQ(s.base_irq)`. -/
def PIC_DeActivateIRQ (s : State) : State :=
  { s with irq := false, trace := s.trace ++ [Effect.deactivateIRQ] }

/-- The call `memcpy(&mem[dst], src, n)`: cell `dst + k` receives `src k` for `k < n`. -/
def memcpy (mem : Int → Nat) (dst : Int) (src : Nat → Nat) (n : Nat) : Int → Nat :=
  fun i => if dst ≤ i ∧ i < dst + n then src (i - dst).toNat else mem i

/-- A buffer seen through a `const uint8_t *`. -/
def pktbuf (buf : Nat → Nat) (i : Nat) : Nat := buf i % 256

/-- The call `PIC_RemoveEvents(NE2000_TX_Event)`: drops every scheduled completion event. -/
def PIC_RemoveEvents (s : State) : State :=
  { s with events := [], trace := s.trace ++ [Effect.removeEvents] }

/-- The call `PIC_AddEvent(NE2000_TX_Event, tx_bits / (100 * 1000.0), 0)`. -/
def PIC_AddEvent (s : State) (tx_bits : Nat) : State :=
  { s with events := s.events ++ [tx_bits], trace := s.trace ++ [Effect.addEvent tx_bits] }

/-- The call `ethernet->SendPacket(&s.mem[start], len)`. -/
def SendPacket (s : State) (start : Int) (len : Nat) : State :=
  { s with trace := s.trace ++ [Effect.sendPacket ((List.range len).map (fun k => s.mem (start + k)))] }

/-! ## Multicast hash -/

/-- The `#define POLYNOMIAL` of `mcast_index`. -/
def POLYNOMIAL : Nat := 0x04c11db6

/-- Body of the inner loop of `mcast_index` for a `crc` variable of `w` bits:
returns the new `crc` and the new `b`. -/
def mcast_bit (w crc b : Nat) : Nat × Nat :=
  let carry := (if crc &&& 0x80000000 ≠ 0 then 1 else 0) ^^^ (b &&& 0x01)
  let crc := (crc <<< 1) % 2 ^ w
  let b := b >>> 1
  if carry ≠ 0 then ((crc ^^^ POLYNOMIAL) ||| carry, b) else (crc, b)

/-- The inner loop `for (j = 8; --j >= 0;)`, with `j` iterations left. -/
def mcast_inner (w : Nat) : Nat → Nat → Nat → Nat
  | 0, crc, _ => crc
  | j + 1, crc, b => mcast_inner w j (mcast_bit w crc b).1 (mcast_bit w crc b).2

/-- The outer loop `for (i = 6; --i >= 0;)`, with `i` iterations left and `ep`
the offset of the next byte. -/
def mcast_outer (w : Nat) (dst : Nat → Nat) : Nat → Nat → Nat → Nat
  | 0, _, crc => crc
  | i + 1, ep, crc => mcast_outer w dst i (ep + 1) (mcast_inner w 8 crc (pktbuf dst ep))

/-- The function `mcast_index` with `unsigned long` of `w` bits. -/
def mcast_index_w (w : Nat) (dst : Nat → Nat) : Nat :=
  ((mcast_outer w dst 6 0 0xffffffff) &&& 0xffffffff) >>> 26

/-- The function `bx_ne2k_c::mcast_index` on a platform with a 64-bit `unsigned long`. -/
def mcast_index (dst : Nat → Nat) : Nat := mcast_index_w 64 dst

/-- One step of the standard CRC-32 shift register, as the specification words
it: the carry is the top bit of the register xor the input bit, the register
is shifted left by one modulo `2 ^ 32`, and the generator `0x04C11DB7` is
applied when the carry is 1. -/
def crc32_step (reg inbit : Nat) : Nat :=
  let carry := (reg / 2 ^ 31 % 2 + inbit) % 2
  let shifted := reg * 2 % 2 ^ 32
  if carry = 1 then shifted ^^^ 0x04C11DB7 else shifted

/-- Feeding one byte to the register, least-significant bit first. -/
def crc32_byte (reg byte : Nat) : Nat :=
  (List.range 8).foldl (fun r k => crc32_step r (byte / 2 ^ k % 2)) reg

/-- The specification of the multicast index: top 6 bits of the CRC-32
register, started at `0xFFFFFFFF`, after the 6 address bytes in order. -/
def mcast_index_spec (dst : Nat → Nat) : Nat :=
  (((List.range 6).map (pktbuf dst)).foldl crc32_byte 0xFFFFFFFF) / 2 ^ 26

/-! ## Reset and the Command Register -/

/-- The function `bx_ne2k_c::reset`.  `memset` clears the cells of the array. -/
def reset (L : Layout) (s : State) : State :=
  PIC_DeActivateIRQ
    { s with
      CR := { stop := true, rdma_cmd := 4 }
      ISR := { reset := true }
      IMR := {}
      DCR := { longaddr := true }
      TCR := {}
      TSR := {}
      RSR := {}
      tx_timer_active := false
      local_dma := 0
      page_start := 0
      page_stop := 0
      bound_ptr := 0
      tx_page_start := 0
      num_coll := 0
      tx_bytes := 0
      fifo := 0
      remote_dma := 0
      remote_start := 0
      remote_bytes := 0
      tallycnt_0 := 0
      tallycnt_1 := 0
      tallycnt_2 := 0
      curr_page := 0
      rempkt_ptr := 0
      localpkt_ptr := 0
      address_cnt := 0
      mem := fun i => if 0 ≤ i ∧ i < (L.MEMSIZ : Int) then 0 else s.mem i }

/-- The function `bx_ne2k_c::read_cr`. -/
def read_cr (s : State) : Nat :=
  ((s.CR.pgsel &&& 0x03) <<< 6) |||
  ((s.CR.rdma_cmd &&& 0x07) <<< 3) |||
  (bit s.CR.tx_packet <<< 2) |||
  (bit s.CR.start <<< 1) |||
  bit s.CR.stop

/-- The function `bx_ne2k_c::tx_timer`. -/
def tx_timer (s : State) : State :=
  let s1 := { s with TSR.tx_ok := true }
  let s2 := if s1.IMR.tx_inte ∧ ¬ s1.ISR.pkt_tx then PIC_ActivateIRQ s1 else s1
  { s2 with ISR.pkt_tx := true, tx_timer_active := false }

/-- The callback `NE2000_TX_Event`. -/
def NE2000_TX_Event (s : State) : State :=
  tx_timer { s with trace := s.trace ++ [Effect.txEvent] }

/-! ## Receive path -/

/-- The test `!memcmp(a, b, 6)`. -/
def memeq6 (a b : Nat → Nat) : Bool :=
  a 0 == b 0 && a 1 == b 1 && a 2 == b 2 && a 3 == b 3 && a 4 == b 4 && a 5 == b 5

/-- The array `bcast_addr` of `rx_frame`. -/
def bcast_addr : Nat → Nat := fun _ => 0xff

/-- The local variable `pages` of `rx_frame`. -/
def rx_pages (io_len : Nat) : Nat := (io_len + 4 + 4 + 255) % 2 ^ 32 / 256

/-- The local variable `avail` of `rx_frame`. -/
def rx_avail (s : State) : Int :=
  if s.curr_page < s.bound_ptr then (s.bound_ptr : Int) - s.curr_page
  else ((s.page_stop : Int) - s.page_start) - ((s.curr_page : Int) - s.bound_ptr)

/-- The address filter of `rx_frame`: `true` when one of its `return -1`
statements is reached. -/
def rx_filtered (s : State) (buf : Nat → Nat) : Bool :=
  if ¬ s.RCR.promisc then
    if memeq6 (pktbuf buf) bcast_addr then
      !s.RCR.broadcast
    else if pktbuf buf 0 &&& 0x01 ≠ 0 then
      if ¬ s.RCR.multicast then true
      else decide (s.mchash (mcast_index buf >>> 3) &&& (1 <<< (mcast_index buf &&& 0x7)) = 0)
    else !memeq6 (pktbuf buf) s.physaddr
  else false

/-- The local variable `nextpage` of `rx_frame` (a `uint8_t`). -/
def rx_nextpage (s : State) (pages : Nat) : Nat :=
  let nextpage : Nat := (s.curr_page + pages) % 256
  if nextpage ≥ s.page_stop then
    (((nextpage : Int) - ((s.page_stop : Int) - s.page_start) % 256) % 256).toNat
  else nextpage

/-- The array `pkthdr` of `rx_frame`; `io_len` is the padded length. -/
def rx_pkthdr (buf : Nat → Nat) (nextpage io_len : Nat) : Nat → Nat := fun i =>
  match i with
  | 0 => if pktbuf buf 0 &&& 0x01 ≠ 0 then 1 ||| 0x20 else 1
  | 1 => nextpage
  | 2 => ((io_len + 4) % 2 ^ 32) &&& 0xff
  | _ => (((io_len + 4) % 2 ^ 32) >>> 8) % 256

/-- The local variable `endbytes` of `rx_frame` (an `unsigned int`). -/
def rx_endbytes (s : State) : Nat :=
  (((s.page_stop : Int) - s.curr_page) % 2 ^ 32).toNat * 256 % 2 ^ 32

/-- The chip memory after the copies of `rx_frame`; `io_len` is the padded
length.  The second pointer of the split copy is computed in `unsigned`
arithmetic (`page_start * 256u - BX_NE2K_MEMSTART`). -/
def rx_copy (L : Layout) (s : State) (buf : Nat → Nat) (pages nextpage io_len : Nat) : Int → Nat :=
  let pkthdr := rx_pkthdr buf nextpage io_len
  let startptr : Int := (s.curr_page : Int) * 256 - L.MEMSTART
  if nextpage > s.curr_page ∨ s.curr_page + pages = s.page_stop then
    memcpy (memcpy s.mem startptr pkthdr 4) (startptr + 4) (pktbuf buf) io_len
  else
    let endbytes : Nat := rx_endbytes s
    let startptr2 : Int := ((s.page_start * 256 + 2 ^ 32 - L.MEMSTART % 2 ^ 32) % 2 ^ 32 : Nat)
    memcpy
      (memcpy (memcpy s.mem startptr pkthdr 4) (startptr + 4) (pktbuf buf)
        ((endbytes + 2 ^ 32 - 4) % 2 ^ 32))
      startptr2 (fun k => pktbuf buf (endbytes - 4 + k)) ((io_len + 2 ^ 32 - endbytes + 8) % 2 ^ 32)

/-- The conversion `static_cast<int>` of an `unsigned`. -/
def to_int (n : Nat) : Int :=
  if n % 2 ^ 32 < 2 ^ 31 then ((n % 2 ^ 32 : Nat) : Int) else ((n % 2 ^ 32 : Nat) : Int) - 2 ^ 32

/-- The function `bx_ne2k_c::rx_frame` for a buffer outside the chip memory (a
packet of the transport).  `buf` is the memory behind the pointer argument,
`io_len` the `unsigned` length.  The result is the new state and the `int`
returned.  The call with a pointer into the chip memory is `rx_frame_ptr`. -/
def rx_frame (L : Layout) (s : State) (buf : Nat → Nat) (io_len : Nat) : State × Int :=
  if s.CR.stop ∨ s.page_start = 0 then (s, -1) else
  let pages : Nat := rx_pages io_len
  let avail : Int := rx_avail s
  if avail < pages ∨ avail = pages then (s, -1) else
  if io_len < 40 ∧ ¬ s.RCR.runts_ok then (s, -1) else
  let io_len : Nat := if io_len < 60 then 60 else io_len
  if rx_filtered s buf then (s, -1) else
  let nextpage : Nat := rx_nextpage s pages
  let s1 := { s with
    mem := rx_copy L s buf pages nextpage io_len
    curr_page := nextpage
    RSR.rx_ok := true }
  let s2 := if pktbuf buf 0 &&& 0x80 ≠ 0 then { s1 with RSR.rx_mbit := true } else s1
  let s3 := { s2 with ISR.pkt_rx := true }
  let s4 := if s3.IMR.rx_inte then PIC_ActivateIRQ s3 else s3
  (s4, to_int io_len)

/-- The pointer `&s.mem[tx_page_start * 256 - BX_NE2K_MEMSTART]` that a loopback
transmit hands to `rx_frame`: `loopback_view L s m k` is the byte `pktbuf[k]`
behind it while the chip memory is `m`. -/
def loopback_view (L : Layout) (s : State) : (Int → Nat) → Nat → Nat :=
  fun m k => m ((s.tx_page_start : Int) * 256 - L.MEMSTART + k)

/-- The copies of `rx_frame` when `buf` points into the chip memory itself:
`view m k` is the byte `pktbuf[k]` while the chip memory is `m`.  The header is
built from the memory as it is on entry; each `memcpy` reads its source from
the memory the earlier copies left.  A `memcpy` whose source and destination
overlap has no defined result in C; the model lets it read the memory as it is
when that copy starts. -/
def rx_copy_ptr (L : Layout) (s : State) (view : (Int → Nat) → Nat → Nat)
    (pages nextpage io_len : Nat) : Int → Nat :=
  let pkthdr := rx_pkthdr (view s.mem) nextpage io_len
  let startptr : Int := (s.curr_page : Int) * 256 - L.MEMSTART
  if nextpage > s.curr_page ∨ s.curr_page + pages = s.page_stop then
    let m1 := memcpy s.mem startptr pkthdr 4
    memcpy m1 (startptr + 4) (pktbuf (view m1)) io_len
  else
    let endbytes : Nat := rx_endbytes s
    let m1 := memcpy s.mem startptr pkthdr 4
    let m2 := memcpy m1 (startptr + 4) (pktbuf (view m1)) ((endbytes + 2 ^ 32 - 4) % 2 ^ 32)
    let startptr2 : Int := ((s.page_start * 256 + 2 ^ 32 - L.MEMSTART % 2 ^ 32) % 2 ^ 32 : Nat)
    memcpy m2 startptr2 (fun k => pktbuf (view m2) (endbytes - 4 + k))
      ((io_len + 2 ^ 32 - endbytes + 8) % 2 ^ 32)

/-- The function `bx_ne2k_c::rx_frame` called with a pointer into the chip
memory, as `write_cr` does in loopback mode: `view m k` is the byte `pktbuf[k]`
while the chip memory is `m`.  The checks and the header read the memory as it
is on entry, the copies read what the earlier copies left, and the test
`pktbuf[0] & 0x80` after the copies reads the memory they produced. -/
def rx_frame_ptr (L : Layout) (s : State) (view : (Int → Nat) → Nat → Nat) (io_len : Nat) :
    State × Int :=
  if s.CR.stop ∨ s.page_start = 0 then (s, -1) else
  let pages : Nat := rx_pages io_len
  let avail : Int := rx_avail s
  if avail < pages ∨ avail = pages then (s, -1) else
  if io_len < 40 ∧ ¬ s.RCR.runts_ok then (s, -1) else
  let io_len : Nat := if io_len < 60 then 60 else io_len
  if rx_filtered s (view s.mem) then (s, -1) else
  let nextpage : Nat := rx_nextpage s pages
  let s1 := { s with
    mem := rx_copy_ptr L s view pages nextpage io_len
    curr_page := nextpage
    RSR.rx_ok := true }
  let s2 := if pktbuf (view s1.mem) 0 &&& 0x80 ≠ 0 then { s1 with RSR.rx_mbit := true } else s1
  let s3 := { s2 with ISR.pkt_rx := true }
  let s4 := if s3.IMR.rx_inte then PIC_ActivateIRQ s3 else s3
  (s4, to_int io_len)

/-- First part of `write_cr`, up to the assignment of `CR.pgsel`: the reset
bit, the remote-DMA command, the start bit and the page selector.  `value` is
the byte after the validation of the remote-DMA command. -/
def write_cr_regs (s : State) (value : Nat) : State :=
  let s1 := if value &&& 0x01 ≠ 0 then { s with ISR.reset := true, CR.stop := true }
            else { s with CR.stop := false }
  let s2 := { s1 with CR.rdma_cmd := (value &&& 0x38) >>> 3 }
  let s3 := if value &&& 0x02 ≠ 0 ∧ ¬ s2.CR.start then { s2 with ISR.reset := false } else s2
  { s3 with CR.start := flag value 0x02, CR.pgsel := (value &&& 0xc0) >>> 6 }

/-- Second part of `write_cr`: the send-packet command (`rdma_cmd == 3`). -/
def write_cr_sendpkt (L : Layout) (s : State) : State :=
  if s.CR.rdma_cmd = 3 then
    { s with
      remote_start := s.bound_ptr * 256 % 2 ^ 16
      remote_dma := s.bound_ptr * 256 % 2 ^ 16
      remote_bytes :=
        (s.mem ((s.bound_ptr : Int) * 256 + 2 - L.MEMSTART)
          + 256 * s.mem ((s.bound_ptr : Int) * 256 + 2 - L.MEMSTART + 1)) % 2 ^ 16 }
  else s

/-- Third part of `write_cr`: the start-tx bit, in loopback mode or not.  In
the loopback case `rx_frame` is handed a pointer into the chip memory, at
`tx_page_start * 256`, and reads through it while it stores. -/
def write_cr_tx (L : Layout) (s : State) (value : Nat) : State :=
  if value &&& 0x04 ≠ 0 ∧ s.TCR.loop_cntl ≠ 0 then
    if s.TCR.loop_cntl ≠ 1 then s
    else
      let r := (rx_frame_ptr L s (loopback_view L s) s.tx_bytes).1
      let r1 := if r.IMR.tx_inte ∧ ¬ r.ISR.pkt_tx then PIC_ActivateIRQ r else r
      { r1 with ISR.pkt_tx := true }
  else if value &&& 0x04 ≠ 0 then
    let t1 := if s.tx_timer_active then NE2000_TX_Event (PIC_RemoveEvents s) else s
    let t2 := SendPacket t1 ((t1.tx_page_start : Int) * 256 - L.MEMSTART) t1.tx_bytes
    let t3 := { t2 with tx_timer_active := true }
    PIC_AddEvent t3 (64 + 96 + 4 * 8 + t3.tx_bytes * 8)
  else s

/-- Last part of `write_cr`: the zero-length remote read with which Linux
probes for the interrupt. -/
def write_cr_probe (s : State) : State :=
  if s.CR.rdma_cmd = 0x01 ∧ s.CR.start ∧ s.remote_bytes = 0 then
    let u := { s with ISR.rdma_done := true }
    if u.IMR.rdma_inte then PIC_ActivateIRQ u else u
  else s

/-- The function `bx_ne2k_c::write_cr`. -/
def write_cr (L : Layout) (s : State) (data : Nat) : State :=
  let value0 : Nat := data % 256
  let value : Nat := if value0 &&& 0x38 = 0x00 then value0 ||| 0x20 else value0
  write_cr_probe (write_cr_tx L (write_cr_sendpkt L (write_cr_regs s value)) value)

/-! ## Chip memory and the ASIC data port -/

/-- The function `bx_ne2k_c::chipmem_read`. -/
def chipmem_read (L : Layout) (s : State) (address : Nat) (io_len : io_width_t) : Nat :=
  if address ≤ 31 then
    let r0 := s.macaddr address
    let r1 := if io_len = .word ∨ io_len = .dword then r0 ||| (s.macaddr (address + 1) <<< 8) else r0
    if (io_len = .word ∨ io_len = .dword) ∧ io_len = .dword then
      r1 ||| (s.macaddr (address + 2) <<< 16) ||| (s.macaddr (address + 3) <<< 24)
    else r1
  else if address ≥ L.MEMSTART ∧ address < L.MEMEND then
    let r0 := s.mem ((address : Int) - L.MEMSTART)
    let r1 := if io_len = .word ∨ io_len = .dword then r0 ||| (s.mem ((address : Int) - L.MEMSTART + 1) <<< 8) else r0
    if io_len = .dword then
      r1 ||| (s.mem ((address : Int) - L.MEMSTART + 2) <<< 16) ||| (s.mem ((address : Int) - L.MEMSTART + 3) <<< 24)
    else r1
  else 0xff

/-- Storing `v` into one cell of an array. -/
def store {α : Type} [DecidableEq α] (a : α → Nat) (i : α) (v : Nat) : α → Nat :=
  fun j => if j = i then v else a j

/-- The function `bx_ne2k_c::chipmem_write`. -/
def chipmem_write (L : Layout) (s : State) (address : Nat) (data : Nat) (io_len : io_width_t) : State :=
  let value := data % 2 ^ 16
  if address ≥ L.MEMSTART ∧ address < L.MEMEND then
    let m1 := store s.mem ((address : Int) - L.MEMSTART) (value &&& 0xff)
    let m2 := if io_len = .word then store m1 ((address : Int) - L.MEMSTART + 1) (value >>> 8) else m1
    { s with mem := m2 }
  else s

/-- The cursor wrap shared by `asic_read` and `asic_write`: on reaching
`page_stop << 8` the cursor `remote_dma` goes back to `page_start << 8`. -/
def rdma_wrap (s : State) : State :=
  if s.remote_dma = s.page_stop <<< 8 then
    { s with remote_dma := (s.page_start <<< 8) % 2 ^ 16 } else s

/-- The end of the data-port case of `asic_read` and `asic_write`: when the
count has reached 0, signal remote-DMA complete. -/
def rdma_complete (s : State) : State :=
  if s.remote_bytes = 0 then
    let s1 := { s with ISR.rdma_done := true }
    if s1.IMR.rdma_inte then PIC_ActivateIRQ s1 else s1
  else s

/-- The countdown of `asic_read`, which keeps `remote_bytes` from underflowing. -/
def rdma_count_read (s : State) : State :=
  if s.remote_bytes > 1 then
    { s with remote_bytes := (s.remote_bytes + 2 ^ 16 - (bit s.DCR.wdsize + 1)) % 2 ^ 16 }
  else { s with remote_bytes := 0 }

/-- The countdown of `asic_write`. -/
def rdma_count_write (L : Layout) (s : State) (io_len : io_width_t) : State :=
  let s1 := { s with remote_bytes := (s.remote_bytes + 2 ^ 16 - enum_val io_len) % 2 ^ 16 }
  if s1.remote_bytes > L.MEMSIZ then { s1 with remote_bytes := 0 } else s1

/-- The function `bx_ne2k_c::asic_read`: new state and value returned. -/
def asic_read (L : Layout) (s : State) (offset : Nat) (io_len : io_width_t) : State × Nat :=
  match offset with
  | 0x0 =>
    if s.remote_bytes = 0 then (s, 0) else
    let io_len := if s.remote_bytes = 1 then io_width_t.byte else io_len
    let retval := chipmem_read L s s.remote_dma io_len
    let s1 := { s with remote_dma := (s.remote_dma + (bit s.DCR.wdsize + 1)) % 2 ^ 16 }
    (rdma_complete (rdma_count_read (rdma_wrap s1)), retval)
  | 0xf => (reset L s, 0)
  | _ => (s, 0)

/-- The function `bx_ne2k_c::asic_write`. -/
def asic_write (L : Layout) (s : State) (offset : Nat) (value : Nat) (io_len : io_width_t) : State :=
  match offset with
  | 0x0 =>
    if io_len = .word ∧ s.DCR.wdsize = false then s else
    let s1 := chipmem_write L s s.remote_dma value io_len
    let s2 := { s1 with remote_dma := (s1.remote_dma + enum_val io_len) % 2 ^ 16 }
    rdma_complete (rdma_count_write L (rdma_wrap s2) io_len)
  | 0xf => reset L s
  | _ => s

/-! ## The paged register file -/

/-- The ISR byte as `page0_read` assembles it. -/
def isr_byte (r : ISR_t) : Nat :=
  (bit r.reset <<< 7) ||| (bit r.rdma_done <<< 6) ||| (bit r.cnt_oflow <<< 5) |||
  (bit r.overwrite <<< 4) ||| (bit r.tx_err <<< 3) ||| (bit r.rx_err <<< 2) |||
  (bit r.pkt_tx <<< 1) ||| bit r.pkt_rx

/-- The seven maskable ISR bits as `page0_write` assembles them. -/
def isr_low (r : ISR_t) : Nat :=
  (bit r.rdma_done <<< 6) ||| (bit r.cnt_oflow <<< 5) |||
  (bit r.overwrite <<< 4) ||| (bit r.tx_err <<< 3) ||| (bit r.rx_err <<< 2) |||
  (bit r.pkt_tx <<< 1) ||| bit r.pkt_rx

/-- The IMR byte as `page0_write` and `page2_read` assemble it. -/
def imr_byte (r : IMR_t) : Nat :=
  (bit r.rdma_inte <<< 6) ||| (bit r.cofl_inte <<< 5) |||
  (bit r.overw_inte <<< 4) ||| (bit r.txerr_inte <<< 3) ||| (bit r.rxerr_inte <<< 2) |||
  (bit r.tx_inte <<< 1) ||| bit r.rx_inte

/-- The function `bx_ne2k_c::page0_read`. -/
def page0_read (s : State) (offset : Nat) (io_len : io_width_t) : Nat :=
  if enum_val io_len > 1 then 0 else
  match offset with
  | 0x1 => s.local_dma &&& 0xff
  | 0x2 => s.local_dma >>> 8
  | 0x3 => s.bound_ptr
  | 0x4 =>
    (bit s.TSR.ow_coll <<< 7) ||| (bit s.TSR.cd_hbeat <<< 6) ||| (bit s.TSR.fifo_ur <<< 5) |||
    (bit s.TSR.no_carrier <<< 4) ||| (bit s.TSR.aborted <<< 3) ||| (bit s.TSR.collided <<< 2) |||
    bit s.TSR.tx_ok
  | 0x5 => s.num_coll
  | 0x6 => s.fifo
  | 0x7 => isr_byte s.ISR
  | 0x8 => s.remote_dma &&& 0xff
  | 0x9 => s.remote_dma >>> 8
  | 0xa => 0xff
  | 0xb => 0xff
  | 0xc =>
    (bit s.RSR.deferred <<< 7) ||| (bit s.RSR.rx_disabled <<< 6) ||| (bit s.RSR.rx_mbit <<< 5) |||
    (bit s.RSR.rx_missed <<< 4) ||| (bit s.RSR.fifo_or <<< 3) ||| (bit s.RSR.bad_falign <<< 2) |||
    (bit s.RSR.bad_crc <<< 1) ||| bit s.RSR.rx_ok
  | 0xd => s.tallycnt_0
  | 0xe => s.tallycnt_1
  | 0xf => s.tallycnt_2
  | _ => 0

/-- Case `0x7` (ISR) of `page0_write`. -/
def isr_write (s : State) (value : Nat) : State :=
  let value := value &&& 0x7f
  let s1 := { s with
    ISR.pkt_rx := s.ISR.pkt_rx && !flag value 0x01
    ISR.pkt_tx := s.ISR.pkt_tx && !flag value 0x02
    ISR.rx_err := s.ISR.rx_err && !flag value 0x04
    ISR.tx_err := s.ISR.tx_err && !flag value 0x08
    ISR.overwrite := s.ISR.overwrite && !flag value 0x10
    ISR.cnt_oflow := s.ISR.cnt_oflow && !flag value 0x20
    ISR.rdma_done := s.ISR.rdma_done && !flag value 0x40 }
  let new_value := isr_low s1.ISR &&& imr_byte s1.IMR
  if new_value = 0 then PIC_DeActivateIRQ s1 else s1

/-- Case `0xd` (TCR) of `page0_write`. -/
def tcr_write (s : State) (value : Nat) : State :=
  let s1 := if value &&& 0x06 ≠ 0 then { s with TCR.loop_cntl := (value &&& 0x6) >>> 1 }
            else { s with TCR.loop_cntl := 0 }
  { s1 with TCR.coll_prio := flag value 0x08 }

/-- Case `0xf` (IMR) of `page0_write`. -/
def imr_write (s : State) (value : Nat) : State :=
  let s1 := { s with
    IMR.rx_inte := flag value 0x01
    IMR.tx_inte := flag value 0x02
    IMR.rxerr_inte := flag value 0x04
    IMR.txerr_inte := flag value 0x08
    IMR.overw_inte := flag value 0x10
    IMR.cofl_inte := flag value 0x20
    IMR.rdma_inte := flag value 0x40 }
  if s1.ISR.pkt_tx ∧ s1.IMR.tx_inte then PIC_ActivateIRQ s1 else s1

/-- The byte-width part of `bx_ne2k_c::page0_write` (the code after the
word-splitting prologue). -/
def page0_write_byte (s : State) (offset : Nat) (data : Nat) : State :=
  let value := data % 256
  match offset with
  | 0x1 => { s with page_start := value }
  | 0x2 => { s with page_stop := value }
  | 0x3 => { s with bound_ptr := value }
  | 0x4 => { s with tx_page_start := value }
  | 0x5 => { s with tx_bytes := (s.tx_bytes &&& 0xff00) ||| (value &&& 0xff) }
  | 0x6 => { s with tx_bytes := (s.tx_bytes &&& 0x00ff) ||| ((value &&& 0xff) <<< 8) }
  | 0x7 => isr_write s value
  | 0x8 => { s with
      remote_start := (s.remote_start &&& 0xff00) ||| (value &&& 0xff)
      remote_dma := (s.remote_start &&& 0xff00) ||| (value &&& 0xff) }
  | 0x9 => { s with
      remote_start := (s.remote_start &&& 0x00ff) ||| ((value &&& 0xff) <<< 8)
      remote_dma := (s.remote_start &&& 0x00ff) ||| ((value &&& 0xff) <<< 8) }
  | 0xa => { s with remote_bytes := (s.remote_bytes &&& 0xff00) ||| (value &&& 0xff) }
  | 0xb => { s with remote_bytes := (s.remote_bytes &&& 0x00ff) ||| ((value &&& 0xff) <<< 8) }
  | 0xc =>
    { s with
      RCR.errors_ok := flag value 0x01
      RCR.runts_ok := flag value 0x02
      RCR.broadcast := flag value 0x04
      RCR.multicast := flag value 0x08
      RCR.promisc := flag value 0x10
      RCR.monitor := flag value 0x20 }
  | 0xd => tcr_write s value
  | 0xe =>
    { s with
      DCR.wdsize := flag value 0x01
      DCR.endian := flag value 0x02
      DCR.longaddr := flag value 0x04
      DCR.loop := flag value 0x08
      DCR.auto_rx := flag value 0x10
      DCR.fifo_size := (value &&& 0x50) >>> 5 }
  | 0xf => imr_write s value
  | _ => s

/-- The function `bx_ne2k_c::page0_write`: a word write is two byte writes, at
`offset` and at `offset + 1` (an `io_port_t`). -/
def page0_write (s : State) (offset : Nat) (data : Nat) (io_len : io_width_t) : State :=
  if io_len = .word then
    let value := data % 2 ^ 16
    page0_write_byte (page0_write_byte s offset (value &&& 0xff))
      ((offset + 1) % 2 ^ 16) ((value >>> 8) &&& 0xff)
  else page0_write_byte s offset data

/-- The function `bx_ne2k_c::page1_read`. -/
def page1_read (s : State) (offset : Nat) (_io_len : io_width_t) : Nat :=
  if 0x1 ≤ offset ∧ offset ≤ 0x6 then s.physaddr (offset - 1)
  else if offset = 0x7 then s.curr_page
  else if 0x8 ≤ offset ∧ offset ≤ 0xf then s.mchash (offset - 8)
  else 0

/-- The function `bx_ne2k_c::page1_write`. -/
def page1_write (s : State) (offset : Nat) (data : Nat) (_io_len : io_width_t) : State :=
  let value := data % 256
  if 0x1 ≤ offset ∧ offset ≤ 0x6 then { s with physaddr := store s.physaddr (offset - 1) value }
  else if offset = 0x7 then { s with curr_page := value }
  else if 0x8 ≤ offset ∧ offset ≤ 0xf then { s with mchash := store s.mchash (offset - 8) value }
  else s

/-- The function `bx_ne2k_c::page2_read`. -/
def page2_read (s : State) (offset : Nat) (_io_len : io_width_t) : Nat :=
  match offset with
  | 0x1 => s.page_start
  | 0x2 => s.page_stop
  | 0x3 => s.rempkt_ptr
  | 0x4 => s.tx_page_start
  | 0x5 => s.localpkt_ptr
  | 0x6 => s.address_cnt >>> 8
  | 0x7 => s.address_cnt &&& 0xff
  | 0x8 => 0xff
  | 0x9 => 0xff
  | 0xa => 0xff
  | 0xb => 0xff
  | 0xc =>
    (bit s.RCR.monitor <<< 5) ||| (bit s.RCR.promisc <<< 4) ||| (bit s.RCR.multicast <<< 3) |||
    (bit s.RCR.broadcast <<< 2) ||| (bit s.RCR.runts_ok <<< 1) ||| bit s.RCR.errors_ok
  | 0xd =>
    (bit s.TCR.coll_prio <<< 4) ||| (bit s.TCR.ext_stoptx <<< 3) |||
    ((s.TCR.loop_cntl &&& 0x3) <<< 1) ||| bit s.TCR.crc_disable
  | 0xe =>
    ((s.DCR.fifo_size &&& 0x3) <<< 5) ||| (bit s.DCR.auto_rx <<< 4) ||| (bit s.DCR.loop <<< 3) |||
    (bit s.DCR.longaddr <<< 2) ||| (bit s.DCR.endian <<< 1) ||| bit s.DCR.wdsize
  | 0xf => imr_byte s.IMR
  | _ => 0

/-- The function `bx_ne2k_c::page2_write`. -/
def page2_write (s : State) (offset : Nat) (data : Nat) (_io_len : io_width_t) : State :=
  let value := data % 256
  match offset with
  | 0x1 => { s with local_dma := (s.local_dma &&& 0xff00) ||| (value &&& 0xff) }
  | 0x2 => { s with local_dma := (s.local_dma &&& 0x00ff) ||| ((value &&& 0xff) <<< 8) }
  | 0x3 => { s with rempkt_ptr := value }
  | 0x5 => { s with localpkt_ptr := value }
  | 0x6 => { s with address_cnt := (s.address_cnt &&& 0x00ff) ||| ((value &&& 0xff) <<< 8) }
  | 0x7 => { s with address_cnt := (s.address_cnt &&& 0xff00) ||| (value &&& 0xff) }
  | _ => s

/-- The function `bx_ne2k_c::page3_read`. -/
def page3_read (_s : State) (_offset : Nat) (_io_len : io_width_t) : Nat := 0

/-- The function `bx_ne2k_c::page3_write`. -/
def page3_write (s : State) (_offset : Nat) (_data : Nat) (_io_len : io_width_t) : State := s

/-! ## Port handlers, initialisation and runs of the device -/

/-- The function `bx_ne2k_c::read`: new state and value returned.  `address`
is an `io_port_t`, so the offset is computed modulo `2 ^ 16`. -/
def read (L : Layout) (s : State) (address : Nat) (io_len : io_width_t) : State × Nat :=
  let offset := (address + 2 ^ 16 - s.base_address % 2 ^ 16) % 2 ^ 16
  if offset ≥ 0x10 then asic_read L s (offset - 0x10) io_len
  else if offset = 0x00 then (s, read_cr s)
  else
    match s.CR.pgsel with
    | 0x00 => (s, page0_read s offset io_len)
    | 0x01 => (s, page1_read s offset io_len)
    | 0x02 => (s, page2_read s offset io_len)
    | 0x03 => (s, page3_read s offset io_len)
    | _ => (s, 0)

/-- The function `bx_ne2k_c::write`. -/
def write (L : Layout) (s : State) (address : Nat) (value : Nat) (io_len : io_width_t) : State :=
  let offset := (address + 2 ^ 16 - s.base_address % 2 ^ 16) % 2 ^ 16
  if offset ≥ 0x10 then asic_write L s (offset - 0x10) value io_len
  else if offset = 0x00 then write_cr L s value
  else
    match s.CR.pgsel with
    | 0x00 => page0_write s offset value io_len
    | 0x01 => page1_write s offset value io_len
    | 0x02 => page2_write s offset value io_len
    | 0x03 => page3_write s offset value io_len
    | _ => s

/-- The handler `dosbox_write`, which casts the value to `uint16_t` first. -/
def dosbox_write (L : Layout) (s : State) (port : Nat) (value : Nat) (width : io_width_t) : State :=
  write L s port (value % 2 ^ 16) width

/-- The function `bx_ne2k_c::init`. -/
def init (L : Layout) (s : State) : State :=
  reset L { s with macaddr := fun i => if i < 12 then s.physaddr (i / 2) else if i < 32 then 0x57 else s.macaddr i }

/-- The device as the `NE2K` constructor leaves it before calling `init`:
zero-initialised, with the station address, port base and interrupt line set. -/
def fresh (mac : Nat → Nat) (base irq : Nat) : State :=
  { physaddr := fun i => mac i % 256, base_address := base % 2 ^ 16, base_irq := irq }

/-- Firing the `k`-th scheduled transmit-completion event. -/
def fire (s : State) (k : Nat) : State :=
  if k < s.events.length then NE2000_TX_Event { s with events := s.events.eraseIdx k } else s

/-- One thing that can happen to the device: a port read, a port write, a
frame delivered to `rx_frame`, or a scheduled completion event firing. -/
inductive Step (L : Layout) : State → State → Prop where
  | read (s : State) (address : Nat) (io_len : io_width_t) : Step L s (read L s address io_len).1
  | write (s : State) (address value : Nat) (io_len : io_width_t) :
      Step L s (dosbox_write L s address value io_len)
  | rx (s : State) (buf : Nat → Nat) (io_len : Nat) : io_len < 2 ^ 16 →
      Step L s (rx_frame L s buf io_len).1
  | tx (s : State) (k : Nat) : k < s.events.length → Step L s (fire s k)

/-- The states reachable from `init()`. -/
inductive Reachable (L : Layout) : State → Prop where
  | init (mac : Nat → Nat) (base irq : Nat) : Reachable L (init L (fresh mac base irq))
  | step (s t : State) : Reachable L s → Step L s t → Reachable L t

/-! ## Vocabulary of the specification -/

/-- The frame is accepted: `rx_frame` does not return the reject sentinel -1. -/
@[reducible] def accepts (L : Layout) (s : State) (buf : Nat → Nat) (io_len : Nat) : Prop :=
  (rx_frame L s buf io_len).2 ≠ -1

/-- Pages required by a frame of length `len`: `ceil((len + 4 + 4) / 256)`. -/
def pages_required (len : Nat) : Nat := (len + 8 + 255) / 256

/-- Free pages of the ring as the specification states them. -/
def free_pages (s : State) : Int :=
  if s.curr_page < s.bound_ptr then (s.bound_ptr : Int) - s.curr_page
  else ((s.page_stop : Int) - s.page_start) - ((s.curr_page : Int) - s.bound_ptr)

/-- The destination address is the all-ones broadcast address. -/
@[reducible] def is_broadcast (buf : Nat → Nat) : Prop := ∀ i, i < 6 → pktbuf buf i = 0xff

/-- The destination address passes the address filter, in the words of the
specification. -/
@[reducible] def dest_accepted (s : State) (buf : Nat → Nat) : Prop :=
  s.RCR.promisc = true ∨
  (is_broadcast buf ∧ s.RCR.broadcast = true) ∨
  (¬ is_broadcast buf ∧ pktbuf buf 0 % 2 = 1 ∧ s.RCR.multicast = true ∧
    (s.mchash (mcast_index buf / 8)).testBit (mcast_index buf % 8) = true) ∨
  (pktbuf buf 0 % 2 = 0 ∧ ∀ i, i < 6 → pktbuf buf i = s.physaddr i)

/-- The page `n` pages after `curr_page`, wrapped into the ring: reduced by the
ring size exactly when it reaches `page_stop`. -/
def ring_advance (s : State) (n : Nat) : Int :=
  if s.curr_page + n ≥ s.page_stop then
    ((s.curr_page + n : Nat) : Int) - ((s.page_stop : Int) - s.page_start)
  else ((s.curr_page + n : Nat) : Int)

/-- The stopped/unconfigured, free-space and runt checks and the address filter
of `rx_frame` all pass. -/
def rx_passes (s : State) (buf : Nat → Nat) (io_len : Nat) : Prop :=
  s.CR.stop = false ∧ s.page_start ≠ 0 ∧ (rx_pages io_len : Int) < rx_avail s ∧
  (40 ≤ io_len ∨ s.RCR.runts_ok = true) ∧ rx_filtered s buf = false

/-- The state an accepted frame leaves behind. -/
def rx_commit (L : Layout) (s : State) (buf : Nat → Nat) (io_len : Nat) : State :=
  let pages := rx_pages io_len
  let io_len : Nat := if io_len < 60 then 60 else io_len
  let nextpage := rx_nextpage s pages
  let s1 := { s with
    mem := rx_copy L s buf pages nextpage io_len
    curr_page := nextpage
    RSR.rx_ok := true }
  let s2 := if pktbuf buf 0 &&& 0x80 ≠ 0 then { s1 with RSR.rx_mbit := true } else s1
  let s3 := { s2 with ISR.pkt_rx := true }
  if s3.IMR.rx_inte then PIC_ActivateIRQ s3 else s3

/-- The state an accepted frame leaves behind when `rx_frame` was called with a
pointer into the chip memory. -/
def rx_commit_ptr (L : Layout) (s : State) (view : (Int → Nat) → Nat → Nat) (io_len : Nat) :
    State :=
  let pages := rx_pages io_len
  let io_len : Nat := if io_len < 60 then 60 else io_len
  let nextpage := rx_nextpage s pages
  let s1 := { s with
    mem := rx_copy_ptr L s view pages nextpage io_len
    curr_page := nextpage
    RSR.rx_ok := true }
  let s2 := if pktbuf (view s1.mem) 0 &&& 0x80 ≠ 0 then { s1 with RSR.rx_mbit := true } else s1
  let s3 := { s2 with ISR.pkt_rx := true }
  if s3.IMR.rx_inte then PIC_ActivateIRQ s3 else s3

/-! ## Concrete states and frames -/

/-- A started device with the ring `0x46 .. 0x80`, as a driver sets it up
(`BNRY = PSTART`, `CURR = PSTART + 1`), accepting broadcasts. -/
def ring_state : State :=
  { page_start := 0x46, page_stop := 0x80, bound_ptr := 0x46, curr_page := 0x47,
    RCR := { broadcast := true } }

/-- A frame to the broadcast address; byte `i` of the payload is `i`. -/
def bcast_frame : Nat → Nat := fun i => if i < 6 then 0xff else i

/-- A promiscuous device whose ring is the whole chip memory of `layout32K`,
empty, with `curr_page` on its last page. -/
def full_ring_state : State :=
  { page_start := 0x40, page_stop := 0xc0, bound_ptr := 0xbf, curr_page := 0xbf,
    RCR := { promisc := true } }

/-- A chip address advanced past `page_stop * 256` wraps back by the ring size. -/
def ring_wrap (s : State) (a : Nat) : Nat :=
  if a < s.page_stop * 256 then a else a - (s.page_stop - s.page_start) * 256

/-- The four ring registers hold 8-bit values (they are `uint8_t` fields). -/
@[reducible] def byte_regs (s : State) : Prop :=
  s.page_start < 256 ∧ s.page_stop < 256 ∧ s.bound_ptr < 256 ∧ s.curr_page < 256

/-- Every store of the copies of `rx_frame` lands in the array `mem[0 .. MEMSIZ)`,
that is, the call stays within the defined behaviour of `memcpy`. -/
@[reducible] def rx_in_bounds (L : Layout) (s : State) (io_len : Nat) : Prop :=
  let pages := rx_pages io_len
  let io_len : Nat := if io_len < 60 then 60 else io_len
  let nextpage := rx_nextpage s pages
  let startptr : Int := (s.curr_page : Int) * 256 - L.MEMSTART
  if nextpage > s.curr_page ∨ s.curr_page + pages = s.page_stop then
    0 ≤ startptr ∧ startptr + 4 + io_len ≤ L.MEMSIZ
  else
    let endbytes : Nat := rx_endbytes s
    let startptr2 : Int := ((s.page_start * 256 + 2 ^ 32 - L.MEMSTART % 2 ^ 32) % 2 ^ 32 : Nat)
    0 ≤ startptr ∧
    startptr + 4 + ((endbytes + 2 ^ 32 - 4) % 2 ^ 32 : Nat) ≤ L.MEMSIZ ∧
    startptr2 + ((io_len + 2 ^ 32 - endbytes + 8) % 2 ^ 32 : Nat) ≤ L.MEMSIZ

/-- A promiscuous device with the two-page ring `0x46 .. 0x48`, `curr_page`
inside it and `bound_ptr = 0x60` outside it. -/
def small_ring_state : State :=
  { page_start := 0x46, page_stop := 0x48, bound_ptr := 0x60, curr_page := 0x47,
    RCR := { promisc := true } }

/-- The ISR after a write of `v`, in the words of the specification: each of
the seven maskable flags is cleared where `v` has a 1, `reset` is kept. -/
def isr_after_write (r : ISR_t) (v : Nat) : ISR_t :=
  { pkt_rx := r.pkt_rx && !v.testBit 0
    pkt_tx := r.pkt_tx && !v.testBit 1
    rx_err := r.rx_err && !v.testBit 2
    tx_err := r.tx_err && !v.testBit 3
    overwrite := r.overwrite && !v.testBit 4
    cnt_oflow := r.cnt_oflow && !v.testBit 5
    rdma_done := r.rdma_done && !v.testBit 6
    reset := r.reset }

/-- At least one of the seven maskable ISR flags is set. -/
def isr_any (r : ISR_t) : Bool :=
  r.pkt_rx || r.pkt_tx || r.rx_err || r.tx_err || r.overwrite || r.cnt_oflow || r.rdma_done

/-- The interrupt line is asserted only if a maskable ISR flag is set. -/
def irq_inv (s : State) : Prop := s.irq = true → isr_any s.ISR = true

/-- The device after `init()`, then a write of `0x0a` to the Command Register
(remote read, start) and a write of `0x40` to IMR. -/
def probe_state : State :=
  dosbox_write layout32K
    (dosbox_write layout32K (init layout32K (fresh (fun _ => 0) 0x300 3)) 0x300 0x0a .byte)
    0x30f 0x40 .byte

/-- The device after `init()`, then a write of `0x40` to IMR and a write of
`0x0a` to the Command Register (remote read, start): the zero-length remote
read sets `ISR.rdma_done` and, being enabled, raises the interrupt line. -/
def line_raised_state : State :=
  dosbox_write layout32K
    (dosbox_write layout32K (init layout32K (fresh (fun _ => 0) 0x300 3)) 0x30f 0x40 .byte)
    0x300 0x0a .byte

/-- The state `line_raised_state` followed by a write of `0x00` to IMR: every
interrupt is masked while the line raised before is still asserted. -/
def masked_line_state : State := dosbox_write layout32K line_raised_state 0x30f 0x00 .byte


/-! ## Vocabulary for the remote-DMA engine and the transmit path -/

/-- The state after `k` consecutive reads of the ASIC data port (offset 0). -/
def asic_read_n (L : Layout) (w : io_width_t) : Nat → State → State
  | 0, s => s
  | k + 1, s => asic_read_n L w k (asic_read L s 0 w).1

/-- The chip address `a` lies in the receive ring `[page_start*256, page_stop*256)`. -/
@[reducible] def in_ring (s : State) (a : Nat) : Prop :=
  s.page_start * 256 ≤ a ∧ a < s.page_stop * 256

/-- A device in word mode set up to read the 32-byte PROM through remote DMA,
as drivers do when they probe: the cursor starts at chip address 0. -/
def prom_read_state : State :=
  { page_start := 0x46, page_stop := 0x80, remote_dma := 0, remote_bytes := 32,
    DCR := { wdsize := true } }

/-- A device in word mode whose cursor is at the odd address just below
`page_stop * 256`. -/
def odd_cursor_state : State :=
  { page_start := 0x46, page_stop := 0x80, remote_dma := 0x7fff, remote_bytes := 10,
    DCR := { wdsize := true } }

/-- A device with no remote-DMA transfer set up (`remote_bytes = 0`) whose
cursor points at the first byte of chip memory. -/
def idle_dma_state : State :=
  { page_start := 0x46, page_stop := 0x80, remote_dma := 0x4000, remote_bytes := 0 }

/-- The station address the `NE2K` constructor falls back to. -/
def default_mac : Nat → Nat := fun i =>
  match i with
  | 0 => 0xac
  | 1 => 0xde
  | 2 => 0x48
  | 3 => 0x88
  | 4 => 0xbb
  | _ => 0xaa

/-- The device right after `init()`, at port `0x300`, interrupt 3, with the
default station address. -/
def init_state : State := init layout32K (fresh default_mac 0x300 3)

/-- The frame a transmit hands to the transport: the `tx_bytes` bytes of chip
memory from chip address `tx_page_start * 256` on. -/
def tx_frame (L : Layout) (s : State) : List Nat :=
  (List.range s.tx_bytes).map (fun k => s.mem ((s.tx_page_start : Int) * 256 - L.MEMSTART + k))

/-- Bit time of a frame of `n` bytes as the specification states it: preamble,
inter-frame gap, CRC and the bits of the frame. -/
def tx_bits (n : Nat) : Nat := 64 + 96 + 32 + 8 * n

/-- The delay of a completion event scheduled by `PIC_AddEvent` for a bit time
of `bits`, as a rational number: `bits / (100 * 1000.0)`. -/
def tx_delay (bits : Nat) : ℚ := (bits : ℚ) / 100000

/-- The byte written to the Command Register has bit 2 (start-tx) set. -/
@[reducible] def txp_set (data : Nat) : Prop := (data % 256) &&& 0x04 ≠ 0

/-- After `init()`: 100 into TBCR0, then `0x26` into the Command Register
(start, transmit), then a write to the ASIC reset port. -/
def reset_after_tx_state : State :=
  dosbox_write layout32K
    (dosbox_write layout32K
      (dosbox_write layout32K init_state 0x305 100 .byte)
      0x300 0x26 .byte)
    0x31f 0 .byte

/-- The state `reset_after_tx_state` followed by a second transmit: 64 into
TBCR0 and `0x26` into the Command Register. -/
def second_tx_state : State :=
  dosbox_write layout32K
    (dosbox_write layout32K reset_after_tx_state 0x305 64 .byte)
    0x300 0x26 .byte

/-- A started device with a 100-byte frame ready at page `0x40`. -/
def tx_ready_state : State :=
  { CR := { start := true, rdma_cmd := 4 }, tx_page_start := 0x40, tx_bytes := 100,
    page_start := 0x46, page_stop := 0x80, bound_ptr := 0x46, curr_page := 0x47 }


/-! ## Vocabulary for the Command Register and the configuration registers -/

/-- The local `value` of `write_cr` after the validation of the remote-DMA
command: the byte written, with `0x20` or-ed in when bits 3-5 are zero. -/
def cr_value (data : Nat) : Nat :=
  if (data % 256) &&& 0x38 = 0x00 then (data % 256) ||| 0x20 else data % 256

/-- The Command Register invariant: `tx_packet` is clear, `pgsel` has two bits
and `rdma_cmd` is one of `1 .. 7`. -/
def cr_inv (s : State) : Prop :=
  s.CR.tx_packet = false ∧ s.CR.pgsel < 4 ∧ s.CR.rdma_cmd ≠ 0 ∧ s.CR.rdma_cmd < 8

/-- The device after `init()` and a write of `0x0a` (remote read, start) to
the Command Register: with `remote_bytes = 0` this sets `ISR.rdma_done`. -/
def cr_probed_state : State := dosbox_write layout32K init_state 0x300 0x0a .byte

/-- The state in which `write_cr` reaches its start-tx part: after the reset
bit, the remote-DMA command, the start bit, the page selector and the
send-packet command have been dealt with. -/
def cr_pre_tx (L : Layout) (s : State) (data : Nat) : State :=
  write_cr_sendpkt L (write_cr_regs s (cr_value data))

/-- The test of the interrupt probe at the end of `write_cr`. -/
@[reducible] def probe_cond (s : State) : Prop :=
  s.CR.rdma_cmd = 0x01 ∧ s.CR.start = true ∧ s.remote_bytes = 0

/-- A started device whose receive ring holds, at the page `bound_ptr = 0x46`,
a packet header with the length field `0x0168`. -/
def sendpkt_state : State :=
  { CR := { start := true, rdma_cmd := 4 }, page_start := 0x46, page_stop := 0x80,
    bound_ptr := 0x46, curr_page := 0x48,
    mem := fun i => if i = 0x602 then 0x68 else if i = 0x603 then 0x01 else 0 }

/-- The loopback call of `rx_frame` stays within the defined behaviour of
`memcpy` on the side of its source: the bytes read through the pointer
`&s.mem[tx_page_start * 256 - MEMSTART]` lie in the array `mem[0 .. MEMSIZ)`,
and in the copy of the frame, and in both parts of a split copy, source and
destination do not overlap.  (The stores are the subject of `rx_in_bounds`.) -/
@[reducible] def loopback_defined (L : Layout) (s : State) (io_len : Nat) : Prop :=
  let pages := rx_pages io_len
  let io_len : Nat := if io_len < 60 then 60 else io_len
  let nextpage := rx_nextpage s pages
  let startptr : Int := (s.curr_page : Int) * 256 - L.MEMSTART
  let src : Int := (s.tx_page_start : Int) * 256 - L.MEMSTART
  if nextpage > s.curr_page ∨ s.curr_page + pages = s.page_stop then
    0 ≤ src ∧ src + io_len ≤ L.MEMSIZ ∧
    (startptr + 4 + io_len ≤ src ∨ src + io_len ≤ startptr + 4)
  else
    let endbytes : Nat := rx_endbytes s
    let startptr2 : Int := ((s.page_start * 256 + 2 ^ 32 - L.MEMSTART % 2 ^ 32) % 2 ^ 32 : Nat)
    let n2 : Nat := (endbytes + 2 ^ 32 - 4) % 2 ^ 32
    let n3 : Nat := (io_len + 2 ^ 32 - endbytes + 8) % 2 ^ 32
    let src3 : Int := src + (endbytes - 4 : Nat)
    0 ≤ src ∧ src + n2 ≤ L.MEMSIZ ∧ src3 + n3 ≤ L.MEMSIZ ∧
    (startptr + 4 + n2 ≤ src ∨ src + n2 ≤ startptr + 4) ∧
    (startptr2 + n3 ≤ src3 ∨ src3 + n3 ≤ startptr2)

/-- A started promiscuous device in loopback mode 1 whose transmit buffer is
the first page of the ring `0x46 .. 0x80`: `CURR = BNRY = 0x7c`, an 1100-byte
frame at page `0x46`, all zero except for the byte `0x80` at offset 1020 (array
index `0x9fc`).  The split copy of the receive path puts that byte where
`pktbuf[0]` is read afterwards. -/
def alias_loop_state : State :=
  { CR := { start := true, rdma_cmd := 4 }, TCR := { loop_cntl := 1 },
    RCR := { promisc := true },
    tx_page_start := 0x46, tx_bytes := 1100,
    page_start := 0x46, page_stop := 0x80, bound_ptr := 0x7c, curr_page := 0x7c,
    mem := fun i => if i = 0x9fc then 0x80 else 0 }

/-- A sequence of byte writes `(port, value)` issued by the guest, in order. -/
def guest_writes (L : Layout) : State → List (Nat × Nat) → State
  | s, [] => s
  | s, w :: ws => guest_writes L (dosbox_write L s w.1 w.2 .byte) ws

/-- Guest set-up of a loopback transmit whose frame needs 65 pages: the ring is
the whole chip memory `0x40 .. 0xc0` with `BNRY = CURR = 0xbf`, the transmit
buffer starts at page `0x80`, the byte count is `0x3ff9 = 16377`, the receiver
is promiscuous, the transmitter in loopback mode 1, and the device is started. -/
def wrap_loop_setup : List (Nat × Nat) :=
  [(0x301, 0x40), (0x302, 0xc0), (0x303, 0xbf), (0x304, 0x80), (0x305, 0xf9), (0x306, 0x3f),
   (0x30c, 0x10), (0x30d, 0x02), (0x300, 0x61), (0x307, 0xbf), (0x300, 0x22)]

/-- The device after `init()` and the writes of `wrap_loop_setup`. -/
def wrap_loop_state : State := guest_writes layout32K init_state wrap_loop_setup


/-! ## Vocabulary for reset, the PROM mirror and the data-port round trip -/

/-- A promiscuous, started device with the ring `0x46 .. 0x80`. -/
def promisc_ring_state : State :=
  { page_start := 0x46, page_stop := 0x80, bound_ptr := 0x46, curr_page := 0x47,
    RCR := { promisc := true } }

/-- A frame to the multicast address `01:00:5E:00:00:01`; the payload is zero. -/
def mcast_frame : Nat → Nat := fun i =>
  match i with
  | 0 => 0x01
  | 2 => 0x5e
  | 5 => 0x01
  | _ => 0

/-- The multicast address `01:00:5E:00:00:00`. -/
def mcast_addr_0 : Nat → Nat := fun i =>
  match i with
  | 0 => 0x01
  | 2 => 0x5e
  | _ => 0

/-- The multicast address `01:00:5E:00:00:01`. -/
def mcast_addr_1 : Nat → Nat := fun i =>
  match i with
  | 0 => 0x01
  | 2 => 0x5e
  | 5 => 0x01
  | _ => 0

/-- A started device with the ring `0x46 .. 0x80` that accepts multicast frames
for every hash index (all bits of `mchash` set). -/
def mcast_ring_state : State :=
  { page_start := 0x46, page_stop := 0x80, bound_ptr := 0x46, curr_page := 0x47,
    RCR := { multicast := true }, mchash := fun _ => 0xff }

/-- A device in word mode whose remote-DMA cursor is at the last byte of the
PROM window, chip address 31, with two bytes to read. -/
def prom_tail_state : State :=
  { init_state with remote_dma := 31, remote_bytes := 2, DCR := { wdsize := true } }

/-- A device in word mode whose remote-DMA cursor is at the last byte of the
chip memory of `layout32K`, chip address `0xbfff`, with two bytes to write. -/
def mem_tail_state : State :=
  { init_state with remote_dma := 0xbfff, remote_bytes := 2, DCR := { wdsize := true } }

/-- The PROM mirror has the shape `init()` gives it: the first twelve bytes
are six doubled bytes and the bytes `12 .. 31` are the signature `0x57`. -/
def prom_inv (s : State) : Prop :=
  (∀ i, i < 6 → s.macaddr (2 * i) = s.macaddr (2 * i + 1)) ∧
  (∀ k, 12 ≤ k → k < 32 → s.macaddr k = 0x57)

/-- After `init()`: page 1 selected (`0x61` to the Command Register), `0x11`
written to PAR0 (page-1 offset 1), then a soft reset through ASIC offset `0xF`. -/
def par_reset_state : State :=
  dosbox_write layout32K
    (dosbox_write layout32K
      (dosbox_write layout32K init_state 0x300 0x61 .byte)
      0x301 0x11 .byte)
    0x31f 0 .byte

/-- Loading RSAR with the 16-bit address `a` and RBCR with the 16-bit count
`n` through the page-0 registers `0x8 .. 0xb`, one byte each. -/
def rdma_setup (s : State) (a n : Nat) : State :=
  page0_write
    (page0_write
      (page0_write (page0_write s 0x8 (a % 256) .byte) 0x9 (a / 256) .byte)
      0xa (n % 256) .byte)
    0xb (n / 256) .byte

/-- The state after `k` consecutive writes to the ASIC data port (offset 0),
of the values `b 0`, `b 1`, ... in this order. -/
def asic_write_n (L : Layout) (w : io_width_t) : (Nat → Nat) → Nat → State → State
  | _, 0, s => s
  | b, k + 1, s => asic_write_n L w (fun i => b (i + 1)) k (asic_write L s 0 (b 0) w)

/-- A device in byte mode with the ring `0x46 .. 0x80`. -/
def byte_mode_state : State := { page_start := 0x46, page_stop := 0x80 }

theorem xor_mod_two_pow' (a b n : Nat) : (a ^^^ b) % 2 ^ n = (a % 2 ^ n) ^^^ (b % 2 ^ n) := by
  apply Nat.eq_of_testBit_eq
  intro i
  simp only [Nat.testBit_mod_two_pow, Nat.testBit_xor]
  cases decide (i < n) <;> simp

theorem or_mod_two_pow' (a b n : Nat) : (a ||| b) % 2 ^ n = (a % 2 ^ n) ||| (b % 2 ^ n) := by
  apply Nat.eq_of_testBit_eq
  intro i
  simp only [Nat.testBit_mod_two_pow, Nat.testBit_lor]
  cases decide (i < n) <;> simp

theorem and_mod_two_pow' (a b n : Nat) : (a &&& b) % 2 ^ n = (a % 2 ^ n) &&& (b % 2 ^ n) := by
  apply Nat.eq_of_testBit_eq
  intro i
  simp only [Nat.testBit_mod_two_pow, Nat.testBit_land]
  cases decide (i < n) <;> simp

theorem even_lor_one (z : Nat) (h : z % 2 = 0) : z ||| 1 = z ^^^ 1 := by
  apply Nat.eq_of_testBit_eq
  intro i
  rw [Nat.testBit_lor, Nat.testBit_xor]
  cases i with
  | zero =>
    have : z.testBit 0 = false := by rw [Nat.testBit_zero, h]; rfl
    rw [this]; rfl
  | succ k =>
    have : (1 : Nat).testBit (k + 1) = false := by
      rw [Nat.testBit_succ]; exact Nat.zero_testBit k
    rw [this]; simp

theorem and_two_pow_eq (c k : Nat) : c &&& 2 ^ k = 2 ^ k * (c / 2 ^ k % 2) := by
  have hb : c / 2 ^ k % 2 = (c.testBit k).toNat := by
    rw [Nat.testBit_to_div_mod]
    rcases Nat.mod_two_eq_zero_or_one (c / 2 ^ k) with h | h <;> simp [h]
  rw [hb]
  apply Nat.eq_of_testBit_eq
  intro j
  rw [Nat.testBit_land, Nat.testBit_two_pow, Nat.testBit_mul_pow_two, Nat.testBit_bool_to_nat]
  by_cases hj : k = j
  · subst hj; simp
  · have h1 : ¬ (j - k = 0 ∧ j ≥ k) := by omega
    by_cases h2 : j ≥ k
    · have h3 : ¬ (j - k = 0) := by omega
      simp [hj, h2, h3]
    · simp [hj, h2]

theorem carry_bit31 (c : Nat) :
    (if c &&& 0x80000000 ≠ 0 then 1 else 0) = c % 2 ^ 32 / 2 ^ 31 % 2 := by
  have e : (0x80000000 : Nat) = 2 ^ 31 := by norm_num
  rw [e, and_two_pow_eq]
  have : c % 2 ^ 32 / 2 ^ 31 % 2 = c / 2 ^ 31 % 2 := by omega
  rw [this]
  rcases Nat.mod_two_eq_zero_or_one (c / 2 ^ 31) with h | h <;> rw [h] <;> simp

theorem and_one_eq (b : Nat) : b &&& 0x01 = b % 2 :=
  Nat.and_pow_two_sub_one_eq_mod b 1

theorem xor_bits (x y : Nat) (hx : x < 2) (hy : y < 2) : x ^^^ y = (x + y) % 2 := by
  interval_cases x <;> interval_cases y <;> rfl

/-- One pass of the code's inner loop agrees, on the low 32 bits, with one step
of the CRC-32 register. -/
theorem mcast_bit_spec (w crc b : Nat) (hw : 32 ≤ w) :
    (mcast_bit w crc b).1 % 2 ^ 32 = crc32_step (crc % 2 ^ 32) (b % 2) ∧
    (mcast_bit w crc b).2 = b / 2 := by
  have hshift : (crc <<< 1) % 2 ^ w % 2 ^ 32 = crc % 2 ^ 32 * 2 % 2 ^ 32 := by
    rw [Nat.mod_mod_of_dvd _ (Nat.pow_dvd_pow 2 hw), Nat.shiftLeft_eq]
    omega
  have hcarry : ((if crc &&& 0x80000000 ≠ 0 then 1 else 0) ^^^ (b &&& 0x01))
      = (crc % 2 ^ 32 / 2 ^ 31 % 2 + b % 2) % 2 := by
    rw [carry_bit31, and_one_eq]
    exact xor_bits _ _ (Nat.mod_lt _ Nat.two_pos) (Nat.mod_lt _ Nat.two_pos)
  have hmm : crc % 2 ^ 32 % 2 ^ 32 = crc % 2 ^ 32 := Nat.mod_mod _ _
  have hb : b >>> 1 = b / 2 := by rw [Nat.shiftRight_eq_div_pow, pow_one]
  unfold mcast_bit crc32_step
  simp only [hcarry, hmm]
  rcases Nat.mod_two_eq_zero_or_one (crc % 2 ^ 32 / 2 ^ 31 % 2 + b % 2) with h | h
  · rw [h, if_neg (by decide), if_neg (by decide)]
    exact ⟨hshift, hb⟩
  · rw [h, if_pos (by decide), if_pos rfl]
    refine ⟨?_, hb⟩
    show ((crc <<< 1 % 2 ^ w ^^^ POLYNOMIAL) ||| 1) % 2 ^ 32 = _
    rw [or_mod_two_pow', xor_mod_two_pow', hshift]
    have hP : POLYNOMIAL % 2 ^ 32 = 0x04c11db6 := by decide
    have h1 : 1 % 2 ^ 32 = 1 := by norm_num
    rw [hP, h1]
    have hev : (crc % 2 ^ 32 * 2 % 2 ^ 32 ^^^ 0x04c11db6) % 2 = 0 := by
      have h2 := xor_mod_two_pow' (crc % 2 ^ 32 * 2 % 2 ^ 32) 0x04c11db6 1
      rw [pow_one] at h2
      rw [h2]
      have h3 : crc % 2 ^ 32 * 2 % 2 ^ 32 % 2 = 0 := by omega
      rw [h3]
      rfl
    rw [even_lor_one _ hev, Nat.xor_assoc]
    rfl

/-- Eight passes of the inner loop are one byte fed to the CRC-32 register. -/
theorem mcast_inner_spec (w crc b : Nat) (hw : 32 ≤ w) :
    mcast_inner w 8 crc b % 2 ^ 32 = crc32_byte (crc % 2 ^ 32) b := by
  have step : ∀ c x, (mcast_bit w c x).1 % 2 ^ 32 = crc32_step (c % 2 ^ 32) (x % 2) :=
    fun c x => (mcast_bit_spec w c x hw).1
  have snd : ∀ c x, (mcast_bit w c x).2 = x / 2 := fun c x => (mcast_bit_spec w c x hw).2
  have hr : List.range 8 = [0, 1, 2, 3, 4, 5, 6, 7] := by decide
  unfold crc32_byte
  rw [hr]
  simp only [mcast_inner, List.foldl_cons, List.foldl_nil, snd, step]
  have d : ∀ k, b / 2 ^ k / 2 = b / 2 ^ (k + 1) := fun k => by
    rw [Nat.div_div_eq_div_mul, pow_succ]
  simp only [pow_zero, Nat.div_one, pow_one]
  have e2 : b / 2 / 2 = b / 2 ^ 2 := by omega
  have e3 : b / 2 / 2 / 2 = b / 2 ^ 3 := by omega
  have e4 : b / 2 / 2 / 2 / 2 = b / 2 ^ 4 := by omega
  have e5 : b / 2 / 2 / 2 / 2 / 2 = b / 2 ^ 5 := by omega
  have e6 : b / 2 / 2 / 2 / 2 / 2 / 2 = b / 2 ^ 6 := by omega
  have e7 : b / 2 / 2 / 2 / 2 / 2 / 2 / 2 = b / 2 ^ 7 := by omega
  rw [e7, e6, e5, e4, e3, e2]

/-- The code's outer loop keeps the low 32 bits of `crc` equal to the CRC-32
register fed the same bytes. -/
theorem mcast_outer_spec (w : Nat) (dst : Nat → Nat) (hw : 32 ≤ w) (n ep crc : Nat) :
    mcast_outer w dst n ep crc % 2 ^ 32 =
      (((List.range n).map (fun i => pktbuf dst (ep + i))).foldl crc32_byte (crc % 2 ^ 32)) := by
  induction n generalizing ep crc with
  | zero => simp [mcast_outer]
  | succ n ih =>
    rw [mcast_outer, ih, mcast_inner_spec w _ _ hw, List.range_succ_eq_map]
    simp only [List.map_cons, List.foldl_cons, List.map_map, Nat.add_zero]
    congr 2
    funext i
    simp only [Function.comp, Nat.succ_eq_add_one]
    congr 1
    omega

theorem mcast_index_w_spec (w : Nat) (dst : Nat → Nat) (hw : 32 ≤ w) :
    mcast_index_w w dst = mcast_index_spec dst := by
  unfold mcast_index_w mcast_index_spec
  have h := mcast_outer_spec w dst hw 6 0 0xffffffff
  have hm : ∀ x : Nat, x &&& 0xffffffff = x % 2 ^ 32 :=
    fun x => Nat.and_pow_two_sub_one_eq_mod x 32
  rw [hm, h, Nat.shiftRight_eq_div_pow]
  simp only [Nat.zero_add]
  rfl

theorem crc32_step_lt (r x : Nat) : crc32_step r x < 2 ^ 32 := by
  unfold crc32_step
  have h : r * 2 % 2 ^ 32 < 2 ^ 32 := Nat.mod_lt _ (by norm_num)
  simp only
  split
  · exact Nat.xor_lt_two_pow h (by norm_num)
  · exact h

theorem crc32_byte_lt (r x : Nat) : crc32_byte r x < 2 ^ 32 := by
  unfold crc32_byte
  have hl : List.range 8 = [0, 1, 2, 3, 4, 5, 6, 7] := by decide
  rw [hl]
  simp only [List.foldl_cons, List.foldl_nil]
  exact crc32_step_lt _ _

theorem crc32_fold_lt (l : List Nat) (r : Nat) (hr : r < 2 ^ 32) :
    l.foldl crc32_byte r < 2 ^ 32 := by
  induction l generalizing r with
  | nil => exact hr
  | cons x xs ih => exact ih _ (crc32_byte_lt r x)

theorem mcast_index_spec_lt (dst : Nat → Nat) : mcast_index_spec dst < 64 := by
  unfold mcast_index_spec
  have h := crc32_fold_lt ((List.range 6).map (pktbuf dst)) 0xFFFFFFFF (by norm_num)
  omega

/-- C4: `mcast_index` returns the top 6 bits of the standard CRC-32 register
(generator `0x04C11DB7`, start `0xFFFFFFFF`, no final XOR, the six bytes in
order, each least-significant bit first); the result is the same for every
width of `unsigned long` of at least 32 bits, and it is below 64. -/
theorem C4_mcast_index_is_crc32 (dst : Nat → Nat) :
    mcast_index dst = mcast_index_spec dst ∧
    (∀ w, 32 ≤ w → mcast_index_w w dst = mcast_index dst) ∧
    mcast_index dst < 64 := by
  have h64 : mcast_index dst = mcast_index_spec dst := mcast_index_w_spec 64 dst (by norm_num)
  refine ⟨h64, fun w hw => ?_, ?_⟩
  · rw [h64]; exact mcast_index_w_spec w dst hw
  · rw [h64]; exact mcast_index_spec_lt dst


/-- C4 at the broadcast address: a 32-bit `unsigned long` gives the same index. -/
theorem C4_witness :
    mcast_index_w 32 bcast_frame = mcast_index bcast_frame :=
  (C4_mcast_index_is_crc32 bcast_frame).2.1 32 (by decide)

/-! ## The receive path: acceptance and register effects -/

theorem to_int_small (n : Nat) (h : n < 2 ^ 31) : to_int n = (n : Int) := by
  unfold to_int
  have : n % 2 ^ 32 = n := Nat.mod_eq_of_lt (by omega)
  rw [this, if_pos h]

theorem rx_frame_of_passes (L : Layout) (s : State) (buf : Nat → Nat) (io_len : Nat)
    (h : rx_passes s buf io_len) :
    rx_frame L s buf io_len =
      (rx_commit L s buf io_len, to_int (if io_len < 60 then 60 else io_len)) := by
  obtain ⟨h1, h2, h3, h4, h5⟩ := h
  have hrunt : ¬ (io_len < 40 ∧ ¬ s.RCR.runts_ok = true) := by
    rintro ⟨a, b⟩
    rcases h4 with c | c
    · omega
    · exact b c
  have havail : ¬ (rx_avail s < (rx_pages io_len : Int) ∨ rx_avail s = (rx_pages io_len : Int)) := by
    omega
  unfold rx_frame rx_commit
  simp only [h1, h2, h5, hrunt, havail, false_or, if_false, Bool.false_eq_true]
  

theorem rx_frame_of_not_passes (L : Layout) (s : State) (buf : Nat → Nat) (io_len : Nat)
    (h : ¬ rx_passes s buf io_len) :
    rx_frame L s buf io_len = (s, -1) := by
  unfold rx_passes at h
  unfold rx_frame
  by_cases h1 : s.CR.stop = true ∨ s.page_start = 0
  · rw [if_pos h1]
  · rw [if_neg h1]
    simp only
    by_cases h2 : rx_avail s < (rx_pages io_len : Int) ∨ rx_avail s = (rx_pages io_len : Int)
    · rw [if_pos h2]
    · rw [if_neg h2]
      by_cases h3 : io_len < 40 ∧ ¬ s.RCR.runts_ok = true
      · rw [if_pos h3]
      · rw [if_neg h3]
        by_cases h4 : rx_filtered s buf = true
        · rw [if_pos h4]
        · exfalso
          apply h
          refine ⟨?_, ?_, ?_, ?_, ?_⟩
          · cases hs : s.CR.stop
            · rfl
            · exact absurd (Or.inl hs) h1
          · exact fun e => h1 (Or.inr e)
          · omega
          · by_cases h5 : io_len < 40
            · right
              cases hr : s.RCR.runts_ok
              · exact absurd ⟨h5, by simp [hr]⟩ h3
              · rfl
            · left; omega
          · cases hf : rx_filtered s buf
            · rfl
            · exact absurd hf h4

/-- With a buffer that does not change with the chip memory, the call through
a pointer is the plain call. -/
theorem rx_frame_ptr_const (L : Layout) (s : State) (buf : Nat → Nat) (io_len : Nat) :
    rx_frame_ptr L s (fun _ => buf) io_len = rx_frame L s buf io_len := rfl

theorem rx_frame_ptr_of_passes (L : Layout) (s : State) (view : (Int → Nat) → Nat → Nat)
    (io_len : Nat) (h : rx_passes s (view s.mem) io_len) :
    rx_frame_ptr L s view io_len =
      (rx_commit_ptr L s view io_len, to_int (if io_len < 60 then 60 else io_len)) := by
  obtain ⟨h1, h2, h3, h4, h5⟩ := h
  have hrunt : ¬ (io_len < 40 ∧ ¬ s.RCR.runts_ok = true) := by
    rintro ⟨a, b⟩
    rcases h4 with c | c
    · omega
    · exact b c
  have havail : ¬ (rx_avail s < (rx_pages io_len : Int) ∨ rx_avail s = (rx_pages io_len : Int)) := by
    omega
  unfold rx_frame_ptr rx_commit_ptr
  simp only [h1, h2, h5, hrunt, havail, false_or, if_false, Bool.false_eq_true]

theorem rx_frame_ptr_of_not_passes (L : Layout) (s : State) (view : (Int → Nat) → Nat → Nat)
    (io_len : Nat) (h : ¬ rx_passes s (view s.mem) io_len) :
    rx_frame_ptr L s view io_len = (s, -1) := by
  unfold rx_frame_ptr
  by_cases h1 : s.CR.stop = true ∨ s.page_start = 0
  · rw [if_pos h1]
  · rw [if_neg h1]
    simp only
    by_cases h2 : rx_avail s < (rx_pages io_len : Int) ∨ rx_avail s = (rx_pages io_len : Int)
    · rw [if_pos h2]
    · rw [if_neg h2]
      by_cases h3 : io_len < 40 ∧ ¬ s.RCR.runts_ok = true
      · rw [if_pos h3]
      · rw [if_neg h3]
        by_cases h4 : rx_filtered s (view s.mem) = true
        · rw [if_pos h4]
        · exfalso
          apply h
          refine ⟨?_, ?_, ?_, ?_, ?_⟩
          · cases hs : s.CR.stop
            · rfl
            · exact absurd (Or.inl hs) h1
          · exact fun e => h1 (Or.inr e)
          · omega
          · by_cases h5 : io_len < 40
            · right
              cases hr : s.RCR.runts_ok
              · exact absurd ⟨h5, by simp [hr]⟩ h3
              · rfl
            · left; omega
          · cases hf : rx_filtered s (view s.mem)
            · rfl
            · exact absurd hf h4

/-- The call through a pointer into the chip memory differs from the call on
the frame as it is on entry only in the chip memory and in `RSR.rx_mbit`. -/
theorem rx_frame_ptr_eq (L : Layout) (s : State) (view : (Int → Nat) → Nat → Nat)
    (io_len : Nat) :
    rx_frame_ptr L s view io_len =
      ({ (rx_frame L s (view s.mem) io_len).1 with
          mem := (rx_frame_ptr L s view io_len).1.mem
          RSR.rx_mbit := (rx_frame_ptr L s view io_len).1.RSR.rx_mbit },
        (rx_frame L s (view s.mem) io_len).2) := by
  by_cases hp : rx_passes s (view s.mem) io_len
  · rw [rx_frame_ptr_of_passes L s view io_len hp, rx_frame_of_passes L s (view s.mem) io_len hp]
    unfold rx_commit_ptr rx_commit
    simp only
    split_ifs <;> rfl
  · rw [rx_frame_ptr_of_not_passes L s view io_len hp,
      rx_frame_of_not_passes L s (view s.mem) io_len hp]

theorem accepts_iff (L : Layout) (s : State) (buf : Nat → Nat) (io_len : Nat)
    (hlen : io_len < 2 ^ 16) :
    accepts L s buf io_len ↔ rx_passes s buf io_len := by
  unfold accepts
  constructor
  · intro h
    by_contra hn
    rw [rx_frame_of_not_passes L s buf io_len hn] at h
    exact h rfl
  · intro h
    rw [rx_frame_of_passes L s buf io_len h]
    simp only
    rw [to_int_small _ (by split <;> omega)]
    split <;> omega

theorem memeq6_iff (a b : Nat → Nat) : memeq6 a b = true ↔ ∀ i, i < 6 → a i = b i := by
  unfold memeq6
  simp only [Bool.and_eq_true, beq_iff_eq]
  constructor
  · rintro ⟨⟨⟨⟨⟨h0, h1⟩, h2⟩, h3⟩, h4⟩, h5⟩ i hi
    interval_cases i <;> assumption
  · intro h
    exact ⟨⟨⟨⟨⟨h 0 (by omega), h 1 (by omega)⟩, h 2 (by omega)⟩, h 3 (by omega)⟩,
      h 4 (by omega)⟩, h 5 (by omega)⟩

theorem is_broadcast_iff (buf : Nat → Nat) :
    memeq6 (pktbuf buf) bcast_addr = true ↔ is_broadcast buf := by
  rw [memeq6_iff]; rfl

theorem and_shift_eq_zero_iff (x k : Nat) : x &&& (1 <<< k) = 0 ↔ x.testBit k = false := by
  rw [Nat.shiftLeft_eq, Nat.one_mul, and_two_pow_eq, Nat.testBit_to_div_mod]
  have hp : 0 < 2 ^ k := Nat.two_pow_pos k
  rcases Nat.mod_two_eq_zero_or_one (x / 2 ^ k) with h | h
  · rw [h]; simp
  · rw [h]; simp

theorem low_bit_iff (x : Nat) : x &&& 0x01 ≠ 0 ↔ x % 2 = 1 := by
  rw [and_one_eq]; omega

theorem rx_filtered_iff (s : State) (buf : Nat → Nat) :
    rx_filtered s buf = false ↔ dest_accepted s buf := by
  unfold rx_filtered dest_accepted
  have h3 : mcast_index buf >>> 3 = mcast_index buf / 8 := by
    rw [Nat.shiftRight_eq_div_pow]
  have h7 : mcast_index buf &&& 0x7 = mcast_index buf % 8 :=
    Nat.and_pow_two_sub_one_eq_mod _ 3
  rw [h3, h7]
  by_cases hp : s.RCR.promisc = true
  · rw [if_neg (not_not.2 hp)]
    exact ⟨fun _ => Or.inl hp, fun _ => rfl⟩
  · rw [if_pos hp]
    by_cases hb : memeq6 (pktbuf buf) bcast_addr = true
    · have hb' := (is_broadcast_iff buf).1 hb
      have h0 : pktbuf buf 0 % 2 = 1 := by
        have := hb' 0 (by omega)
        omega
      rw [if_pos hb]
      constructor
      · intro h
        exact Or.inr (Or.inl ⟨hb', by simpa using h⟩)
      · rintro (h | ⟨_, h⟩ | ⟨hnb, _⟩ | ⟨hz, _⟩)
        · exact absurd h hp
        · simp [h]
        · exact absurd hb' hnb
        · omega
    · have hb' : ¬ is_broadcast buf := fun h => hb ((is_broadcast_iff buf).2 h)
      rw [if_neg hb]
      by_cases hm : pktbuf buf 0 % 2 = 1
      · rw [if_pos ((low_bit_iff _).2 hm)]
        by_cases hmc : s.RCR.multicast = true
        · rw [if_neg (not_not.2 hmc), decide_eq_false_iff_not, and_shift_eq_zero_iff]
          constructor
          · intro h
            refine Or.inr (Or.inr (Or.inl ⟨hb', hm, hmc, ?_⟩))
            simpa using h
          · rintro (h | ⟨h, _⟩ | ⟨_, _, _, h⟩ | ⟨hz, _⟩)
            · exact absurd h hp
            · exact absurd h hb'
            · simpa using h
            · omega
        · rw [if_pos hmc]
          constructor
          · intro h; exact absurd h (by decide)
          · rintro (h | ⟨h, _⟩ | ⟨_, _, h, _⟩ | ⟨hz, _⟩)
            · exact absurd h hp
            · exact absurd h hb'
            · exact absurd h hmc
            · omega
      · rw [if_neg (fun h => hm ((low_bit_iff _).1 h))]
        have hz : pktbuf buf 0 % 2 = 0 := by omega
        constructor
        · intro h
          refine Or.inr (Or.inr (Or.inr ⟨hz, (memeq6_iff _ _).1 ?_⟩))
          simpa using h
        · rintro (h | ⟨h, _⟩ | ⟨_, h, _⟩ | ⟨_, h⟩)
          · exact absurd h hp
          · exact absurd h hb'
          · exact absurd h hm
          · simp [(memeq6_iff _ _).2 h]

theorem rx_pages_eq (io_len : Nat) (h : io_len < 2 ^ 16) : rx_pages io_len = pages_required io_len := by
  unfold rx_pages pages_required
  omega

theorem rx_avail_eq (s : State) : rx_avail s = free_pages s := rfl

/-- C3: for a frame that passes the stopped/unconfigured, free-space and runt
checks, `rx_frame` accepts it exactly when the destination passes the address
filter (promiscuous, or broadcast with `RCR.broadcast`, or multicast with
`RCR.multicast` and its hash bit set in `mchash`, or equal to `physaddr`). -/
theorem C3_address_filtering (L : Layout) (s : State) (buf : Nat → Nat) (io_len : Nat)
    (hlen : io_len < 2 ^ 16)
    (hstop : s.CR.stop = false) (hconf : s.page_start ≠ 0)
    (hfree : (pages_required io_len : Int) < free_pages s)
    (hrunt : 40 ≤ io_len ∨ s.RCR.runts_ok = true) :
    accepts L s buf io_len ↔ dest_accepted s buf := by
  rw [accepts_iff L s buf io_len hlen, ← rx_filtered_iff]
  unfold rx_passes
  rw [rx_pages_eq io_len hlen, rx_avail_eq]
  exact ⟨fun h => h.2.2.2.2, fun h => ⟨hstop, hconf, hfree, hrunt, h⟩⟩

/-- C8: for a frame that passes the stopped/unconfigured, runt and address
checks, `rx_frame` accepts it exactly when the free pages exceed the pages
required; in particular a frame with `free = pages` is rejected. -/
theorem C8_free_space_rule (L : Layout) (s : State) (buf : Nat → Nat) (io_len : Nat)
    (hlen : io_len < 2 ^ 16)
    (hstop : s.CR.stop = false) (hconf : s.page_start ≠ 0)
    (hrunt : 40 ≤ io_len ∨ s.RCR.runts_ok = true)
    (hdest : dest_accepted s buf) :
    (accepts L s buf io_len ↔ (pages_required io_len : Int) < free_pages s) ∧
    (free_pages s = (pages_required io_len : Int) → (rx_frame L s buf io_len).2 = -1) := by
  have hiff : accepts L s buf io_len ↔ (pages_required io_len : Int) < free_pages s := by
    rw [accepts_iff L s buf io_len hlen]
    unfold rx_passes
    rw [rx_pages_eq io_len hlen, rx_avail_eq]
    exact ⟨fun h => h.2.2.1, fun h => ⟨hstop, hconf, h, hrunt, (rx_filtered_iff s buf).2 hdest⟩⟩
  refine ⟨hiff, fun he => ?_⟩
  by_contra hn
  have := hiff.1 hn
  omega

theorem rx_commit_curr_page (L : Layout) (s : State) (buf : Nat → Nat) (io_len : Nat) :
    (rx_commit L s buf io_len).curr_page = rx_nextpage s (rx_pages io_len) := by
  unfold rx_commit
  by_cases hm : pktbuf buf 0 &&& 0x80 ≠ 0 <;> cases hi : s.IMR.rx_inte <;>
    simp [hm, hi, PIC_ActivateIRQ]

theorem rx_commit_ring (L : Layout) (s : State) (buf : Nat → Nat) (io_len : Nat) :
    (rx_commit L s buf io_len).bound_ptr = s.bound_ptr ∧
    (rx_commit L s buf io_len).page_start = s.page_start ∧
    (rx_commit L s buf io_len).page_stop = s.page_stop := by
  unfold rx_commit
  by_cases hm : pktbuf buf 0 &&& 0x80 ≠ 0 <;> cases hi : s.IMR.rx_inte <;>
    simp [hm, hi, PIC_ActivateIRQ]

theorem rx_commit_flags (L : Layout) (s : State) (buf : Nat → Nat) (io_len : Nat) :
    (rx_commit L s buf io_len).RSR.rx_ok = true ∧
    (rx_commit L s buf io_len).ISR.pkt_rx = true ∧
    (s.IMR.rx_inte = true → (rx_commit L s buf io_len).irq = true) ∧
    (s.IMR.rx_inte = false → (rx_commit L s buf io_len).irq = s.irq) := by
  unfold rx_commit
  by_cases hm : pktbuf buf 0 &&& 0x80 ≠ 0 <;> cases hi : s.IMR.rx_inte <;>
    simp [hm, hi, PIC_ActivateIRQ]

theorem rx_commit_mem (L : Layout) (s : State) (buf : Nat → Nat) (io_len : Nat) :
    (rx_commit L s buf io_len).mem =
      rx_copy L s buf (rx_pages io_len) (rx_nextpage s (rx_pages io_len))
        (if io_len < 60 then 60 else io_len) := by
  unfold rx_commit
  by_cases hm : pktbuf buf 0 &&& 0x80 ≠ 0 <;> cases hi : s.IMR.rx_inte <;>
    simp [hm, hi, PIC_ActivateIRQ]

theorem rx_pages_pos (io_len : Nat) (h : io_len < 2 ^ 16) :
    1 ≤ rx_pages io_len ∧ rx_pages io_len ≤ 257 := by
  unfold rx_pages
  omega

/-- C1: in a configured ring whose pointers lie inside it, an accepted frame
never advances `curr_page` onto `bound_ptr`. -/
theorem C1_ring_never_full (L : Layout) (s : State) (buf : Nat → Nat) (io_len : Nat)
    (hlen : io_len < 2 ^ 16) (h8 : s.page_stop ≤ 255)
    (hring : s.page_start < s.page_stop)
    (hb : s.page_start ≤ s.bound_ptr ∧ s.bound_ptr < s.page_stop)
    (hc : s.page_start ≤ s.curr_page ∧ s.curr_page < s.page_stop)
    (hacc : accepts L s buf io_len) :
    (rx_frame L s buf io_len).1.curr_page ≠ s.bound_ptr := by
  have hp := (accepts_iff L s buf io_len hlen).1 hacc
  rw [rx_frame_of_passes L s buf io_len hp]
  simp only
  rw [rx_commit_curr_page]
  obtain ⟨_, _, havail, _, _⟩ := hp
  obtain ⟨hp1, hp2⟩ := rx_pages_pos io_len hlen
  unfold rx_avail at havail
  unfold rx_nextpage
  simp only
  split at havail <;> split <;> omega

/-- The effects of an accepted frame when the page sum fits in 8 bits: whenever
`rx_frame` accepts a frame of length `io_len` in a state with
`page_start ≤ page_stop` and `curr_page + pages ≤ 255`, it returns
`max io_len 60`, advances `curr_page` by `ceil((io_len + 8) / 256)` pages
wrapped into the ring, sets `RSR.rx_ok` and `ISR.pkt_rx`, activates the
interrupt line if `IMR.rx_inte` is set and leaves it as it was otherwise. -/
theorem rx_frame_effects_of_fit (L : Layout) (s : State) (buf : Nat → Nat) (io_len : Nat)
    (hlen : io_len < 2 ^ 16)
    (hring : s.page_start ≤ s.page_stop)
    (h8 : s.curr_page + pages_required io_len ≤ 255)
    (hacc : accepts L s buf io_len) :
    (rx_frame L s buf io_len).2 = (max io_len 60 : Nat) ∧
    ((rx_frame L s buf io_len).1.curr_page : Int) = ring_advance s (pages_required io_len) ∧
    (rx_frame L s buf io_len).1.RSR.rx_ok = true ∧
    (rx_frame L s buf io_len).1.ISR.pkt_rx = true ∧
    (s.IMR.rx_inte = true → (rx_frame L s buf io_len).1.irq = true) ∧
    (s.IMR.rx_inte = false → (rx_frame L s buf io_len).1.irq = s.irq) := by
  have hp := (accepts_iff L s buf io_len hlen).1 hacc
  rw [rx_frame_of_passes L s buf io_len hp]
  simp only
  obtain ⟨hf1, hf2, hf3, hf4⟩ := rx_commit_flags L s buf io_len
  refine ⟨?_, ?_, hf1, hf2, hf3, hf4⟩
  · rw [to_int_small _ (by split <;> omega)]
    congr 1
    split <;> omega
  · rw [rx_commit_curr_page, rx_pages_eq io_len hlen]
    unfold rx_nextpage ring_advance
    simp only
    split <;> split <;> omega

/-- C1 at the ring `0x46 .. 0x80` with a 64-byte broadcast frame. -/
theorem C1_witness :
    accepts layout32K ring_state bcast_frame 64 ∧
    (rx_frame layout32K ring_state bcast_frame 64).1.curr_page ≠ ring_state.bound_ptr :=
  ⟨by decide, C1_ring_never_full layout32K ring_state bcast_frame 64 (by decide) (by decide)
    (by decide) (by decide) (by decide) (by decide)⟩

/-- C3 at a broadcast frame received with `RCR.broadcast` set. -/
theorem C3_witness :
    dest_accepted ring_state bcast_frame ∧ accepts layout32K ring_state bcast_frame 64 :=
  ⟨by decide, (C3_address_filtering layout32K ring_state bcast_frame 64 (by decide) (by decide)
    (by decide) (by decide) (by decide)).2 (by decide)⟩

/-- C8 at the ring `0x46 .. 0x80`: one page required, 57 free. -/
theorem C8_witness :
    (accepts layout32K ring_state bcast_frame 64 ↔
      (pages_required 64 : Int) < free_pages ring_state) ∧
    (pages_required 64 : Int) < free_pages ring_state :=
  ⟨(C8_free_space_rule layout32K ring_state bcast_frame 64 (by decide) (by decide) (by decide)
    (by decide) (by decide)).1, by decide⟩

/-- The scenario of the specification: with `page_start = 0x46`,
`page_stop = 0x80` and `RCR.broadcast` set, a 64-byte broadcast frame is
accepted, `curr_page` advances by exactly one page and `ISR.pkt_rx` is set. -/
theorem rx_frame_scenario :
    accepts layout32K ring_state bcast_frame 64 ∧
    (rx_frame layout32K ring_state bcast_frame 64).2 = 64 ∧
    (rx_frame layout32K ring_state bcast_frame 64).1.curr_page = ring_state.curr_page + 1 ∧
    (rx_frame layout32K ring_state bcast_frame 64).1.ISR.pkt_rx = true := by
  have h := rx_frame_effects_of_fit layout32K ring_state bcast_frame 64 (by decide) (by decide)
    (by decide) (by decide)
  exact ⟨by decide, h.1, by decide, h.2.2.2.1⟩

/-- Guest writes lead from a reachable state to a reachable state. -/
theorem reachable_guest_writes (L : Layout) (ws : List (Nat × Nat)) :
    ∀ s, Reachable L s → Reachable L (guest_writes L s ws) := by
  induction ws with
  | nil => intro s h; exact h
  | cons w ws ih =>
    intro s h
    exact ih _ (Reachable.step _ _ h (Step.write s w.1 w.2 .byte))

set_option maxRecDepth 100000 in
/-- C9 fails for a frame whose page sum does not fit in 8 bits.  After `init()`
the guest makes the whole chip memory the ring (`0x40 .. 0xc0`,
`BNRY = CURR = 0xbf`), puts a 16377-byte frame (65 pages) at page `0x80` and
transmits it in loopback mode 1 with the byte `0x26`.  Every store and load
of the receive path stays inside the chip memory, no `memcpy` has overlapping
source and destination, and the frame is accepted (the call
of `rx_frame` returns 16377, `RSR.rx_ok` and `ISR.pkt_rx` become set, the
header is written at page `0xbf`), but `curr_page + pages = 256` is truncated
to 0 by the 8-bit `nextpage`, the wrap test `nextpage >= page_stop` fails, and
`curr_page` becomes 0 instead of the page `0x80` that lies 65 pages further in
the ring.  The same happens when `rx_frame` is called directly with a
16377-byte buffer. -/
theorem C9_nextpage_truncated :
    (Reachable layout32K wrap_loop_state ∧
      wrap_loop_state.CR.stop = false ∧
      wrap_loop_state.page_start = 0x40 ∧ wrap_loop_state.page_stop = 0xc0 ∧
      wrap_loop_state.bound_ptr = 0xbf ∧ wrap_loop_state.curr_page = 0xbf ∧
      wrap_loop_state.tx_page_start = 0x80 ∧ wrap_loop_state.tx_bytes = 16377 ∧
      wrap_loop_state.TCR.loop_cntl = 1 ∧ wrap_loop_state.RCR.promisc = true) ∧
    (pages_required 16377 = 65 ∧ ring_advance wrap_loop_state 65 = 0x80 ∧
      rx_in_bounds layout32K wrap_loop_state 16377 ∧
      loopback_defined layout32K wrap_loop_state 16377) ∧
    ((rx_frame_ptr layout32K (cr_pre_tx layout32K wrap_loop_state 0x26)
          (loopback_view layout32K wrap_loop_state) 16377).2 = 16377 ∧
      wrap_loop_state.RSR.rx_ok = false ∧ wrap_loop_state.ISR.pkt_rx = false ∧
      (dosbox_write layout32K wrap_loop_state 0x300 0x26 .byte).RSR.rx_ok = true ∧
      (dosbox_write layout32K wrap_loop_state 0x300 0x26 .byte).ISR.pkt_rx = true ∧
      (dosbox_write layout32K wrap_loop_state 0x300 0x26 .byte).mem 0x7f00 = 0x01 ∧
      (dosbox_write layout32K wrap_loop_state 0x300 0x26 .byte).mem 0x7f01 = 0 ∧
      (dosbox_write layout32K wrap_loop_state 0x300 0x26 .byte).curr_page = 0 ∧
      ¬ (wrap_loop_state.page_start ≤
          (dosbox_write layout32K wrap_loop_state 0x300 0x26 .byte).curr_page)) ∧
    ((rx_frame layout32K full_ring_state bcast_frame 16377).2 = 16377 ∧
      rx_in_bounds layout32K full_ring_state 16377 ∧
      (rx_frame layout32K full_ring_state bcast_frame 16377).1.curr_page = 0 ∧
      ring_advance full_ring_state 65 = 0x80) := by
  refine ⟨⟨reachable_guest_writes _ _ _ (Reachable.init _ _ _), ?_⟩, ?_, ?_, ?_⟩ <;> decide

/-! ## The receive path: contents of the ring -/

theorem memcpy_hit (m : Int → Nat) (dst : Int) (src : Nat → Nat) (n : Nat) (i : Int) (k : Nat)
    (h : i = dst + k) (hk : k < n) : memcpy m dst src n i = src k := by
  unfold memcpy
  rw [if_pos (by omega)]
  congr 1
  omega

theorem memcpy_miss (m : Int → Nat) (dst : Int) (src : Nat → Nat) (n : Nat) (i : Int)
    (h : i < dst ∨ dst + n ≤ i) : memcpy m dst src n i = m i := by
  unfold memcpy
  rw [if_neg (by omega)]

/-- Ring contents after an accepted frame, for a ring inside which all three
pointers lie. -/
theorem rx_copy_contents (L : Layout) (s : State) (buf : Nat → Nat) (io_len : Nat)
    (hlen : io_len < 2 ^ 16) (h8 : s.page_stop ≤ 255)
    (hc : s.page_start ≤ s.curr_page ∧ s.curr_page < s.page_stop)
    (hb : s.page_start ≤ s.bound_ptr ∧ s.bound_ptr < s.page_stop)
    (hmem : L.MEMSTART ≤ s.page_start * 256)
    (havail : (rx_pages io_len : Int) < rx_avail s) :
    (∀ i, i < 4 →
      rx_copy L s buf (rx_pages io_len) (rx_nextpage s (rx_pages io_len))
          (if io_len < 60 then 60 else io_len)
          ((ring_wrap s (s.curr_page * 256 + i) : Nat) - (L.MEMSTART : Int)) =
        rx_pkthdr buf (rx_nextpage s (rx_pages io_len)) (if io_len < 60 then 60 else io_len) i) ∧
    (∀ j, j < io_len →
      rx_copy L s buf (rx_pages io_len) (rx_nextpage s (rx_pages io_len))
          (if io_len < 60 then 60 else io_len)
          ((ring_wrap s (s.curr_page * 256 + 4 + j) : Nat) - (L.MEMSTART : Int)) =
        pktbuf buf j) := by
  obtain ⟨hp1, hp2⟩ := rx_pages_pos io_len hlen
  have hpg : rx_pages io_len = (io_len + 263) / 256 := by unfold rx_pages; omega
  have hpad : (if io_len < 60 then 60 else io_len) + 8 ≤ rx_pages io_len * 256 := by
    split <;> omega
  have hpadge : io_len ≤ (if io_len < 60 then 60 else io_len) := by split <;> omega
  generalize hP : rx_pages io_len = p at *
  generalize hN : (if io_len < 60 then 60 else io_len) = n at *
  have hring : (p : Int) < (s.page_stop : Int) - s.page_start := by
    unfold rx_avail at havail
    split at havail <;> omega
  unfold rx_copy
  simp only
  by_cases hA : rx_nextpage s p > s.curr_page ∨ s.curr_page + p = s.page_stop
  · rw [if_pos hA]
    have hfit : s.curr_page + p ≤ s.page_stop := by
      unfold rx_nextpage at hA
      simp only at hA
      split at hA <;> omega
    constructor
    · intro i hi
      have hw : ring_wrap s (s.curr_page * 256 + i) = s.curr_page * 256 + i := by
        unfold ring_wrap; rw [if_pos (by omega)]
      rw [hw, memcpy_miss _ _ _ _ _ (by omega), memcpy_hit _ _ _ _ _ i (by omega) hi]
    · intro j hj
      have hw : ring_wrap s (s.curr_page * 256 + 4 + j) = s.curr_page * 256 + 4 + j := by
        unfold ring_wrap; rw [if_pos (by omega)]
      rw [hw, memcpy_hit _ _ _ _ _ j (by omega) (by omega)]
  · rw [if_neg hA]
    have hover : s.page_stop < s.curr_page + p := by
      unfold rx_nextpage at hA
      simp only at hA
      split at hA <;> omega
    have hend : rx_endbytes s = (s.page_stop - s.curr_page) * 256 := by
      unfold rx_endbytes; omega
    have h60 : 60 ≤ io_len := by
      by_contra hlt
      omega
    have hfirst : (rx_endbytes s + 2 ^ 32 - 4) % 2 ^ 32 = rx_endbytes s - 4 := by omega
    have hlen2 : (n + 2 ^ 32 - rx_endbytes s + 8) % 2 ^ 32 = n + 8 - rx_endbytes s := by omega
    have hptr2 : ((s.page_start * 256 + 2 ^ 32 - L.MEMSTART % 2 ^ 32) % 2 ^ 32 : Nat)
        = s.page_start * 256 - L.MEMSTART := by omega
    rw [hfirst, hlen2, hptr2]
    constructor
    · intro i hi
      have hw : ring_wrap s (s.curr_page * 256 + i) = s.curr_page * 256 + i := by
        unfold ring_wrap; rw [if_pos (by omega)]
      rw [hw, memcpy_miss _ _ _ _ _ (by omega), memcpy_miss _ _ _ _ _ (by omega),
        memcpy_hit _ _ _ _ _ i (by omega) hi]
    · intro j hj
      by_cases hlow : s.curr_page * 256 + 4 + j < s.page_stop * 256
      · have hw : ring_wrap s (s.curr_page * 256 + 4 + j) = s.curr_page * 256 + 4 + j := by
          unfold ring_wrap; rw [if_pos hlow]
        rw [hw, memcpy_miss _ _ _ _ _ (by omega), memcpy_hit _ _ _ _ _ j (by omega) (by omega)]
      · have hw : ring_wrap s (s.curr_page * 256 + 4 + j) =
            s.curr_page * 256 + 4 + j - (s.page_stop - s.page_start) * 256 := by
          unfold ring_wrap; rw [if_neg hlow]
        rw [hw, memcpy_hit _ _ _ _ _ (j + 4 - rx_endbytes s) (by omega) (by omega)]
        have hidx : rx_endbytes s - 4 + (j + 4 - rx_endbytes s) = j := by omega
        show pktbuf buf (rx_endbytes s - 4 + (j + 4 - rx_endbytes s)) = pktbuf buf j
        rw [hidx]

/-- C2 as stated fails: with the ring `0x46 .. 0x48` inside chip memory,
`curr_page = 0x47` and `bound_ptr = 0x60` (outside the ring, which the claim
does not exclude), a 600-byte frame is accepted and copied in one piece past
`page_stop * 256`; frame byte 252 is not at the wrapped address `0x4600`. -/
theorem C2_counterexample :
    (small_ring_state.page_start ≤ small_ring_state.curr_page ∧
      small_ring_state.curr_page < small_ring_state.page_stop) ∧
    (layout32K.MEMSTART ≤ small_ring_state.page_start * 256 ∧
      small_ring_state.page_stop * 256 ≤ layout32K.MEMEND) ∧
    (rx_frame layout32K small_ring_state bcast_frame 600).2 = 600 ∧
    ring_wrap small_ring_state (small_ring_state.curr_page * 256 + 4 + 252) = 0x4600 ∧
    (rx_frame layout32K small_ring_state bcast_frame 600).1.mem
        ((0x4600 : Int) - layout32K.MEMSTART) = 0 ∧
    pktbuf bcast_frame 252 = 252 ∧
    (rx_frame layout32K small_ring_state bcast_frame 600).1.mem
        ((0x4800 : Int) - layout32K.MEMSTART) = 252 := by
  decide

/-- C2, amended: for a frame accepted in a state where `curr_page` and also
`bound_ptr` lie inside the ring and the ring lies inside chip memory, the four
header bytes are at the chip addresses `wrap (c * 256 + i)` and frame byte `j`
is at `wrap (c * 256 + 4 + j)`, where `c` is the old `curr_page`, whether the
copy was split or not. -/
theorem C2_ring_contents (L : Layout) (s : State) (buf : Nat → Nat) (io_len : Nat)
    (hlen : io_len < 2 ^ 16) (h8 : s.page_stop ≤ 255)
    (hc : s.page_start ≤ s.curr_page ∧ s.curr_page < s.page_stop)
    (hb : s.page_start ≤ s.bound_ptr ∧ s.bound_ptr < s.page_stop)
    (hmem : L.MEMSTART ≤ s.page_start * 256 ∧ s.page_stop * 256 ≤ L.MEMEND)
    (hacc : accepts L s buf io_len) :
    (∀ i, i < 4 →
      (rx_frame L s buf io_len).1.mem
          ((ring_wrap s (s.curr_page * 256 + i) : Nat) - (L.MEMSTART : Int)) =
        rx_pkthdr buf (rx_frame L s buf io_len).1.curr_page (max io_len 60) i) ∧
    (∀ j, j < io_len →
      (rx_frame L s buf io_len).1.mem
          ((ring_wrap s (s.curr_page * 256 + 4 + j) : Nat) - (L.MEMSTART : Int)) =
        pktbuf buf j) := by
  have hp := (accepts_iff L s buf io_len hlen).1 hacc
  have hmax : max io_len 60 = if io_len < 60 then 60 else io_len := by
    split <;> omega
  rw [rx_frame_of_passes L s buf io_len hp]
  simp only
  rw [rx_commit_mem, rx_commit_curr_page, hmax]
  exact rx_copy_contents L s buf io_len hlen h8 hc hb hmem.1 hp.2.2.1

/-- C2 at the ring `0x46 .. 0x80`: frame byte 10 of an accepted 64-byte frame. -/
theorem C2_witness :
    accepts layout32K ring_state bcast_frame 64 ∧
    (rx_frame layout32K ring_state bcast_frame 64).1.mem
        ((ring_wrap ring_state (ring_state.curr_page * 256 + 4 + 10) : Nat)
          - (layout32K.MEMSTART : Int)) = pktbuf bcast_frame 10 :=
  ⟨by decide, (C2_ring_contents layout32K ring_state bcast_frame 64 (by decide) (by decide)
    (by decide) (by decide) (by decide) (by decide)).2 10 (by decide)⟩

theorem aux_ptr2 (ps ms len2 msz : Nat) (hps : ps < 256) (hms : ms ≤ 65280)
    (h : (((ps * 256 + 2 ^ 32 - ms % 2 ^ 32) % 2 ^ 32 : Nat) : Int) + (len2 : Int) ≤ msz)
    (hsz : msz ≤ 2 ^ 16) :
    (ps * 256 + 2 ^ 32 - ms % 2 ^ 32) % 2 ^ 32 = ps * 256 - ms ∧ ms ≤ ps * 256 := by
  omega

theorem aux_len2 (n e ptr msz : Nat) (hn : n < 2 ^ 16) (he : e ≤ 65280)
    (h : ((ptr : Nat) : Int) + (((n + 2 ^ 32 - e + 8) % 2 ^ 32 : Nat) : Int) ≤ msz)
    (hsz : msz ≤ 2 ^ 16) :
    (n + 2 ^ 32 - e + 8) % 2 ^ 32 = n + 8 - e ∧ e ≤ n + 8 := by
  omega

theorem aux_end (pe c msz : Nat) (start : Int) (hpe : pe < 256) (hc : c < 256) (h0 : 0 ≤ start)
    (h : start + 4 + ((((((pe : Int) - c) % 2 ^ 32).toNat * 256 % 2 ^ 32 + 2 ^ 32 - 4) % 2 ^ 32 : Nat) : Int)
      ≤ msz)
    (hsz : msz ≤ 2 ^ 16) :
    (((pe : Int) - c) % 2 ^ 32).toNat * 256 % 2 ^ 32 = (pe - c) * 256 ∧ c < pe := by
  omega

theorem no_overlap (s : State) (p n i : Nat) (hi : i < 4) (hr : byte_regs s) (hp : 1 ≤ p ∧ p ≤ 257)
    (hpad : n + 8 ≤ p * 256)
    (hA : ¬ (rx_nextpage s p > s.curr_page ∨ s.curr_page + p = s.page_stop))
    (havail : (p : Int) < rx_avail s) (hcs : s.curr_page < s.page_stop)
    (hlo : s.page_start * 256 ≤ s.curr_page * 256 + i) :
    s.page_start * 256 + (n + 8 - (s.page_stop - s.curr_page) * 256) ≤ s.curr_page * 256 + i := by
  obtain ⟨hr1, hr2, hr3, hr4⟩ := hr
  unfold rx_nextpage at hA
  unfold rx_avail at havail
  simp only at hA
  split at hA <;> split at havail <;> omega

/-- The header stays where the first `memcpy` of `rx_frame` puts it, when the
stores of the call stay inside the array. -/
theorem rx_copy_header (L : Layout) (s : State) (buf : Nat → Nat) (io_len : Nat)
    (hlen : io_len < 2 ^ 16) (hregs : byte_regs s) (hsz : L.MEMSIZ ≤ 2 ^ 16)
    (hin : rx_in_bounds L s io_len)
    (havail : (rx_pages io_len : Int) < rx_avail s) (i : Nat) (hi : i < 4) :
    rx_copy L s buf (rx_pages io_len) (rx_nextpage s (rx_pages io_len))
        (if io_len < 60 then 60 else io_len)
        ((s.curr_page : Int) * 256 - L.MEMSTART + i) =
      rx_pkthdr buf (rx_nextpage s (rx_pages io_len)) (if io_len < 60 then 60 else io_len) i := by
  have hregs' := hregs
  obtain ⟨hr1, hr2, hr3, hr4⟩ := hregs
  have hp12 := rx_pages_pos io_len hlen
  have hpad : (if io_len < 60 then 60 else io_len) + 8 ≤ rx_pages io_len * 256 := by
    unfold rx_pages
    split <;> omega
  have hpadlt : (if io_len < 60 then 60 else io_len) < 2 ^ 16 := by split <;> omega
  unfold rx_in_bounds at hin
  simp only at hin
  generalize hP : rx_pages io_len = p at *
  generalize hN : (if io_len < 60 then 60 else io_len) = n at *
  unfold rx_copy
  simp only
  by_cases hA : rx_nextpage s p > s.curr_page ∨ s.curr_page + p = s.page_stop
  · rw [if_pos hA]
    rw [memcpy_miss _ _ _ _ _ (by omega), memcpy_hit _ _ _ _ _ i (by omega) hi]
  · rw [if_neg hA] at hin
    rw [if_neg hA]
    obtain ⟨hin1, hin2, hin3⟩ := hin
    obtain ⟨hend, hcs⟩ := aux_end s.page_stop s.curr_page L.MEMSIZ _ hr2 hr4 hin1 hin2 hsz
    have hend' : rx_endbytes s = (s.page_stop - s.curr_page) * 256 := hend
    rw [hend'] at hin3 ⊢
    have hms : L.MEMSTART ≤ 65280 := by omega
    have he : (s.page_stop - s.curr_page) * 256 ≤ 65280 := by omega
    obtain ⟨hptr, hmsle⟩ := aux_ptr2 s.page_start L.MEMSTART _ L.MEMSIZ hr1 hms hin3 hsz
    rw [hptr] at hin3 ⊢
    obtain ⟨hl2, hle2⟩ := aux_len2 n _ _ L.MEMSIZ hpadlt he hin3 hsz
    rw [hl2]
    have hmiss : ((s.curr_page : Int) * 256 - L.MEMSTART + i <
          ((s.page_start * 256 - L.MEMSTART : Nat) : Int)) ∨
        ((s.page_start * 256 - L.MEMSTART : Nat) : Int) +
          ((n + 8 - (s.page_stop - s.curr_page) * 256 : Nat) : Int) ≤
          (s.curr_page : Int) * 256 - L.MEMSTART + i := by
      by_cases hlo : s.page_start * 256 ≤ s.curr_page * 256 + i
      · right
        have := no_overlap s p n i hi hregs' hp12 hpad hA havail hcs hlo
        omega
      · left
        omega
    rw [memcpy_miss _ _ _ _ _ hmiss, memcpy_miss _ _ _ _ _ (by omega),
      memcpy_hit _ _ _ _ _ i (by omega) hi]

theorem rx_pkthdr_values (buf : Nat → Nat) (nextpage n : Nat) (hn : n < 2 ^ 16) :
    rx_pkthdr buf nextpage n 0 = (if pktbuf buf 0 % 2 = 1 then 0x21 else 0x01) ∧
    rx_pkthdr buf nextpage n 1 = nextpage ∧
    rx_pkthdr buf nextpage n 2 = (n + 4) % 256 ∧
    rx_pkthdr buf nextpage n 3 = (n + 4) / 256 % 256 := by
  refine ⟨?_, rfl, ?_, ?_⟩
  · show (if pktbuf buf 0 &&& 0x01 ≠ 0 then 1 ||| 0x20 else 1) = _
    by_cases h : pktbuf buf 0 % 2 = 1
    · rw [if_pos ((low_bit_iff _).2 h), if_pos h]
      rfl
    · rw [if_neg (fun h' => h ((low_bit_iff _).1 h')), if_neg h]
  · show ((n + 4) % 2 ^ 32) &&& 0xff = _
    have := Nat.and_pow_two_sub_one_eq_mod ((n + 4) % 2 ^ 32) 8
    have e : (n + 4) % 2 ^ 32 &&& 0xff = (n + 4) % 2 ^ 32 % 2 ^ 8 := this
    rw [e]
    omega
  · show (((n + 4) % 2 ^ 32) >>> 8) % 256 = _
    rw [Nat.shiftRight_eq_div_pow]
    omega

/-- C10: for an accepted frame whose stores stay inside the chip-memory array,
the four bytes at chip address `(old curr_page) * 256` are the status byte
(`0x01`, or `0x21` for a multicast destination), the new `curr_page`, and the
low and high byte of `max io_len 60 + 4`. -/
theorem C10_receive_header (L : Layout) (s : State) (buf : Nat → Nat) (io_len : Nat)
    (hlen : io_len < 2 ^ 16) (hregs : byte_regs s) (hsz : L.MEMSIZ ≤ 2 ^ 16)
    (hin : rx_in_bounds L s io_len)
    (hacc : accepts L s buf io_len) :
    (rx_frame L s buf io_len).1.mem ((s.curr_page : Int) * 256 - L.MEMSTART + (0 : Nat)) =
      (if pktbuf buf 0 % 2 = 1 then 0x21 else 0x01) ∧
    (rx_frame L s buf io_len).1.mem ((s.curr_page : Int) * 256 - L.MEMSTART + (1 : Nat)) =
      (rx_frame L s buf io_len).1.curr_page ∧
    (rx_frame L s buf io_len).1.mem ((s.curr_page : Int) * 256 - L.MEMSTART + (2 : Nat)) =
      (max io_len 60 + 4) % 256 ∧
    (rx_frame L s buf io_len).1.mem ((s.curr_page : Int) * 256 - L.MEMSTART + (3 : Nat)) =
      (max io_len 60 + 4) / 256 % 256 := by
  have hp := (accepts_iff L s buf io_len hlen).1 hacc
  have hmax : max io_len 60 = if io_len < 60 then 60 else io_len := by
    split <;> omega
  have hn : (if io_len < 60 then 60 else io_len) < 2 ^ 16 := by split <;> omega
  have hh := fun i hi => rx_copy_header L s buf io_len hlen hregs hsz hin hp.2.2.1 i hi
  obtain ⟨v0, v1, v2, v3⟩ :=
    rx_pkthdr_values buf (rx_nextpage s (rx_pages io_len)) (if io_len < 60 then 60 else io_len) hn
  rw [rx_frame_of_passes L s buf io_len hp]
  simp only
  rw [rx_commit_mem, rx_commit_curr_page, hmax, hh 0 (by omega), hh 1 (by omega),
    hh 2 (by omega), hh 3 (by omega)]
  exact ⟨v0, v1, v2, v3⟩

/-- C10 at the ring `0x46 .. 0x80`: the header `21 48 44 00` of a 64-byte
broadcast frame stored at chip address `0x4700`. -/
theorem C10_witness :
    accepts layout32K ring_state bcast_frame 64 ∧
    (rx_frame layout32K ring_state bcast_frame 64).1.mem (0x4700 - 0x4000) = 0x21 ∧
    (rx_frame layout32K ring_state bcast_frame 64).1.mem (0x4700 - 0x4000 + 1) = 0x48 ∧
    (rx_frame layout32K ring_state bcast_frame 64).1.mem (0x4700 - 0x4000 + 2) = 68 ∧
    (rx_frame layout32K ring_state bcast_frame 64).1.mem (0x4700 - 0x4000 + 3) = 0 :=
  ⟨by decide,
   C10_receive_header layout32K ring_state bcast_frame 64 (by decide) (by decide) (by decide)
    (by decide) (by decide)⟩

/-! ## ISR, IMR and the interrupt line -/

theorem flag_two_pow (x i : Nat) : flag x (2 ^ i) = x.testBit i := by
  unfold flag
  rw [and_two_pow_eq, Nat.testBit_to_div_mod]
  have hp : 0 < 2 ^ i := Nat.two_pow_pos i
  rcases Nat.mod_two_eq_zero_or_one (x / 2 ^ i) with h | h
  · rw [h]; simp; omega
  · rw [h]; simp

theorem testBit_masked (v i : Nat) (hi : i < 7) : ((v % 256) &&& 0x7f).testBit i = v.testBit i := by
  have e1 : (0x7f : Nat) = 2 ^ 7 - 1 := by norm_num
  have e2 : (256 : Nat) = 2 ^ 8 := by norm_num
  rw [Nat.testBit_land, e1, Nat.testBit_two_pow_sub_one, e2, Nat.testBit_mod_two_pow]
  have h7 : decide (i < 7) = true := by simpa using hi
  have h8 : decide (i < 8) = true := by simp; omega
  rw [h7, h8]
  simp

theorem flag_masked (v i : Nat) (hi : i < 7) : flag ((v % 256) &&& 0x7f) (2 ^ i) = v.testBit i := by
  rw [flag_two_pow, testBit_masked v i hi]

theorem page0_write_7 (s : State) (v : Nat) :
    page0_write s 0x7 v .byte = isr_write s (v % 256) := by
  unfold page0_write
  rw [if_neg (by decide)]
  rfl

theorem page0_write_isr (s : State) (v : Nat) :
    (page0_write s 0x7 v .byte).ISR = isr_after_write s.ISR v := by
  have f0 := flag_masked v 0 (by omega)
  have f1 := flag_masked v 1 (by omega)
  have f2 := flag_masked v 2 (by omega)
  have f3 := flag_masked v 3 (by omega)
  have f4 := flag_masked v 4 (by omega)
  have f5 := flag_masked v 5 (by omega)
  have f6 := flag_masked v 6 (by omega)
  simp only [pow_zero, pow_one, Nat.reducePow] at f0 f1 f2 f3 f4 f5 f6
  rw [page0_write_7]
  unfold isr_write isr_after_write
  simp only [f0, f1, f2, f3, f4, f5, f6]
  split <;> rfl

theorem page0_read_isr (s : State) : page0_read s 0x7 .byte = isr_byte s.ISR := by
  unfold page0_read
  rw [if_neg (by decide)]

theorem isr_byte_all_cleared (r : ISR_t) :
    isr_byte (isr_after_write r 0xFF) = isr_byte r &&& 0x80 := by
  rcases r with ⟨a, b, c, d, e, f, g, h⟩
  cases a <;> cases b <;> cases c <;> cases d <;> cases e <;> cases f <;> cases g <;> cases h <;>
    decide

/-- C5: a byte `v` written to page-0 offset 7 clears each of the seven ISR
flags where `v` has a 1 and keeps `ISR.reset` whatever bit 7 of `v` is; the
read of offset 7 right after returns these bits, and after writing `0xFF` it
returns `old ISR & 0x80`. -/
theorem C5_isr_write_one_to_clear (s : State) (v : Nat) :
    (page0_write s 0x7 v .byte).ISR = isr_after_write s.ISR v ∧
    page0_read (page0_write s 0x7 v .byte) 0x7 .byte = isr_byte (isr_after_write s.ISR v) ∧
    page0_read (page0_write s 0x7 0xFF .byte) 0x7 .byte = page0_read s 0x7 .byte &&& 0x80 := by
  refine ⟨page0_write_isr s v, ?_, ?_⟩
  · rw [page0_read_isr, page0_write_isr]
  · rw [page0_read_isr, page0_read_isr, page0_write_isr, isr_byte_all_cleared]

theorem isr_low_ne_zero (r : ISR_t) : isr_low r ≠ 0 ↔ isr_any r = true := by
  rcases r with ⟨a, b, c, d, e, f, g, h⟩
  cases a <;> cases b <;> cases c <;> cases d <;> cases e <;> cases f <;> cases g <;>
    simp [isr_low, isr_any, bit]

theorem irq_inv_of_eq (s t : State) (h1 : t.irq = s.irq) (h2 : t.ISR = s.ISR) (h : irq_inv s) :
    irq_inv t := by
  unfold irq_inv at *
  rw [h1, h2]
  exact h

theorem irq_inv_of_low (s : State) (h : s.irq = false) : irq_inv s := by
  intro h'
  rw [h] at h'
  exact absurd h' (by decide)

theorem irq_inv_of_any (s : State) (h : isr_any s.ISR = true) : irq_inv s := fun _ => h

theorem irq_inv_reset (L : Layout) (s : State) : irq_inv (reset L s) :=
  irq_inv_of_low _ rfl

theorem irq_inv_tx_timer (s : State) : irq_inv (tx_timer s) := by
  apply irq_inv_of_any
  unfold tx_timer
  simp [isr_any]

theorem irq_inv_rx_frame (L : Layout) (s : State) (buf : Nat → Nat) (io_len : Nat)
    (h : irq_inv s) : irq_inv (rx_frame L s buf io_len).1 := by
  by_cases hp : rx_passes s buf io_len
  · rw [rx_frame_of_passes L s buf io_len hp]
    apply irq_inv_of_any
    have := (rx_commit_flags L s buf io_len).2.1
    simp only
    simp [isr_any, this]
  · rw [rx_frame_of_not_passes L s buf io_len hp]
    exact h

theorem write_cr_regs_frame (s : State) (value : Nat) :
    (write_cr_regs s value).irq = s.irq ∧ isr_any (write_cr_regs s value).ISR = isr_any s.ISR := by
  unfold write_cr_regs
  simp only
  split <;> split <;> exact ⟨rfl, rfl⟩

theorem irq_inv_write_cr_regs (s : State) (value : Nat) (h : irq_inv s) :
    irq_inv (write_cr_regs s value) := by
  obtain ⟨h1, h2⟩ := write_cr_regs_frame s value
  unfold irq_inv at *
  rw [h1, h2]
  exact h

theorem irq_inv_write_cr_sendpkt (L : Layout) (s : State) (h : irq_inv s) :
    irq_inv (write_cr_sendpkt L s) := by
  unfold write_cr_sendpkt
  split
  · exact irq_inv_of_eq s _ rfl rfl h
  · exact h

theorem irq_inv_write_cr_tx (L : Layout) (s : State) (value : Nat) (h : irq_inv s) :
    irq_inv (write_cr_tx L s value) := by
  unfold write_cr_tx
  split
  · split
    · exact h
    · apply irq_inv_of_any
      simp [isr_any]
  · split
    · simp only
      split
      · have := irq_inv_tx_timer { PIC_RemoveEvents s with
          trace := (PIC_RemoveEvents s).trace ++ [Effect.txEvent] }
        exact irq_inv_of_eq _ _ rfl rfl this
      · exact irq_inv_of_eq s _ rfl rfl h
    · exact h

theorem irq_inv_write_cr_probe (s : State) (h : irq_inv s) : irq_inv (write_cr_probe s) := by
  unfold write_cr_probe
  split
  · apply irq_inv_of_any
    simp only
    split <;> simp [isr_any, PIC_ActivateIRQ]
  · exact h

theorem irq_inv_write_cr (L : Layout) (s : State) (data : Nat) (h : irq_inv s) :
    irq_inv (write_cr L s data) := by
  unfold write_cr
  exact irq_inv_write_cr_probe _ (irq_inv_write_cr_tx L _ _
    (irq_inv_write_cr_sendpkt L _ (irq_inv_write_cr_regs s _ h)))

theorem irq_inv_chipmem_write (L : Layout) (s : State) (a d : Nat) (w : io_width_t)
    (h : irq_inv s) : irq_inv (chipmem_write L s a d w) := by
  unfold chipmem_write
  simp only
  split
  · exact irq_inv_of_eq s _ rfl rfl h
  · exact h

theorem irq_inv_rdma_wrap (s : State) (h : irq_inv s) : irq_inv (rdma_wrap s) := by
  unfold rdma_wrap
  split
  · exact irq_inv_of_eq s _ rfl rfl h
  · exact h

theorem irq_inv_rdma_count_read (s : State) (h : irq_inv s) : irq_inv (rdma_count_read s) := by
  unfold rdma_count_read
  split <;> exact irq_inv_of_eq s _ rfl rfl h

theorem irq_inv_rdma_count_write (L : Layout) (s : State) (w : io_width_t) (h : irq_inv s) :
    irq_inv (rdma_count_write L s w) := by
  unfold rdma_count_write
  simp only
  split <;> exact irq_inv_of_eq s _ rfl rfl h

theorem irq_inv_rdma_complete (s : State) (h : irq_inv s) : irq_inv (rdma_complete s) := by
  unfold rdma_complete
  split
  · apply irq_inv_of_any
    simp only
    split <;> simp [isr_any, PIC_ActivateIRQ]
  · exact h

theorem irq_inv_asic_read (L : Layout) (s : State) (offset : Nat) (w : io_width_t)
    (h : irq_inv s) : irq_inv (asic_read L s offset w).1 := by
  unfold asic_read
  split
  · split
    · exact h
    · exact irq_inv_rdma_complete _ (irq_inv_rdma_count_read _ (irq_inv_rdma_wrap _
        (irq_inv_of_eq s _ rfl rfl h)))
  · exact irq_inv_reset L s
  · exact h

theorem irq_inv_asic_write (L : Layout) (s : State) (offset value : Nat) (w : io_width_t)
    (h : irq_inv s) : irq_inv (asic_write L s offset value w) := by
  unfold asic_write
  split
  · split
    · exact h
    · exact irq_inv_rdma_complete _ (irq_inv_rdma_count_write L _ _ (irq_inv_rdma_wrap _
        (irq_inv_of_eq _ _ rfl rfl (irq_inv_chipmem_write L s s.remote_dma value w h))))
  · exact irq_inv_reset L s
  · exact h

theorem irq_inv_isr_write (s : State) (value : Nat) : irq_inv (isr_write s value) := by
  unfold isr_write
  simp only
  split
  · exact irq_inv_of_low _ rfl
  · rename_i hne
    intro _
    apply (isr_low_ne_zero _).1
    intro h0
    apply hne
    rw [h0]
    exact Nat.zero_and _

theorem irq_inv_tcr_write (s : State) (value : Nat) (h : irq_inv s) :
    irq_inv (tcr_write s value) := by
  unfold tcr_write
  simp only
  split <;> exact irq_inv_of_eq s _ rfl rfl h

theorem irq_inv_imr_write (s : State) (value : Nat) (h : irq_inv s) :
    irq_inv (imr_write s value) := by
  unfold imr_write
  simp only
  split
  · rename_i hc
    exact irq_inv_of_any _ (by simp [isr_any, PIC_ActivateIRQ, hc.1])
  · exact irq_inv_of_eq s _ rfl rfl h

theorem irq_inv_page0_write_byte (s : State) (offset data : Nat) (h : irq_inv s) :
    irq_inv (page0_write_byte s offset data) := by
  unfold page0_write_byte
  simp only
  split <;> first
    | exact h
    | exact irq_inv_of_eq s _ rfl rfl h
    | exact irq_inv_isr_write s _
    | exact irq_inv_tcr_write s _ h
    | exact irq_inv_imr_write s _ h

theorem irq_inv_page0_write (s : State) (offset data : Nat) (w : io_width_t) (h : irq_inv s) :
    irq_inv (page0_write s offset data w) := by
  unfold page0_write
  split
  · exact irq_inv_page0_write_byte _ _ _ (irq_inv_page0_write_byte s _ _ h)
  · exact irq_inv_page0_write_byte s _ _ h

theorem irq_inv_page1_write (s : State) (offset data : Nat) (w : io_width_t) (h : irq_inv s) :
    irq_inv (page1_write s offset data w) := by
  unfold page1_write
  simp only
  split
  · exact irq_inv_of_eq s _ rfl rfl h
  · split
    · exact irq_inv_of_eq s _ rfl rfl h
    · split
      · exact irq_inv_of_eq s _ rfl rfl h
      · exact h

theorem irq_inv_page2_write (s : State) (offset data : Nat) (w : io_width_t) (h : irq_inv s) :
    irq_inv (page2_write s offset data w) := by
  unfold page2_write
  simp only
  split <;> exact h

theorem irq_inv_write (L : Layout) (s : State) (address value : Nat) (w : io_width_t)
    (h : irq_inv s) : irq_inv (write L s address value w) := by
  unfold write
  simp only
  split
  · exact irq_inv_asic_write L s _ _ _ h
  · split
    · exact irq_inv_write_cr L s _ h
    · split
      · exact irq_inv_page0_write s _ _ _ h
      · exact irq_inv_page1_write s _ _ _ h
      · exact irq_inv_page2_write s _ _ _ h
      · exact h
      · exact h

theorem irq_inv_read (L : Layout) (s : State) (address : Nat) (w : io_width_t)
    (h : irq_inv s) : irq_inv (read L s address w).1 := by
  unfold read
  simp only
  split
  · exact irq_inv_asic_read L s _ _ h
  · split
    · exact h
    · split <;> exact h

theorem irq_inv_fire (s : State) (k : Nat) (h : irq_inv s) : irq_inv (fire s k) := by
  unfold fire
  split
  · exact irq_inv_tx_timer _
  · exact h

theorem irq_inv_step (L : Layout) (s t : State) (hs : Step L s t) (h : irq_inv s) : irq_inv t := by
  cases hs with
  | read a w => exact irq_inv_read L s a w h
  | write a v w => exact irq_inv_write L s a _ w h
  | rx buf n _ => exact irq_inv_rx_frame L s buf n h
  | tx k _ => exact irq_inv_fire s k h

theorem irq_inv_reachable (L : Layout) (s : State) (h : Reachable L s) : irq_inv s := by
  induction h with
  | init mac base irq => exact irq_inv_reset L _
  | step s t _ hst ih => exact irq_inv_step L s t hst ih

/-- C6 as stated fails in both directions.  After `init()`, a write of `0x0a`
to the Command Register (a zero-length remote read, which sets
`ISR.rdma_done`) and a write of `0x40` to IMR, `ISR AND IMR` is `0x40` but the
interrupt line is not asserted: the IMR write raises the line only for a
pending `pkt_tx`.  After `init()`, a write of `0x40` to IMR, a write of `0x0a`
to the Command Register (which raises the line) and a write of `0x00` to IMR,
the line is asserted but `ISR AND IMR` is 0: an IMR write never lowers the
line. -/
theorem C6_counterexample :
    (Reachable layout32K probe_state ∧
      probe_state.irq = false ∧
      isr_low probe_state.ISR &&& imr_byte probe_state.IMR = 0x40) ∧
    (Reachable layout32K masked_line_state ∧
      masked_line_state.irq = true ∧
      isr_low masked_line_state.ISR &&& imr_byte masked_line_state.IMR = 0) :=
  ⟨⟨Reachable.step _ _ (Reachable.step _ _ (Reachable.init _ _ _) (Step.write _ _ _ _))
      (Step.write _ _ _ _), by decide, by decide⟩,
   ⟨Reachable.step _ _ (Reachable.step _ _ (Reachable.step _ _ (Reachable.init _ _ _)
      (Step.write _ _ _ _)) (Step.write _ _ _ _)) (Step.write _ _ _ _), by decide, by decide⟩⟩

/-- C6, amended: in every state reachable from `init()` by port reads, port
writes, `rx_frame` calls and transmit-completion events, the interrupt line is
asserted only if at least one of the seven maskable ISR bits is set; and right
after a write to ISR (page-0 offset 7) it is asserted only if `ISR AND IMR` is
non-zero. -/
theorem C6_interrupt_line (L : Layout) (s : State) (h : Reachable L s) :
    (s.irq = true → isr_low s.ISR ≠ 0) ∧
    (∀ v, (page0_write s 0x7 v .byte).irq = true →
      isr_low (page0_write s 0x7 v .byte).ISR &&& imr_byte (page0_write s 0x7 v .byte).IMR ≠ 0) := by
  constructor
  · intro hi
    exact (isr_low_ne_zero _).2 (irq_inv_reachable L s h hi)
  · intro v
    rw [page0_write_7]
    unfold isr_write
    simp only
    split
    · intro hi
      exact absurd hi (by simp [PIC_DeActivateIRQ])
    · rename_i hne
      intro _
      exact hne

/-- C6 at a state with the line asserted: after `init()`, `0x40` into IMR and
`0x0a` into the Command Register, the line is asserted and `ISR.rdma_done` is
set; a write of `0x00` to ISR there leaves the line asserted with
`ISR AND IMR = 0x40`. -/
theorem C6_witness :
    Reachable layout32K line_raised_state ∧
    line_raised_state.irq = true ∧
    isr_low line_raised_state.ISR ≠ 0 ∧
    (page0_write line_raised_state 0x7 0 .byte).irq = true ∧
    isr_low (page0_write line_raised_state 0x7 0 .byte).ISR &&&
      imr_byte (page0_write line_raised_state 0x7 0 .byte).IMR ≠ 0 :=
  have hr : Reachable layout32K line_raised_state :=
    Reachable.step _ _ (Reachable.step _ _ (Reachable.init _ _ _) (Step.write _ _ _ _))
      (Step.write _ _ _ _)
  ⟨hr, by decide, (C6_interrupt_line layout32K line_raised_state hr).1 (by decide), by decide,
    (C6_interrupt_line layout32K line_raised_state hr).2 0 (by decide)⟩


/-! ## The remote-DMA engine -/

theorem rdma_wrap_fields (s : State) :
    (rdma_wrap s).remote_bytes = s.remote_bytes ∧ (rdma_wrap s).DCR = s.DCR ∧
    (rdma_wrap s).ISR = s.ISR ∧ (rdma_wrap s).IMR = s.IMR ∧
    (rdma_wrap s).page_start = s.page_start ∧ (rdma_wrap s).page_stop = s.page_stop ∧
    (rdma_wrap s).mem = s.mem := by
  unfold rdma_wrap
  split <;> exact ⟨rfl, rfl, rfl, rfl, rfl, rfl, rfl⟩

theorem rdma_wrap_dma (s : State) :
    (rdma_wrap s).remote_dma =
      if s.remote_dma = s.page_stop <<< 8 then (s.page_start <<< 8) % 2 ^ 16 else s.remote_dma := by
  unfold rdma_wrap
  split <;> rfl

theorem rdma_count_read_fields (s : State) :
    (rdma_count_read s).remote_dma = s.remote_dma ∧ (rdma_count_read s).DCR = s.DCR ∧
    (rdma_count_read s).ISR = s.ISR ∧ (rdma_count_read s).IMR = s.IMR ∧
    (rdma_count_read s).page_start = s.page_start ∧ (rdma_count_read s).page_stop = s.page_stop ∧
    (rdma_count_read s).mem = s.mem := by
  unfold rdma_count_read
  split <;> exact ⟨rfl, rfl, rfl, rfl, rfl, rfl, rfl⟩

theorem rdma_count_read_bytes (s : State) :
    (rdma_count_read s).remote_bytes =
      if s.remote_bytes > 1 then (s.remote_bytes + 2 ^ 16 - (bit s.DCR.wdsize + 1)) % 2 ^ 16
      else 0 := by
  unfold rdma_count_read
  split <;> rfl

theorem rdma_count_write_fields (L : Layout) (s : State) (w : io_width_t) :
    (rdma_count_write L s w).remote_dma = s.remote_dma ∧ (rdma_count_write L s w).DCR = s.DCR ∧
    (rdma_count_write L s w).ISR = s.ISR ∧ (rdma_count_write L s w).IMR = s.IMR ∧
    (rdma_count_write L s w).page_start = s.page_start ∧
    (rdma_count_write L s w).page_stop = s.page_stop ∧
    (rdma_count_write L s w).mem = s.mem := by
  unfold rdma_count_write
  simp only
  split <;> exact ⟨rfl, rfl, rfl, rfl, rfl, rfl, rfl⟩

theorem rdma_complete_fields (s : State) :
    (rdma_complete s).remote_dma = s.remote_dma ∧ (rdma_complete s).remote_bytes = s.remote_bytes ∧
    (rdma_complete s).DCR = s.DCR ∧
    (rdma_complete s).page_start = s.page_start ∧ (rdma_complete s).page_stop = s.page_stop ∧
    (rdma_complete s).mem = s.mem := by
  unfold rdma_complete
  split
  · simp only
    split <;> exact ⟨rfl, rfl, rfl, rfl, rfl, rfl⟩
  · exact ⟨rfl, rfl, rfl, rfl, rfl, rfl⟩

theorem rdma_complete_done (s : State) :
    (rdma_complete s).ISR.rdma_done = if s.remote_bytes = 0 then true else s.ISR.rdma_done := by
  unfold rdma_complete
  split
  · simp only
    split <;> rfl
  · rfl

/-- The data-port case of `asic_read` when bytes remain. -/
theorem asic_read_data (L : Layout) (s : State) (w : io_width_t) (h : s.remote_bytes ≠ 0) :
    asic_read L s 0 w =
      (rdma_complete (rdma_count_read (rdma_wrap
        { s with remote_dma := (s.remote_dma + (bit s.DCR.wdsize + 1)) % 2 ^ 16 })),
       chipmem_read L s s.remote_dma (if s.remote_bytes = 1 then io_width_t.byte else w)) := by
  unfold asic_read
  simp only
  rw [if_neg h]

theorem asic_read_idle (L : Layout) (s : State) (w : io_width_t) (h : s.remote_bytes = 0) :
    asic_read L s 0 w = (s, 0) := by
  unfold asic_read
  simp only
  rw [if_pos h]

/-- The three closing stages of a data-port read, on the fields that matter
for the countdown. -/
theorem rdma_read_stages (s1 : State) :
    (rdma_complete (rdma_count_read (rdma_wrap s1))).remote_bytes =
      (if s1.remote_bytes > 1 then (s1.remote_bytes + 2 ^ 16 - (bit s1.DCR.wdsize + 1)) % 2 ^ 16
       else 0) ∧
    (rdma_complete (rdma_count_read (rdma_wrap s1))).DCR = s1.DCR ∧
    (rdma_complete (rdma_count_read (rdma_wrap s1))).ISR.rdma_done =
      (if (rdma_complete (rdma_count_read (rdma_wrap s1))).remote_bytes = 0 then true
       else s1.ISR.rdma_done) := by
  obtain ⟨_, c2, c3, _⟩ := rdma_complete_fields (rdma_count_read (rdma_wrap s1))
  obtain ⟨_, r2, r3, _⟩ := rdma_count_read_fields (rdma_wrap s1)
  obtain ⟨w1, w2, w3, _⟩ := rdma_wrap_fields s1
  refine ⟨?_, ?_, ?_⟩
  · rw [c2, rdma_count_read_bytes, w1, w2]
  · rw [c3, r2, w2]
  · rw [rdma_complete_done, c2, r3, w3]

/-- One data-port read in word mode: the new count and what else matters for
the countdown. -/
theorem asic_read_word_step (L : Layout) (s : State) (w : io_width_t)
    (hw : s.DCR.wdsize = true) (h16 : s.remote_bytes < 2 ^ 16) :
    (asic_read L s 0 w).1.remote_bytes = s.remote_bytes - 2 ∧
    (asic_read L s 0 w).1.DCR = s.DCR := by
  by_cases h : s.remote_bytes = 0
  · rw [asic_read_idle L s w h]
    exact ⟨by simp only; omega, rfl⟩
  · rw [asic_read_data L s w h]
    obtain ⟨k1, k2, _⟩ := rdma_read_stages
      { s with remote_dma := (s.remote_dma + (bit s.DCR.wdsize + 1)) % 2 ^ 16 }
    simp only at k1 k2 ⊢
    rw [k1, k2]
    refine ⟨?_, rfl⟩
    have hbit : bit s.DCR.wdsize = 1 := by rw [hw]; rfl
    rw [hbit]
    split <;> omega

theorem asic_read_n_bytes (L : Layout) (w : io_width_t) (k : Nat) (s : State)
    (hw : s.DCR.wdsize = true) (h16 : s.remote_bytes < 2 ^ 16) :
    (asic_read_n L w k s).remote_bytes = s.remote_bytes - 2 * k := by
  induction k generalizing s with
  | zero => simp [asic_read_n]
  | succ k ih =>
    obtain ⟨hb, hd⟩ := asic_read_word_step L s w hw h16
    rw [asic_read_n, ih _ (by rw [hd]; exact hw) (by rw [hb]; omega), hb]
    omega

/-- C11: in word mode with `N > 0` bytes remaining, one data-port read leaves
`N - 2` (0 when `N = 1`, and then the access is a byte read at `remote_dma`);
the count never exceeds its old value, `ISR.rdma_done` is set exactly when the
new count is 0 (otherwise it is left as it was), and the count first reaches 0
after `ceil(N / 2)` reads. -/
theorem C11_rdma_read_countdown (L : Layout) (s : State) (w : io_width_t)
    (hw : s.DCR.wdsize = true) (hN : 0 < s.remote_bytes) (h16 : s.remote_bytes < 2 ^ 16) :
    (2 ≤ s.remote_bytes → (asic_read L s 0 w).1.remote_bytes = s.remote_bytes - 2) ∧
    (s.remote_bytes = 1 → (asic_read L s 0 w).1.remote_bytes = 0 ∧
      (asic_read L s 0 w).2 = chipmem_read L s s.remote_dma .byte) ∧
    (asic_read L s 0 w).1.remote_bytes ≤ s.remote_bytes ∧
    ((asic_read L s 0 w).1.remote_bytes = 0 → (asic_read L s 0 w).1.ISR.rdma_done = true) ∧
    ((asic_read L s 0 w).1.remote_bytes ≠ 0 →
      (asic_read L s 0 w).1.ISR.rdma_done = s.ISR.rdma_done) ∧
    (asic_read_n L w ((s.remote_bytes + 1) / 2) s).remote_bytes = 0 ∧
    (∀ k, k < (s.remote_bytes + 1) / 2 → (asic_read_n L w k s).remote_bytes ≠ 0) := by
  obtain ⟨hb, _⟩ := asic_read_word_step L s w hw h16
  have hne : s.remote_bytes ≠ 0 := by omega
  have hdone : (asic_read L s 0 w).1.ISR.rdma_done =
      if (asic_read L s 0 w).1.remote_bytes = 0 then true else s.ISR.rdma_done := by
    rw [asic_read_data L s w hne]
    exact (rdma_read_stages
      { s with remote_dma := (s.remote_dma + (bit s.DCR.wdsize + 1)) % 2 ^ 16 }).2.2
  refine ⟨fun _ => hb, fun h1 => ⟨by rw [hb]; omega, ?_⟩, by rw [hb]; omega, ?_, ?_, ?_, ?_⟩
  · rw [asic_read_data L s w hne]
    simp only
    rw [if_pos h1]
  · intro h0
    rw [hdone, if_pos h0]
  · intro h0
    rw [hdone, if_neg h0]
  · rw [asic_read_n_bytes L w _ s hw h16]
    omega
  · intro k hk
    rw [asic_read_n_bytes L w _ s hw h16]
    omega

/-- C11 at a 32-byte transfer: the first read leaves 30 and 16 reads finish it. -/
theorem C11_witness :
    (asic_read layout32K prom_read_state 0 .word).1.remote_bytes = 30 ∧
    (asic_read_n layout32K .word 16 prom_read_state).remote_bytes = 0 :=
  ⟨(C11_rdma_read_countdown layout32K prom_read_state .word (by decide) (by decide)
      (by decide)).1 (by decide),
   (C11_rdma_read_countdown layout32K prom_read_state .word (by decide) (by decide)
      (by decide)).2.2.2.2.2.1⟩

/-- The cursor after a data-port read that found bytes remaining. -/
theorem asic_read_dma (L : Layout) (s : State) (w : io_width_t) (h : s.remote_bytes ≠ 0) :
    (asic_read L s 0 w).1.remote_dma =
      (if (s.remote_dma + (bit s.DCR.wdsize + 1)) % 2 ^ 16 = s.page_stop <<< 8
       then (s.page_start <<< 8) % 2 ^ 16
       else (s.remote_dma + (bit s.DCR.wdsize + 1)) % 2 ^ 16) ∧
    (asic_read L s 0 w).1.page_start = s.page_start ∧
    (asic_read L s 0 w).1.page_stop = s.page_stop := by
  rw [asic_read_data L s w h]
  have hc := rdma_complete_fields (rdma_count_read (rdma_wrap
    { s with remote_dma := (s.remote_dma + (bit s.DCR.wdsize + 1)) % 2 ^ 16 }))
  have hr := rdma_count_read_fields (rdma_wrap
    { s with remote_dma := (s.remote_dma + (bit s.DCR.wdsize + 1)) % 2 ^ 16 })
  have hw := rdma_wrap_fields
    { s with remote_dma := (s.remote_dma + (bit s.DCR.wdsize + 1)) % 2 ^ 16 }
  have hd := rdma_wrap_dma
    { s with remote_dma := (s.remote_dma + (bit s.DCR.wdsize + 1)) % 2 ^ 16 }
  simp only at hc hr hw hd ⊢
  rw [hc.1, hr.1, hd, hc.2.2.2.1, hr.2.2.2.2.1, hw.2.2.2.2.1, hc.2.2.2.2.1, hr.2.2.2.2.2.1,
    hw.2.2.2.2.2.1]
  exact ⟨rfl, rfl, rfl⟩

theorem chipmem_write_fields (L : Layout) (s : State) (a d : Nat) (w : io_width_t) :
    (chipmem_write L s a d w).remote_dma = s.remote_dma ∧
    (chipmem_write L s a d w).remote_bytes = s.remote_bytes ∧
    (chipmem_write L s a d w).page_start = s.page_start ∧
    (chipmem_write L s a d w).page_stop = s.page_stop ∧
    (chipmem_write L s a d w).DCR = s.DCR ∧
    (chipmem_write L s a d w).ISR = s.ISR ∧
    (chipmem_write L s a d w).IMR = s.IMR ∧
    (chipmem_write L s a d w).macaddr = s.macaddr := by
  unfold chipmem_write
  simp only
  split <;> exact ⟨rfl, rfl, rfl, rfl, rfl, rfl, rfl, rfl⟩

/-- The data-port case of `asic_write` when the write is not a word write in
byte mode. -/
theorem asic_write_data (L : Layout) (s : State) (v : Nat) (w : io_width_t)
    (h : ¬ (w = .word ∧ s.DCR.wdsize = false)) :
    asic_write L s 0 v w =
      rdma_complete (rdma_count_write L (rdma_wrap
        { chipmem_write L s s.remote_dma v w with
          remote_dma := ((chipmem_write L s s.remote_dma v w).remote_dma + enum_val w) % 2 ^ 16 })
        w) := by
  unfold asic_write
  simp only
  rw [if_neg h]

theorem asic_write_rejected (L : Layout) (s : State) (v : Nat) (w : io_width_t)
    (h : w = .word ∧ s.DCR.wdsize = false) : asic_write L s 0 v w = s := by
  unfold asic_write
  simp only
  rw [if_pos h]

/-- The cursor after a data-port write that is not rejected. -/
theorem asic_write_dma (L : Layout) (s : State) (v : Nat) (w : io_width_t)
    (h : ¬ (w = .word ∧ s.DCR.wdsize = false)) :
    (asic_write L s 0 v w).remote_dma =
      (if (s.remote_dma + enum_val w) % 2 ^ 16 = s.page_stop <<< 8
       then (s.page_start <<< 8) % 2 ^ 16
       else (s.remote_dma + enum_val w) % 2 ^ 16) ∧
    (asic_write L s 0 v w).page_start = s.page_start ∧
    (asic_write L s 0 v w).page_stop = s.page_stop := by
  rw [asic_write_data L s v w h]
  obtain ⟨m1, _, m3, m4, _⟩ := chipmem_write_fields L s s.remote_dma v w
  generalize chipmem_write L s s.remote_dma v w = c at m1 m3 m4 ⊢
  have hc := rdma_complete_fields (rdma_count_write L (rdma_wrap
    { c with remote_dma := (c.remote_dma + enum_val w) % 2 ^ 16 }) w)
  have hr := rdma_count_write_fields L (rdma_wrap
    { c with remote_dma := (c.remote_dma + enum_val w) % 2 ^ 16 }) w
  have hw := rdma_wrap_fields { c with remote_dma := (c.remote_dma + enum_val w) % 2 ^ 16 }
  have hd := rdma_wrap_dma { c with remote_dma := (c.remote_dma + enum_val w) % 2 ^ 16 }
  simp only at hc hr hw hd ⊢
  rw [hc.1, hr.1, hd, hc.2.2.2.1, hr.2.2.2.2.1, hw.2.2.2.2.1, hc.2.2.2.2.1, hr.2.2.2.2.2.1,
    hw.2.2.2.2.2.1, m1, m3, m4]
  exact ⟨rfl, rfl, rfl⟩

/-- C12 as stated fails.  A driver reading the PROM has the cursor at chip
address 0, and after the read it is at 2, below the ring; and a cursor at the
odd address `0x7fff` in word mode steps to `0x8001`, over `page_stop * 256`
without meeting it, so it is not wrapped. -/
theorem C12_counterexample :
    (prom_read_state.page_start < prom_read_state.page_stop ∧ 0 < prom_read_state.remote_bytes ∧
      (asic_read layout32K prom_read_state 0 .word).1.remote_dma = 2 ∧
      ¬ in_ring prom_read_state (asic_read layout32K prom_read_state 0 .word).1.remote_dma) ∧
    (odd_cursor_state.page_start < odd_cursor_state.page_stop ∧ 0 < odd_cursor_state.remote_bytes ∧
      in_ring odd_cursor_state odd_cursor_state.remote_dma ∧
      (asic_read layout32K odd_cursor_state 0 .word).1.remote_dma = 0x8001 ∧
      ¬ in_ring odd_cursor_state (asic_read layout32K odd_cursor_state 0 .word).1.remote_dma) := by
  decide

/-- C12, amended: when the cursor `remote_dma` is inside
`[page_start*256, page_stop*256)` (so `page_start < page_stop`) and is a
multiple of the step of the access (`wdsize + 1` for a read, the access width
for a write), then after a data-port read and after a data-port write it is
still inside that range, taken with the `page_start` and `page_stop` of the
state after the access. -/
theorem C12_rdma_cursor_range (L : Layout) (s : State) (v : Nat) (w : io_width_t)
    (h8 : s.page_stop ≤ 255) (hin : in_ring s s.remote_dma) :
    (s.remote_dma % (bit s.DCR.wdsize + 1) = 0 →
      in_ring (asic_read L s 0 w).1 (asic_read L s 0 w).1.remote_dma) ∧
    (s.remote_dma % enum_val w = 0 →
      in_ring (asic_write L s 0 v w) (asic_write L s 0 v w).remote_dma) := by
  obtain ⟨hlo, hhi⟩ := hin
  have hs8 : s.page_stop <<< 8 = s.page_stop * 256 := by rw [Nat.shiftLeft_eq]
  have hp8 : s.page_start <<< 8 = s.page_start * 256 := by rw [Nat.shiftLeft_eq]
  constructor
  · intro hal
    by_cases h0 : s.remote_bytes = 0
    · rw [asic_read_idle L s w h0]
      exact ⟨hlo, hhi⟩
    · obtain ⟨e1, e2, e3⟩ := asic_read_dma L s w h0
      unfold in_ring
      rw [e1, e2, e3, hs8, hp8]
      have hb : bit s.DCR.wdsize = 0 ∨ bit s.DCR.wdsize = 1 := by
        cases s.DCR.wdsize
        · left; rfl
        · right; rfl
      rcases hb with hb | hb <;> rw [hb] at hal ⊢ <;> split <;> omega
  · intro hal
    by_cases hr : w = .word ∧ s.DCR.wdsize = false
    · rw [asic_write_rejected L s v w hr]
      exact ⟨hlo, hhi⟩
    · obtain ⟨e1, e2, e3⟩ := asic_write_dma L s v w hr
      unfold in_ring
      rw [e1, e2, e3, hs8, hp8]
      cases w <;> simp only [enum_val] at hal ⊢ <;> split <;> omega

/-- C12 at a cursor on the first byte of the ring `0x46 .. 0x80`. -/
theorem C12_witness :
    in_ring (asic_read layout32K { prom_read_state with remote_dma := 0x4600 } 0 .word).1
      (asic_read layout32K { prom_read_state with remote_dma := 0x4600 } 0 .word).1.remote_dma :=
  (C12_rdma_cursor_range layout32K { prom_read_state with remote_dma := 0x4600 } 0 .word
    (by decide) (by decide)).1 (by decide)

/-- C13 at the failing input: with `remote_bytes = 0` and the cursor at chip
address `0x4000`, a byte write of `0xab` to the data port is not rejected: it
stores the byte, advances the cursor and sets `ISR.rdma_done`; only
`remote_bytes` is 0 afterwards as before. -/
theorem C13_zero_count_write_is_performed :
    idle_dma_state.remote_bytes = 0 ∧
    idle_dma_state.mem 0 = 0 ∧
    (asic_write layout32K idle_dma_state 0 0xab .byte).mem 0 = 0xab ∧
    (asic_write layout32K idle_dma_state 0 0xab .byte).remote_dma = 0x4001 ∧
    idle_dma_state.ISR.rdma_done = false ∧
    (asic_write layout32K idle_dma_state 0 0xab .byte).ISR.rdma_done = true ∧
    (asic_write layout32K idle_dma_state 0 0xab .byte).remote_bytes = 0 := by
  decide

/-! ## Chip memory -/

/-- C14: with the PROM window `0 .. 31` below the chip memory, a byte read
returns `macaddr[a]` for `a ≤ 31`, `mem[a - MEMSTART]` for
`MEMSTART ≤ a < MEMEND` and `0xFF` otherwise; a word read returns the low byte
or-ed with the next byte shifted by 8 from the same array, and `0xFF` outside
both regions; for an even address in the PROM window the next byte is in the
window too, and so it is in the chip memory when `MEMEND` is even.
(`chipmem_read` is a function of the state only: it returns a value and no
state.) -/
theorem C14_chipmem_read_map (L : Layout) (s : State) (a : Nat) (hL : 31 < L.MEMSTART) :
    (a ≤ 31 → chipmem_read L s a .byte = s.macaddr a) ∧
    (L.MEMSTART ≤ a → a < L.MEMEND →
      chipmem_read L s a .byte = s.mem ((a : Int) - L.MEMSTART)) ∧
    (31 < a → ¬ (L.MEMSTART ≤ a ∧ a < L.MEMEND) → chipmem_read L s a .byte = 0xff) ∧
    (a ≤ 31 → chipmem_read L s a .word = s.macaddr a ||| (s.macaddr (a + 1) <<< 8)) ∧
    (a ≤ 31 → a % 2 = 0 → a + 1 ≤ 31) ∧
    (L.MEMSTART ≤ a → a < L.MEMEND →
      chipmem_read L s a .word =
        s.mem ((a : Int) - L.MEMSTART) ||| (s.mem ((a : Int) - L.MEMSTART + 1) <<< 8)) ∧
    (31 < a → ¬ (L.MEMSTART ≤ a ∧ a < L.MEMEND) → chipmem_read L s a .word = 0xff) ∧
    (a < L.MEMEND → a % 2 = 0 → L.MEMEND % 2 = 0 → a + 1 < L.MEMEND) := by
  refine ⟨?_, ?_, ?_, ?_, ?_, ?_, ?_, ?_⟩
  · intro h
    unfold chipmem_read
    rw [if_pos h]
    simp
  · intro h1 h2
    unfold chipmem_read
    rw [if_neg (by omega), if_pos ⟨h1, h2⟩]
    simp
  · intro h1 h2
    unfold chipmem_read
    rw [if_neg (by omega), if_neg h2]
  · intro h
    unfold chipmem_read
    rw [if_pos h]
    simp
  · intro h1 h2
    omega
  · intro h1 h2
    unfold chipmem_read
    rw [if_neg (by omega), if_pos ⟨h1, h2⟩]
    simp
  · intro h1 h2
    unfold chipmem_read
    rw [if_neg (by omega), if_neg h2]
  · intro h1 h2 h3
    omega

/-- C14 at `layout32K`: the first PROM byte of the initialised device. -/
theorem C14_witness :
    chipmem_read layout32K init_state 0 .byte = 0xac :=
  ((C14_chipmem_read_map layout32K init_state 0 (by decide)).1 (by decide)).trans (by decide)

/-- C15 as stated fails: on the initialised device the PROM byte 0 is `0xac`;
after `chipmem_write(0, 0x55, byte)` it still is, and `chipmem_read(0, byte)`
returns `0xac`, not `0x55`. -/
theorem C15_counterexample :
    (chipmem_write layout32K init_state 0 0x55 .byte).macaddr 0 = 0xac ∧
    chipmem_read layout32K (chipmem_write layout32K init_state 0 0x55 .byte) 0 .byte = 0xac := by
  decide

/-- C15, amended: `chipmem_write` never changes the PROM mirror; a write to an
address below `MEMSTART` (in particular to `0 .. 31` when the PROM window lies
below the chip memory) leaves the whole state unchanged, and for `a ≤ 31` a
byte read after the write still returns the old `macaddr[a]`. -/
theorem C15_prom_is_read_only (L : Layout) (s : State) (a b : Nat) (w : io_width_t) :
    (chipmem_write L s a b w).macaddr = s.macaddr ∧
    (a < L.MEMSTART → chipmem_write L s a b w = s) ∧
    (a ≤ 31 → chipmem_read L (chipmem_write L s a b w) a .byte = s.macaddr a) := by
  have hm := (chipmem_write_fields L s a b w).2.2.2.2.2.2.2
  refine ⟨hm, ?_, ?_⟩
  · intro h
    unfold chipmem_write
    simp only
    rw [if_neg (by omega)]
  · intro h
    unfold chipmem_read
    rw [if_pos h, hm]
    simp

/-- C15 at the initialised device: the PROM byte 5 survives a write of `0x55`. -/
theorem C15_witness :
    chipmem_read layout32K (chipmem_write layout32K init_state 5 0x55 .byte) 5 .byte =
      init_state.macaddr 5 :=
  (C15_prom_is_read_only layout32K init_state 5 0x55 .byte).2.2 (by decide)

/-! ## The transmit path -/

/-- C19: `tx_timer` sets `TSR.tx_ok`, `ISR.pkt_tx` and clears
`tx_timer_active`; it activates the interrupt line exactly when `IMR.tx_inte`
is set and `ISR.pkt_tx` was clear before the call; every other field keeps
its value. -/
theorem C19_tx_timer (s : State) :
    tx_timer s =
      { s with
        TSR := { s.TSR with tx_ok := true }
        ISR := { s.ISR with pkt_tx := true }
        tx_timer_active := false
        irq := s.irq || (s.IMR.tx_inte && !s.ISR.pkt_tx)
        trace := s.trace ++
          (if s.IMR.tx_inte && !s.ISR.pkt_tx then [Effect.activateIRQ] else []) } := by
  unfold tx_timer
  rcases Bool.eq_false_or_eq_true s.IMR.tx_inte with hi | hi <;>
    rcases Bool.eq_false_or_eq_true s.ISR.pkt_tx with hp | hp <;>
    simp [hi, hp, PIC_ActivateIRQ]

set_option maxRecDepth 100000 in
theorem validated_txp : ∀ v, v < 256 → v &&& 0x04 ≠ 0 →
    (if v &&& 0x38 = 0x00 then v ||| 0x20 else v) &&& 0x04 ≠ 0 := by
  decide

theorem write_cr_regs_fields (s : State) (value : Nat) :
    (write_cr_regs s value).trace = s.trace ∧ (write_cr_regs s value).events = s.events ∧
    (write_cr_regs s value).mem = s.mem ∧ (write_cr_regs s value).tx_bytes = s.tx_bytes ∧
    (write_cr_regs s value).tx_page_start = s.tx_page_start ∧
    (write_cr_regs s value).tx_timer_active = s.tx_timer_active ∧
    (write_cr_regs s value).TCR = s.TCR ∧ (write_cr_regs s value).TSR = s.TSR ∧
    (write_cr_regs s value).IMR = s.IMR ∧
    (write_cr_regs s value).ISR.pkt_tx = s.ISR.pkt_tx ∧
    (write_cr_regs s value).irq = s.irq := by
  unfold write_cr_regs
  simp only
  split <;> split <;> exact ⟨rfl, rfl, rfl, rfl, rfl, rfl, rfl, rfl, rfl, rfl, rfl⟩

theorem write_cr_sendpkt_fields (L : Layout) (s : State) :
    (write_cr_sendpkt L s).trace = s.trace ∧ (write_cr_sendpkt L s).events = s.events ∧
    (write_cr_sendpkt L s).mem = s.mem ∧ (write_cr_sendpkt L s).tx_bytes = s.tx_bytes ∧
    (write_cr_sendpkt L s).tx_page_start = s.tx_page_start ∧
    (write_cr_sendpkt L s).tx_timer_active = s.tx_timer_active ∧
    (write_cr_sendpkt L s).TCR = s.TCR ∧ (write_cr_sendpkt L s).TSR = s.TSR ∧
    (write_cr_sendpkt L s).IMR = s.IMR ∧
    (write_cr_sendpkt L s).ISR.pkt_tx = s.ISR.pkt_tx ∧
    (write_cr_sendpkt L s).irq = s.irq := by
  unfold write_cr_sendpkt
  split <;> exact ⟨rfl, rfl, rfl, rfl, rfl, rfl, rfl, rfl, rfl, rfl, rfl⟩

/-- What the probe at the end of `write_cr` leaves alone, and what it appends
to the trace. -/
theorem write_cr_probe_fields (s : State) :
    (write_cr_probe s).events = s.events ∧
    (write_cr_probe s).tx_timer_active = s.tx_timer_active ∧
    (write_cr_probe s).TSR = s.TSR ∧
    (write_cr_probe s).ISR.pkt_tx = s.ISR.pkt_tx ∧
    (write_cr_probe s).CR = s.CR ∧
    (write_cr_probe s).tx_bytes = s.tx_bytes ∧
    ∃ post, (post = [] ∨ post = [Effect.activateIRQ]) ∧
      (write_cr_probe s).trace = s.trace ++ post := by
  unfold write_cr_probe
  split
  · simp only
    split
    · exact ⟨rfl, rfl, rfl, rfl, rfl, rfl, [Effect.activateIRQ], Or.inr rfl, rfl⟩
    · exact ⟨rfl, rfl, rfl, rfl, rfl, rfl, [], Or.inl rfl, (List.append_nil _).symm⟩
  · exact ⟨rfl, rfl, rfl, rfl, rfl, rfl, [], Or.inl rfl, (List.append_nil _).symm⟩

/-- The start-tx part of `write_cr` for a real transmit (bit 2 set, no
loopback), written out on the fields the transmit path touches. -/
theorem write_cr_tx_real (L : Layout) (s : State) (value : Nat)
    (hbit : value &&& 0x04 ≠ 0) (hloop : s.TCR.loop_cntl = 0) :
    (write_cr_tx L s value).tx_timer_active = true ∧
    (write_cr_tx L s value).events =
      (if s.tx_timer_active then [] else s.events) ++ [tx_bits s.tx_bytes] ∧
    (write_cr_tx L s value).trace =
      s.trace ++
        (if s.tx_timer_active then
          [Effect.removeEvents, Effect.txEvent] ++
            (if s.IMR.tx_inte && !s.ISR.pkt_tx then [Effect.activateIRQ] else [])
         else []) ++
        [Effect.sendPacket (tx_frame L s), Effect.addEvent (tx_bits s.tx_bytes)] ∧
    (s.tx_timer_active = true →
      (write_cr_tx L s value).TSR.tx_ok = true ∧ (write_cr_tx L s value).ISR.pkt_tx = true) ∧
    (write_cr_tx L s value).CR = s.CR ∧
    (write_cr_tx L s value).tx_bytes = s.tx_bytes := by
  have hb : tx_bits s.tx_bytes = 64 + 96 + 4 * 8 + s.tx_bytes * 8 := by unfold tx_bits; omega
  unfold write_cr_tx
  rw [if_neg (by rw [hloop]; simp), if_pos hbit, hb]
  rcases Bool.eq_false_or_eq_true s.tx_timer_active with ha | ha
  · rcases Bool.eq_false_or_eq_true s.IMR.tx_inte with hi | hi <;>
      rcases Bool.eq_false_or_eq_true s.ISR.pkt_tx with hp | hp <;>
      simp [ha, hi, hp, SendPacket, PIC_AddEvent, NE2000_TX_Event, tx_timer, PIC_RemoveEvents,
        PIC_ActivateIRQ, tx_frame]
  · simp [ha, SendPacket, PIC_AddEvent, tx_frame]

/-- The state that reaches the start-tx part of `write_cr` agrees with the
state before the call on everything the transmit path reads. -/
theorem write_cr_pre_tx (L : Layout) (s : State) (value : Nat) :
    (write_cr_sendpkt L (write_cr_regs s value)).trace = s.trace ∧
    (write_cr_sendpkt L (write_cr_regs s value)).events = s.events ∧
    tx_frame L (write_cr_sendpkt L (write_cr_regs s value)) = tx_frame L s ∧
    (write_cr_sendpkt L (write_cr_regs s value)).tx_bytes = s.tx_bytes ∧
    (write_cr_sendpkt L (write_cr_regs s value)).tx_timer_active = s.tx_timer_active ∧
    (write_cr_sendpkt L (write_cr_regs s value)).TCR = s.TCR ∧
    (write_cr_sendpkt L (write_cr_regs s value)).IMR = s.IMR ∧
    (write_cr_sendpkt L (write_cr_regs s value)).ISR.pkt_tx = s.ISR.pkt_tx := by
  obtain ⟨a1, a2, a3, a4, a5, a6, a7, _, a9, a10, _⟩ := write_cr_regs_fields s value
  obtain ⟨b1, b2, b3, b4, b5, b6, b7, _, b9, b10, _⟩ :=
    write_cr_sendpkt_fields L (write_cr_regs s value)
  refine ⟨b1.trans a1, b2.trans a2, ?_, b4.trans a4, b6.trans a6, b7.trans a7, b9.trans a9,
    b10.trans a10⟩
  unfold tx_frame
  rw [b3, b4, b5, a3, a4, a5]

/-- A real transmit requested through `write_cr` (bit 2 set, no loopback):
what is handed to the collaborators, in order, and the transmit fields
afterwards. -/
theorem write_cr_real (L : Layout) (s : State) (data : Nat)
    (hbit : txp_set data) (hloop : s.TCR.loop_cntl = 0) :
    (write_cr L s data).tx_timer_active = true ∧
    (write_cr L s data).events =
      (if s.tx_timer_active then [] else s.events) ++ [tx_bits s.tx_bytes] ∧
    (∃ post, (post = [] ∨ post = [Effect.activateIRQ]) ∧
      (write_cr L s data).trace =
        s.trace ++
          (if s.tx_timer_active then
            [Effect.removeEvents, Effect.txEvent] ++
              (if s.IMR.tx_inte && !s.ISR.pkt_tx then [Effect.activateIRQ] else [])
           else []) ++
          [Effect.sendPacket (tx_frame L s), Effect.addEvent (tx_bits s.tx_bytes)] ++ post) ∧
    (s.tx_timer_active = true →
      (write_cr L s data).TSR.tx_ok = true ∧ (write_cr L s data).ISR.pkt_tx = true) := by
  unfold write_cr
  simp only
  have hv := validated_txp (data % 256) (Nat.mod_lt _ (by norm_num)) hbit
  generalize (if data % 256 &&& 0x38 = 0x00 then data % 256 ||| 0x20 else data % 256) = value
    at hv ⊢
  obtain ⟨p1, p2, p3, p4, p5, p6, p7, p8⟩ := write_cr_pre_tx L s value
  have hloop5 : (write_cr_sendpkt L (write_cr_regs s value)).TCR.loop_cntl = 0 := by
    rw [p6]; exact hloop
  obtain ⟨t1, t2, t3, t4, _, _⟩ :=
    write_cr_tx_real L (write_cr_sendpkt L (write_cr_regs s value)) value hv hloop5
  rw [p1, p3, p4, p5, p7, p8] at t3
  rw [p2, p4, p5] at t2
  rw [p5] at t4
  obtain ⟨q1, q2, q3, q4, _, _, post, hpost, q5⟩ :=
    write_cr_probe_fields (write_cr_tx L (write_cr_sendpkt L (write_cr_regs s value)) value)
  refine ⟨q2.trans t1, q1.trans t2, ⟨post, hpost, ?_⟩, fun ha => ?_⟩
  · rw [q5, t3]
  · obtain ⟨u1, u2⟩ := t4 ha
    exact ⟨by rw [q3]; exact u1, q4.trans u2⟩

/-- C16: when `write_cr` requests a real transmit while `tx_timer_active` is
set, the trace grows by: removal of the pending events, the completion
handler (with its interrupt, if due), then the new frame handed to the
transport, then the new event; afterwards `TSR.tx_ok` and `ISR.pkt_tx` are
set, exactly one completion event is pending and `tx_timer_active` is set. -/
theorem C16_transmit_order (L : Layout) (s : State) (data : Nat)
    (hbit : txp_set data) (hloop : s.TCR.loop_cntl = 0) (hact : s.tx_timer_active = true) :
    (∃ mid post, (mid = [] ∨ mid = [Effect.activateIRQ]) ∧
      (post = [] ∨ post = [Effect.activateIRQ]) ∧
      (write_cr L s data).trace =
        s.trace ++ [Effect.removeEvents, Effect.txEvent] ++ mid ++
          [Effect.sendPacket (tx_frame L s), Effect.addEvent (tx_bits s.tx_bytes)] ++ post) ∧
    (write_cr L s data).TSR.tx_ok = true ∧
    (write_cr L s data).ISR.pkt_tx = true ∧
    (write_cr L s data).events = [tx_bits s.tx_bytes] ∧
    (write_cr L s data).tx_timer_active = true := by
  obtain ⟨r1, r2, ⟨post, hpost, r3⟩, r4⟩ := write_cr_real L s data hbit hloop
  obtain ⟨u1, u2⟩ := r4 hact
  rw [hact] at r2 r3
  refine ⟨⟨if s.IMR.tx_inte && !s.ISR.pkt_tx then [Effect.activateIRQ] else [], post, ?_, hpost,
    ?_⟩, u1, u2, ?_, r1⟩
  · split
    · exact Or.inr rfl
    · exact Or.inl rfl
  · rw [r3]
    simp
  · rw [r2]
    simp

/-- C16 at a started device with a transmit outstanding. -/
theorem C16_witness :
    (write_cr layout32K { tx_ready_state with tx_timer_active := true, events := [992] } 0x26).events
      = [tx_bits 100] ∧
    (write_cr layout32K { tx_ready_state with tx_timer_active := true, events := [992] } 0x26).trace
      = [Effect.removeEvents, Effect.txEvent,
         Effect.sendPacket (tx_frame layout32K tx_ready_state), Effect.addEvent 992] :=
  ⟨(C16_transmit_order layout32K { tx_ready_state with tx_timer_active := true, events := [992] }
      0x26 (by decide) (by decide) (by decide)).2.2.2.1, by decide⟩

/-- C18: a real transmit started by `write_cr` hands the transport the
`tx_bytes` bytes of chip memory from `tx_page_start * 256` on and then
schedules, as the last pending event, a completion event whose delay is
`(64 + 96 + 32 + 8 * tx_bytes) / 100000`. -/
theorem C18_transmit_duration (L : Layout) (s : State) (data : Nat)
    (hbit : txp_set data) (hloop : s.TCR.loop_cntl = 0) :
    (∃ pre post, (write_cr L s data).trace =
      pre ++ [Effect.sendPacket (tx_frame L s), Effect.addEvent (tx_bits s.tx_bytes)] ++ post) ∧
    (write_cr L s data).events.getLast? = some (tx_bits s.tx_bytes) ∧
    tx_delay (tx_bits s.tx_bytes) = (64 + 96 + 32 + 8 * (s.tx_bytes : ℚ)) / 100000 := by
  obtain ⟨_, r2, ⟨post, _, r3⟩, _⟩ := write_cr_real L s data hbit hloop
  refine ⟨⟨_, post, r3⟩, ?_, ?_⟩
  · rw [r2]
    simp
  · unfold tx_delay tx_bits
    push_cast
    ring

/-- The scenario of C18: `tx_bytes = 100` and `0x06` written to the Command
Register schedule the completion event after `992 / 100000`. -/
theorem C18_witness :
    (write_cr layout32K tx_ready_state 0x06).events = [992] ∧
    tx_delay 992 = 992 / 100000 ∧
    (write_cr layout32K tx_ready_state 0x06).events.getLast? = some (tx_bits 100) :=
  ⟨by decide, rfl,
   (C18_transmit_duration layout32K tx_ready_state 0x06 (by decide) (by decide)).2.1⟩

set_option maxRecDepth 100000 in
theorem validated_no_txp : ∀ v, v < 256 → v &&& 0x04 = 0 →
    (if v &&& 0x38 = 0x00 then v ||| 0x20 else v) &&& 0x04 = 0 := by
  decide

/-- A Command Register write with bit 2 clear: nothing is handed to the
transport and the event queue is left alone. -/
theorem write_cr_no_tx (L : Layout) (s : State) (data : Nat) (hbit : ¬ txp_set data) :
    (write_cr L s data).events = s.events ∧
    (write_cr L s data).tx_timer_active = s.tx_timer_active ∧
    ∃ post, (post = [] ∨ post = [Effect.activateIRQ]) ∧
      (write_cr L s data).trace = s.trace ++ post := by
  unfold write_cr
  simp only
  have hv := validated_no_txp (data % 256) (Nat.mod_lt _ (by norm_num)) (not_not.mp hbit)
  generalize (if data % 256 &&& 0x38 = 0x00 then data % 256 ||| 0x20 else data % 256) = value
    at hv ⊢
  obtain ⟨p1, p2, _, _, p5, _, _, _⟩ := write_cr_pre_tx L s value
  have ht : write_cr_tx L (write_cr_sendpkt L (write_cr_regs s value)) value =
      write_cr_sendpkt L (write_cr_regs s value) := by
    unfold write_cr_tx
    simp [hv]
  obtain ⟨q1, q2, _, _, _, _, post, hpost, q5⟩ :=
    write_cr_probe_fields (write_cr_tx L (write_cr_sendpkt L (write_cr_regs s value)) value)
  rw [ht] at q1 q2 q5 ⊢
  exact ⟨q1.trans p2, q2.trans p5, post, hpost, by rw [q5, p1]⟩

/-- C20, the claim as stated fails: right after `init()` the device is stopped,
not started and `tx_bytes` is 0, yet writing `0x05` to the Command Register
hands an (empty) frame to the transport, schedules a completion event and
sets `tx_timer_active`. -/
theorem C20_counterexample :
    (0x05 % 256) &&& 0x04 ≠ 0 ∧ init_state.TCR.loop_cntl = 0 ∧
    (write_cr layout32K init_state 0x05).CR.stop = true ∧
    (write_cr layout32K init_state 0x05).CR.start = false ∧
    (write_cr layout32K init_state 0x05).tx_bytes = 0 ∧
    init_state.tx_timer_active = false ∧ init_state.events = [] ∧ init_state.trace = [Effect.deactivateIRQ] ∧
    (write_cr layout32K init_state 0x05).tx_timer_active = true ∧
    (write_cr layout32K init_state 0x05).events = [192] ∧
    (write_cr layout32K init_state 0x05).trace =
      [Effect.deactivateIRQ, Effect.sendPacket [], Effect.addEvent 192] := by
  decide

/-- C20, amended: a Command Register write with bit 2 set and
`TCR.loop_cntl == 0` hands the frame to the transport, schedules the
completion event and sets `tx_timer_active` whatever `CR.stop`, `CR.start`
and `tx_bytes` are (these conditions are only logged); with bit 2 clear
nothing is handed to the transport, and the pending events and
`tx_timer_active` are unchanged. -/
theorem C20_violations_still_transmit (L : Layout) (s : State) (data : Nat) :
    (txp_set data → s.TCR.loop_cntl = 0 →
      (∃ pre post, (write_cr L s data).trace =
        pre ++ [Effect.sendPacket (tx_frame L s), Effect.addEvent (tx_bits s.tx_bytes)] ++ post) ∧
      (write_cr L s data).events =
        (if s.tx_timer_active then [] else s.events) ++ [tx_bits s.tx_bytes] ∧
      (write_cr L s data).tx_timer_active = true) ∧
    (¬ txp_set data →
      (∃ post, (post = [] ∨ post = [Effect.activateIRQ]) ∧
        (write_cr L s data).trace = s.trace ++ post) ∧
      (write_cr L s data).events = s.events ∧
      (write_cr L s data).tx_timer_active = s.tx_timer_active) := by
  refine ⟨fun hbit hloop => ?_, fun hbit => ?_⟩
  · obtain ⟨r1, r2, ⟨post, _, r3⟩, _⟩ := write_cr_real L s data hbit hloop
    exact ⟨⟨_, post, r3⟩, r2, r1⟩
  · obtain ⟨r1, r2, r3⟩ := write_cr_no_tx L s data hbit
    exact ⟨r3, r1, r2⟩

/-- C20 at the stopped device right after `init()`: the write of `0x05`
schedules the event for the empty frame; the write of `0x01` schedules
nothing. -/
theorem C20_witness :
    (write_cr layout32K init_state 0x05).events = [] ++ [tx_bits init_state.tx_bytes] ∧
    (write_cr layout32K init_state 0x01).events = [] :=
  ⟨((C20_violations_still_transmit layout32K init_state 0x05).1 (by decide) (by decide)).2.1,
   ((C20_violations_still_transmit layout32K init_state 0x01).2 (by decide)).2.1⟩

/-- C17, the defect: after `init()`, the port writes 100 to TBCR0, `0x26` to
the Command Register and anything to the ASIC reset port reach a state in
which one completion event is scheduled while `tx_timer_active` is clear;
a second transmit (64 to TBCR0, `0x26` to the Command Register) then leaves
two completion events scheduled. -/
theorem C17_reset_keeps_pending_event :
    Reachable layout32K reset_after_tx_state ∧
    reset_after_tx_state.events = [992] ∧
    reset_after_tx_state.tx_timer_active = false ∧
    Reachable layout32K second_tx_state ∧
    second_tx_state.events = [992, 704] ∧
    second_tx_state.tx_timer_active = true := by
  have h1 : Reachable layout32K reset_after_tx_state :=
    Reachable.step _ _
      (Reachable.step _ _
        (Reachable.step _ _ (Reachable.init default_mac 0x300 3)
          (Step.write _ 0x305 100 .byte))
        (Step.write _ 0x300 0x26 .byte))
      (Step.write _ 0x31f 0 .byte)
  have h2 : Reachable layout32K second_tx_state :=
    Reachable.step _ _
      (Reachable.step _ _ h1 (Step.write _ 0x305 64 .byte))
      (Step.write _ 0x300 0x26 .byte)
  exact ⟨h1, by decide, by decide, h2, by decide, by decide⟩


/-! ## Configuration registers: page-0 writes and page-2 reads -/

/-- A mask below 256 sees only the low byte. -/
theorem mask_mod (v m : Nat) (hm : m < 256) : (v % 256) &&& m = v &&& m := by
  apply Nat.eq_of_testBit_eq
  intro i
  have e2 : (256 : Nat) = 2 ^ 8 := by norm_num
  rw [Nat.testBit_land, Nat.testBit_land, e2, Nat.testBit_mod_two_pow]
  by_cases hi : i < 8
  · simp [hi]
  · have : m.testBit i = false := by
      apply Nat.testBit_eq_false_of_lt
      calc m < 2 ^ 8 := by omega
        _ ≤ 2 ^ i := Nat.pow_le_pow_right (by norm_num) (by omega)
    simp [this]

set_option maxRecDepth 100000 in
theorem rcr_bits : ∀ v, v < 256 →
    (bit (flag v 0x20) <<< 5) ||| (bit (flag v 0x10) <<< 4) ||| (bit (flag v 0x08) <<< 3) |||
    (bit (flag v 0x04) <<< 2) ||| (bit (flag v 0x02) <<< 1) ||| bit (flag v 0x01) = v &&& 0x3f := by
  decide

set_option maxRecDepth 100000 in
theorem imr_bits : ∀ v, v < 256 →
    (bit (flag v 0x40) <<< 6) ||| (bit (flag v 0x20) <<< 5) ||| (bit (flag v 0x10) <<< 4) |||
    (bit (flag v 0x08) <<< 3) ||| (bit (flag v 0x04) <<< 2) ||| (bit (flag v 0x02) <<< 1) |||
    bit (flag v 0x01) = v &&& 0x7f := by
  decide

theorem page0_write_c (s : State) (v : Nat) :
    page0_write s 0xc v .byte =
      { s with
        RCR.errors_ok := flag (v % 256) 0x01
        RCR.runts_ok := flag (v % 256) 0x02
        RCR.broadcast := flag (v % 256) 0x04
        RCR.multicast := flag (v % 256) 0x08
        RCR.promisc := flag (v % 256) 0x10
        RCR.monitor := flag (v % 256) 0x20 } := by
  unfold page0_write
  rw [if_neg (by decide)]
  rfl

theorem page0_write_d (s : State) (v : Nat) :
    page0_write s 0xd v .byte = tcr_write s (v % 256) := by
  unfold page0_write
  rw [if_neg (by decide)]
  rfl

theorem page0_write_e (s : State) (v : Nat) :
    page0_write s 0xe v .byte =
      { s with
        DCR.wdsize := flag (v % 256) 0x01
        DCR.endian := flag (v % 256) 0x02
        DCR.longaddr := flag (v % 256) 0x04
        DCR.loop := flag (v % 256) 0x08
        DCR.auto_rx := flag (v % 256) 0x10
        DCR.fifo_size := ((v % 256) &&& 0x50) >>> 5 } := by
  unfold page0_write
  rw [if_neg (by decide)]
  rfl

theorem page0_write_f (s : State) (v : Nat) :
    page0_write s 0xf v .byte = imr_write s (v % 256) := by
  unfold page0_write
  rw [if_neg (by decide)]
  rfl

/-- What an IMR write leaves behind. -/
theorem imr_write_fields (s : State) (value : Nat) :
    (imr_write s value).IMR =
      { rx_inte := flag value 0x01, tx_inte := flag value 0x02, rxerr_inte := flag value 0x04,
        txerr_inte := flag value 0x08, overw_inte := flag value 0x10,
        cofl_inte := flag value 0x20, rdma_inte := flag value 0x40 } ∧
    (imr_write s value).ISR = s.ISR ∧
    (imr_write s value).irq = (s.irq || (s.ISR.pkt_tx && flag value 0x02)) ∧
    (imr_write s value).trace =
      s.trace ++ (if s.ISR.pkt_tx && flag value 0x02 then [Effect.activateIRQ] else []) := by
  unfold imr_write
  simp only
  rcases Bool.eq_false_or_eq_true s.ISR.pkt_tx with hp | hp <;>
    rcases Bool.eq_false_or_eq_true (flag value 0x02) with hf | hf <;>
    simp [hp, hf, PIC_ActivateIRQ]

/-- C28: a byte written to RCR (page-0 offset `0xC`) reads back through
page-2 offset `0xC` as `v & 0x3F`, and a byte written to IMR (page-0 offset
`0xF`) reads back through page-2 offset `0xF` as `v & 0x7F`. -/
theorem C28_rcr_imr_round_trip (s : State) (v : Nat) :
    page2_read (page0_write s 0xc v .byte) 0xc .byte = v &&& 0x3f ∧
    page2_read (page0_write s 0xf v .byte) 0xf .byte = v &&& 0x7f := by
  constructor
  · rw [page0_write_c, ← mask_mod v 0x3f (by norm_num)]
    exact rcr_bits (v % 256) (Nat.mod_lt _ (by norm_num))
  · rw [page0_write_f, ← mask_mod v 0x7f (by norm_num)]
    show imr_byte (imr_write s (v % 256)).IMR = _
    rw [(imr_write_fields s (v % 256)).1]
    exact imr_bits (v % 256) (Nat.mod_lt _ (by norm_num))

theorem tcr_write_fields (s : State) (value : Nat) :
    (tcr_write s value).TCR =
      { s.TCR with loop_cntl := (value &&& 0x6) >>> 1, coll_prio := flag value 0x08 } := by
  unfold tcr_write
  simp only
  by_cases h : value &&& 0x06 = 0
  · simp [h]
  · simp [h]

set_option maxRecDepth 100000 in
theorem dcr_bits : ∀ v, v < 256 →
    (((v &&& 0x50) >>> 5 &&& 0x3) <<< 5) ||| (bit (flag v 0x10) <<< 4) |||
    (bit (flag v 0x08) <<< 3) ||| (bit (flag v 0x04) <<< 2) ||| (bit (flag v 0x02) <<< 1) |||
    bit (flag v 0x01) = v &&& 0x5f := by
  decide

set_option maxRecDepth 100000 in
theorem tcr_bits : ∀ (e c : Bool) (v : Nat), v < 256 →
    ((bit (flag v 0x08) <<< 4) ||| (bit e <<< 3) ||| ((((v &&& 0x6) >>> 1) &&& 0x3) <<< 1) |||
      bit c) &&& 0x0f = (bit e <<< 3) ||| (v &&& 0x06) ||| bit c := by
  decide

/-- C29, the defect: after a write of `0x28` to DCR (page-0 offset `0xE`:
normal operation, `fifo_size = 1`) page-2 offset `0xE` reads `0x08`, not
`0x28`; for every byte `v` the read returns `v & 0x5F`: bit 5, the low bit of
`fifo_size`, is lost by the mask `0x50` of the write. -/
theorem C29_dcr_fifo_size_bit_lost :
    page2_read (page0_write init_state 0xe 0x28 .byte) 0xe .byte = 0x08 ∧
    0x28 &&& 0x7f = 0x28 ∧
    ∀ (s : State) (v : Nat), page2_read (page0_write s 0xe v .byte) 0xe .byte = v &&& 0x5f := by
  refine ⟨by decide, by decide, fun s v => ?_⟩
  rw [page0_write_e, ← mask_mod v 0x5f (by norm_num)]
  exact dcr_bits (v % 256) (Nat.mod_lt _ (by norm_num))

/-- C30 as stated fails: on the initialised device a write of `0x01`
(`crc_disable`) to TCR (page-0 offset `0xD`) reads back through page-2 offset
`0xD` as 0, not as `0x01 & 0x1F = 0x01`. -/
theorem C30_counterexample :
    page2_read (page0_write init_state 0xd 0x01 .byte) 0xd .byte = 0 ∧
    0x01 &&& 0x1f = 0x01 := by
  decide

/-- C30, amended: after a byte `v` is written to TCR (page-0 offset `0xD`),
`loop_cntl` is bits 1-2 of `v` and reads back through page-2 offset `0xD` at
bits 1-2 as written; `crc_disable` (bit 0) and `ext_stoptx` (bit 3) are not
stored by the write and read back as they were before it. -/
theorem C30_tcr_round_trip (s : State) (v : Nat) :
    (page0_write s 0xd v .byte).TCR.loop_cntl = (v &&& 0x06) >>> 1 ∧
    (page0_write s 0xd v .byte).TCR.crc_disable = s.TCR.crc_disable ∧
    (page0_write s 0xd v .byte).TCR.ext_stoptx = s.TCR.ext_stoptx ∧
    page2_read (page0_write s 0xd v .byte) 0xd .byte &&& 0x0f =
      (bit s.TCR.ext_stoptx <<< 3) ||| (v &&& 0x06) ||| bit s.TCR.crc_disable := by
  have hm := mask_mod v 0x06 (by norm_num)
  have hf := tcr_write_fields s (v % 256)
  rw [page0_write_d]
  refine ⟨?_, ?_, ?_, ?_⟩
  · rw [hf, ← hm]
  · rw [hf]
  · rw [hf]
  · show ((bit (tcr_write s (v % 256)).TCR.coll_prio <<< 4) |||
        (bit (tcr_write s (v % 256)).TCR.ext_stoptx <<< 3) |||
        (((tcr_write s (v % 256)).TCR.loop_cntl &&& 0x3) <<< 1) |||
        bit (tcr_write s (v % 256)).TCR.crc_disable) &&& 0x0f = _
    rw [hf, ← hm]
    exact tcr_bits s.TCR.ext_stoptx s.TCR.crc_disable (v % 256) (Nat.mod_lt _ (by norm_num))

/-- C27 as stated fails: after `init()` and a write of `0x0a` to the Command
Register, `ISR.rdma_done` is pending; a write of `0x40` to IMR (page-0 offset
`0xF`) then makes `ISR AND IMR` equal to `0x40`, yet the interrupt line stays
low. -/
theorem C27_counterexample :
    cr_probed_state.ISR.rdma_done = true ∧
    cr_probed_state.irq = false ∧
    imr_byte (page0_write cr_probed_state 0xf 0x40 .byte).IMR = 0x40 ∧
    isr_low (page0_write cr_probed_state 0xf 0x40 .byte).ISR &&&
      imr_byte (page0_write cr_probed_state 0xf 0x40 .byte).IMR = 0x40 ∧
    (page0_write cr_probed_state 0xf 0x40 .byte).irq = false := by
  decide

/-- C27, amended: a byte `v` written to IMR (page-0 offset `0xF`) makes the
seven IMR bits bits 0-6 of `v` and leaves ISR alone; the write activates the
interrupt line exactly when `ISR.pkt_tx` and bit 1 of `v` (the new
`IMR.tx_inte`) are both set, and otherwise leaves the line as it was. -/
theorem C27_imr_write (s : State) (v : Nat) :
    imr_byte (page0_write s 0xf v .byte).IMR = v &&& 0x7f ∧
    (page0_write s 0xf v .byte).IMR.tx_inte = v.testBit 1 ∧
    (page0_write s 0xf v .byte).ISR = s.ISR ∧
    (page0_write s 0xf v .byte).irq = (s.irq || (s.ISR.pkt_tx && v.testBit 1)) ∧
    (page0_write s 0xf v .byte).trace =
      s.trace ++ (if s.ISR.pkt_tx && v.testBit 1 then [Effect.activateIRQ] else []) := by
  have e2 : (256 : Nat) = 2 ^ 8 := by norm_num
  have ht : flag (v % 256) 0x02 = v.testBit 1 := by
    have := flag_two_pow (v % 256) 1
    rw [pow_one] at this
    rw [this, e2, Nat.testBit_mod_two_pow]
    simp
  obtain ⟨h1, h2, h3, h4⟩ := imr_write_fields s (v % 256)
  rw [page0_write_f]
  refine ⟨?_, ?_, h2, ?_, ?_⟩
  · rw [h1, ← mask_mod v 0x7f (by norm_num)]
    exact imr_bits (v % 256) (Nat.mod_lt _ (by norm_num))
  · rw [h1]
    exact ht
  · rw [h3, ht]
  · rw [h4, ht]

/-! ## The Command Register -/

theorem write_cr_eq (L : Layout) (s : State) (data : Nat) :
    write_cr L s data =
      write_cr_probe (write_cr_tx L (write_cr_sendpkt L (write_cr_regs s (cr_value data)))
        (cr_value data)) := rfl

set_option maxRecDepth 100000 in
theorem cr_value_bits_byte : ∀ v, v < 256 →
    ((if v &&& 0x38 = 0x00 then v ||| 0x20 else v) &&& 0x01 ≠ 0 ↔ v.testBit 0 = true) ∧
    ((if v &&& 0x38 = 0x00 then v ||| 0x20 else v) &&& 0x02 ≠ 0 ↔ v.testBit 1 = true) ∧
    ((if v &&& 0x38 = 0x00 then v ||| 0x20 else v) &&& 0x04 ≠ 0 ↔ v.testBit 2 = true) ∧
    flag (if v &&& 0x38 = 0x00 then v ||| 0x20 else v) 0x02 = v.testBit 1 ∧
    ((if v &&& 0x38 = 0x00 then v ||| 0x20 else v) &&& 0x38) >>> 3 =
      (if v / 8 % 8 = 0 then 4 else v / 8 % 8) ∧
    ((if v &&& 0x38 = 0x00 then v ||| 0x20 else v) &&& 0xc0) >>> 6 = v / 64 % 4 := by
  decide

/-- A bit of the low byte is the bit of the value. -/
theorem testBit_byte (v i : Nat) (hi : i < 8) : (v % 256).testBit i = v.testBit i := by
  have e2 : (256 : Nat) = 2 ^ 8 := by norm_num
  rw [e2, Nat.testBit_mod_two_pow]
  simp [hi]

/-- The byte `value` of `write_cr` in terms of the bits of the byte written. -/
theorem cr_value_bits (data : Nat) :
    (cr_value data &&& 0x01 ≠ 0 ↔ data.testBit 0 = true) ∧
    (cr_value data &&& 0x02 ≠ 0 ↔ data.testBit 1 = true) ∧
    (cr_value data &&& 0x04 ≠ 0 ↔ data.testBit 2 = true) ∧
    flag (cr_value data) 0x02 = data.testBit 1 ∧
    (cr_value data &&& 0x38) >>> 3 = (if data / 8 % 8 = 0 then 4 else data / 8 % 8) ∧
    (cr_value data &&& 0xc0) >>> 6 = data / 64 % 4 := by
  have h := cr_value_bits_byte (data % 256) (Nat.mod_lt _ (by norm_num))
  rw [testBit_byte data 0 (by norm_num), testBit_byte data 1 (by norm_num),
    testBit_byte data 2 (by norm_num)] at h
  have e1 : data % 256 / 8 % 8 = data / 8 % 8 := by omega
  have e2 : data % 256 / 64 % 4 = data / 64 % 4 := by omega
  rw [e1, e2] at h
  exact h

/-- The Command Register and `ISR.reset` after the first part of `write_cr`,
and what this part leaves alone besides the fields of `write_cr_regs_fields`. -/
theorem write_cr_regs_cr (s : State) (value : Nat) :
    (write_cr_regs s value).CR =
      { s.CR with
        stop := decide (value &&& 0x01 ≠ 0)
        rdma_cmd := (value &&& 0x38) >>> 3
        start := flag value 0x02
        pgsel := (value &&& 0xc0) >>> 6 } ∧
    (write_cr_regs s value).ISR.reset =
      (if value &&& 0x02 ≠ 0 ∧ s.CR.start = false then false
       else if value &&& 0x01 ≠ 0 then true else s.ISR.reset) ∧
    (write_cr_regs s value).ISR.rdma_done = s.ISR.rdma_done ∧
    (write_cr_regs s value).remote_dma = s.remote_dma ∧
    (write_cr_regs s value).remote_start = s.remote_start ∧
    (write_cr_regs s value).remote_bytes = s.remote_bytes ∧
    (write_cr_regs s value).bound_ptr = s.bound_ptr := by
  unfold write_cr_regs
  generalize value &&& 0x01 = a
  generalize value &&& 0x02 = b
  by_cases h1 : a = 0 <;> by_cases h2 : b = 0 <;>
    rcases Bool.eq_false_or_eq_true s.CR.start with h3 | h3 <;>
    simp [h1, h2, h3]

/-- The send-packet part of `write_cr`. -/
theorem write_cr_sendpkt_cr (L : Layout) (s : State) :
    (write_cr_sendpkt L s).CR = s.CR ∧ (write_cr_sendpkt L s).ISR = s.ISR ∧
    (write_cr_sendpkt L s).bound_ptr = s.bound_ptr ∧
    (s.CR.rdma_cmd = 3 →
      (write_cr_sendpkt L s).remote_start = s.bound_ptr * 256 % 2 ^ 16 ∧
      (write_cr_sendpkt L s).remote_dma = s.bound_ptr * 256 % 2 ^ 16 ∧
      (write_cr_sendpkt L s).remote_bytes =
        (s.mem ((s.bound_ptr : Int) * 256 + 2 - L.MEMSTART)
          + 256 * s.mem ((s.bound_ptr : Int) * 256 + 2 - L.MEMSTART + 1)) % 2 ^ 16) ∧
    (s.CR.rdma_cmd ≠ 3 → write_cr_sendpkt L s = s) := by
  unfold write_cr_sendpkt
  split
  · rename_i h
    exact ⟨rfl, rfl, rfl, fun _ => ⟨rfl, rfl, rfl⟩, fun h3 => absurd h h3⟩
  · exact ⟨rfl, rfl, rfl, fun h3 => absurd h3 (by assumption), fun _ => rfl⟩

/-- What `rx_frame` leaves alone, and what it appends to the trace. -/
theorem rx_frame_keeps (L : Layout) (s : State) (buf : Nat → Nat) (io_len : Nat) :
    (rx_frame L s buf io_len).1.CR = s.CR ∧
    (rx_frame L s buf io_len).1.IMR = s.IMR ∧
    (rx_frame L s buf io_len).1.ISR.pkt_tx = s.ISR.pkt_tx ∧
    (rx_frame L s buf io_len).1.ISR.rdma_done = s.ISR.rdma_done ∧
    (rx_frame L s buf io_len).1.ISR.reset = s.ISR.reset ∧
    (rx_frame L s buf io_len).1.remote_dma = s.remote_dma ∧
    (rx_frame L s buf io_len).1.remote_start = s.remote_start ∧
    (rx_frame L s buf io_len).1.remote_bytes = s.remote_bytes ∧
    (rx_frame L s buf io_len).1.events = s.events ∧
    (rx_frame L s buf io_len).1.tx_timer_active = s.tx_timer_active ∧
    ∃ post, (post = [] ∨ post = [Effect.activateIRQ]) ∧
      (rx_frame L s buf io_len).1.trace = s.trace ++ post := by
  by_cases hp : rx_passes s buf io_len
  · rw [rx_frame_of_passes L s buf io_len hp]
    simp only
    unfold rx_commit
    by_cases hm : pktbuf buf 0 &&& 0x80 ≠ 0 <;>
      rcases Bool.eq_false_or_eq_true s.IMR.rx_inte with hi | hi <;>
      simp [hm, hi, PIC_ActivateIRQ]
  · rw [rx_frame_of_not_passes L s buf io_len hp]
    exact ⟨rfl, rfl, rfl, rfl, rfl, rfl, rfl, rfl, rfl, rfl, [], Or.inl rfl,
      (List.append_nil _).symm⟩

/-- What `rx_frame`, called with a pointer into the chip memory, leaves alone,
and what it appends to the trace. -/
theorem rx_frame_ptr_keeps (L : Layout) (s : State) (view : (Int → Nat) → Nat → Nat)
    (io_len : Nat) :
    (rx_frame_ptr L s view io_len).1.CR = s.CR ∧
    (rx_frame_ptr L s view io_len).1.IMR = s.IMR ∧
    (rx_frame_ptr L s view io_len).1.ISR.pkt_tx = s.ISR.pkt_tx ∧
    (rx_frame_ptr L s view io_len).1.ISR.rdma_done = s.ISR.rdma_done ∧
    (rx_frame_ptr L s view io_len).1.ISR.reset = s.ISR.reset ∧
    (rx_frame_ptr L s view io_len).1.remote_dma = s.remote_dma ∧
    (rx_frame_ptr L s view io_len).1.remote_start = s.remote_start ∧
    (rx_frame_ptr L s view io_len).1.remote_bytes = s.remote_bytes ∧
    (rx_frame_ptr L s view io_len).1.events = s.events ∧
    (rx_frame_ptr L s view io_len).1.tx_timer_active = s.tx_timer_active ∧
    ∃ post, (post = [] ∨ post = [Effect.activateIRQ]) ∧
      (rx_frame_ptr L s view io_len).1.trace = s.trace ++ post := by
  have h := rx_frame_keeps L s (view s.mem) io_len
  rw [rx_frame_ptr_eq]
  exact h

/-- The start-tx part of `write_cr` in the supported loopback mode. -/
theorem write_cr_tx_loop (L : Layout) (s : State) (value : Nat)
    (hbit : value &&& 0x04 ≠ 0) (hloop : s.TCR.loop_cntl = 1) :
    write_cr_tx L s value =
      { (if (rx_frame_ptr L s (loopback_view L s) s.tx_bytes).1.IMR.tx_inte = true ∧
            ¬ (rx_frame_ptr L s (loopback_view L s) s.tx_bytes).1.ISR.pkt_tx = true
         then PIC_ActivateIRQ (rx_frame_ptr L s (loopback_view L s) s.tx_bytes).1
         else (rx_frame_ptr L s (loopback_view L s) s.tx_bytes).1) with ISR.pkt_tx := true } := by
  unfold write_cr_tx
  rw [if_pos ⟨hbit, by rw [hloop]; decide⟩, if_neg (by rw [hloop]; decide)]

/-- The start-tx part of `write_cr` in an unsupported loopback mode. -/
theorem write_cr_tx_unsupported (L : Layout) (s : State) (value : Nat)
    (h0 : s.TCR.loop_cntl ≠ 0) (h1 : s.TCR.loop_cntl ≠ 1) : write_cr_tx L s value = s := by
  unfold write_cr_tx
  by_cases hbit : value &&& 0x04 ≠ 0
  · rw [if_pos ⟨hbit, h0⟩, if_pos h1]
  · rw [if_neg (fun h => hbit h.1), if_neg hbit]

/-- The start-tx part of `write_cr` when bit 2 is clear. -/
theorem write_cr_tx_idle (L : Layout) (s : State) (value : Nat) (hbit : ¬ value &&& 0x04 ≠ 0) :
    write_cr_tx L s value = s := by
  unfold write_cr_tx
  rw [if_neg (fun h => hbit h.1), if_neg hbit]

/-- What the start-tx part of `write_cr` leaves alone. -/
theorem write_cr_tx_keeps (L : Layout) (s : State) (value : Nat) :
    (write_cr_tx L s value).CR = s.CR ∧
    (write_cr_tx L s value).IMR = s.IMR ∧
    (write_cr_tx L s value).ISR.rdma_done = s.ISR.rdma_done ∧
    (write_cr_tx L s value).ISR.reset = s.ISR.reset ∧
    (write_cr_tx L s value).remote_dma = s.remote_dma ∧
    (write_cr_tx L s value).remote_start = s.remote_start ∧
    (write_cr_tx L s value).remote_bytes = s.remote_bytes := by
  by_cases hbit : value &&& 0x04 ≠ 0
  · by_cases h0 : s.TCR.loop_cntl = 0
    · unfold write_cr_tx
      rw [if_neg (by rw [h0]; simp), if_pos hbit]
      rcases Bool.eq_false_or_eq_true s.tx_timer_active with ha | ha
      · rcases Bool.eq_false_or_eq_true s.IMR.tx_inte with hi | hi <;>
          rcases Bool.eq_false_or_eq_true s.ISR.pkt_tx with hp | hp <;>
          simp [ha, hi, hp, SendPacket, PIC_AddEvent, NE2000_TX_Event, tx_timer,
            PIC_RemoveEvents, PIC_ActivateIRQ]
      · simp [ha, SendPacket, PIC_AddEvent]
    · by_cases h1 : s.TCR.loop_cntl = 1
      · rw [write_cr_tx_loop L s value hbit h1]
        obtain ⟨k1, k2, _, k4, k5, k6, k7, k8, _⟩ :=
          rx_frame_ptr_keeps L s (loopback_view L s) s.tx_bytes
        split <;> exact ⟨k1, k2, k4, k5, k6, k7, k8⟩
      · rw [write_cr_tx_unsupported L s value h0 h1]
        exact ⟨rfl, rfl, rfl, rfl, rfl, rfl, rfl⟩
  · rw [write_cr_tx_idle L s value hbit]
    exact ⟨rfl, rfl, rfl, rfl, rfl, rfl, rfl⟩

/-- The interrupt probe at the end of `write_cr`. -/
theorem write_cr_probe_keeps (s : State) :
    (write_cr_probe s).CR = s.CR ∧
    (write_cr_probe s).IMR = s.IMR ∧
    (write_cr_probe s).ISR.reset = s.ISR.reset ∧
    (write_cr_probe s).remote_dma = s.remote_dma ∧
    (write_cr_probe s).remote_start = s.remote_start ∧
    (write_cr_probe s).remote_bytes = s.remote_bytes ∧
    (probe_cond s → (write_cr_probe s).ISR.rdma_done = true ∧
      (s.IMR.rdma_inte = true → (write_cr_probe s).irq = true)) ∧
    (¬ probe_cond s → write_cr_probe s = s) ∧
    (s.irq = true → (write_cr_probe s).irq = true) := by
  unfold write_cr_probe
  by_cases hc : s.CR.rdma_cmd = 0x01 ∧ s.CR.start = true ∧ s.remote_bytes = 0
  · rw [if_pos hc]
    simp only
    split
    · rename_i hi
      exact ⟨rfl, rfl, rfl, rfl, rfl, rfl, fun _ => ⟨rfl, fun _ => rfl⟩, fun h => absurd hc h,
        fun _ => rfl⟩
    · rename_i hi
      exact ⟨rfl, rfl, rfl, rfl, rfl, rfl, fun _ => ⟨rfl, fun h => absurd h hi⟩,
        fun h => absurd hc h, fun h => h⟩
  · rw [if_neg hc]
    exact ⟨rfl, rfl, rfl, rfl, rfl, rfl, fun h => absurd h hc, fun _ => rfl, fun h => h⟩

/-- The Command Register, `ISR.reset` and IMR after `write_cr`, in terms of
the bits of the byte written. -/
theorem write_cr_cr (L : Layout) (s : State) (data : Nat) :
    (write_cr L s data).CR =
      { s.CR with
        stop := data.testBit 0
        start := data.testBit 1
        rdma_cmd := if data / 8 % 8 = 0 then 4 else data / 8 % 8
        pgsel := data / 64 % 4 } ∧
    (write_cr L s data).ISR.reset =
      (if data.testBit 1 = true ∧ s.CR.start = false then false
       else if data.testBit 0 = true then true else s.ISR.reset) ∧
    (write_cr L s data).IMR = s.IMR := by
  obtain ⟨b0, b1, _, bf, bc, bp⟩ := cr_value_bits data
  obtain ⟨r1, r2, _⟩ := write_cr_regs_cr s (cr_value data)
  obtain ⟨s1, s2, _⟩ := write_cr_sendpkt_cr L (write_cr_regs s (cr_value data))
  obtain ⟨t1, t2, _, t4, _⟩ :=
    write_cr_tx_keeps L (write_cr_sendpkt L (write_cr_regs s (cr_value data))) (cr_value data)
  obtain ⟨p1, p2, p3, _⟩ := write_cr_probe_keeps
    (write_cr_tx L (write_cr_sendpkt L (write_cr_regs s (cr_value data))) (cr_value data))
  rw [write_cr_eq]
  refine ⟨?_, ?_, ?_⟩
  · have hd : decide (cr_value data &&& 0x01 ≠ 0) = data.testBit 0 := by
      rcases Bool.eq_false_or_eq_true (data.testBit 0) with h | h
      · rw [h]; exact decide_eq_true (b0.2 h)
      · rw [h]
        exact decide_eq_false (fun hx => by rw [b0.1 hx] at h; exact Bool.noConfusion h)
    rw [p1, t1, s1, r1, bf, bc, bp, hd]
  · rw [p3, t4, s2, r2]
    by_cases h1 : data.testBit 1 = true <;> by_cases h0 : data.testBit 0 = true <;>
      simp only [b0, b1, h0, h1, true_and, false_and, if_true, if_false]
  · rw [p2, t2, (write_cr_sendpkt_fields L _).2.2.2.2.2.2.2.2.1,
      (write_cr_regs_fields s _).2.2.2.2.2.2.2.2.1]

/-- C24: after `write_cr(v)`, `CR.stop` is bit 0 of `v`, `CR.start` is bit 1
and `CR.pgsel` is bits 6-7; `ISR.reset` is 0 when bit 1 is set and `CR.start`
was 0 before the call, otherwise 1 when bit 0 is set, otherwise unchanged. -/
theorem C24_reset_and_start_bits (L : Layout) (s : State) (data : Nat) :
    (write_cr L s data).CR.stop = data.testBit 0 ∧
    (write_cr L s data).CR.start = data.testBit 1 ∧
    (write_cr L s data).CR.pgsel = data / 64 % 4 ∧
    (write_cr L s data).ISR.reset =
      (if data.testBit 1 = true ∧ s.CR.start = false then false
       else if data.testBit 0 = true then true else s.ISR.reset) := by
  obtain ⟨h1, h2, _⟩ := write_cr_cr L s data
  rw [h1]
  exact ⟨rfl, rfl, rfl, h2⟩

/-- The remote-DMA fields after `write_cr`: those the send-packet command
sets when bits 3-5 of the byte encode 3. -/
theorem write_cr_remote (L : Layout) (s : State) (data : Nat) :
    (write_cr L s data).remote_bytes = (cr_pre_tx L s data).remote_bytes ∧
    (write_cr L s data).remote_dma = (cr_pre_tx L s data).remote_dma ∧
    (write_cr L s data).remote_start = (cr_pre_tx L s data).remote_start := by
  obtain ⟨_, _, _, _, t5, t6, t7⟩ := write_cr_tx_keeps L (cr_pre_tx L s data) (cr_value data)
  obtain ⟨_, _, _, p4, p5, p6, _⟩ :=
    write_cr_probe_keeps (write_cr_tx L (cr_pre_tx L s data) (cr_value data))
  rw [write_cr_eq]
  exact ⟨p6.trans t7, p4.trans t5, p5.trans t6⟩

/-- C22: when bits 3-5 of the byte written encode 3 (send packet), after
`write_cr` both `remote_start` and `remote_dma` are `bound_ptr * 256` and
`remote_bytes` is the little-endian 16-bit value in the chip memory at chip
addresses `bound_ptr * 256 + 2` and `bound_ptr * 256 + 3`.  The hypotheses say
that `bound_ptr` and the two memory cells hold bytes. -/
theorem C22_send_packet_command (L : Layout) (s : State) (data : Nat)
    (hcmd : data / 8 % 8 = 3) (hb : s.bound_ptr < 256)
    (h2 : s.mem ((s.bound_ptr : Int) * 256 + 2 - L.MEMSTART) < 256)
    (h3 : s.mem ((s.bound_ptr : Int) * 256 + 3 - L.MEMSTART) < 256) :
    (write_cr L s data).remote_start = s.bound_ptr * 256 ∧
    (write_cr L s data).remote_dma = s.bound_ptr * 256 ∧
    (write_cr L s data).remote_bytes =
      s.mem ((s.bound_ptr : Int) * 256 + 2 - L.MEMSTART) +
        256 * s.mem ((s.bound_ptr : Int) * 256 + 3 - L.MEMSTART) := by
  obtain ⟨_, _, _, _, bc, _⟩ := cr_value_bits data
  obtain ⟨r1, _, _, _, _, _, r7⟩ := write_cr_regs_cr s (cr_value data)
  have rm := (write_cr_regs_fields s (cr_value data)).2.2.1
  have hc3 : (write_cr_regs s (cr_value data)).CR.rdma_cmd = 3 := by
    rw [r1]
    show (cr_value data &&& 0x38) >>> 3 = 3
    rw [bc, hcmd]
    rfl
  obtain ⟨q1, q2, q3⟩ := (write_cr_sendpkt_cr L (write_cr_regs s (cr_value data))).2.2.2.1 hc3
  obtain ⟨w1, w2, w3⟩ := write_cr_remote L s data
  have hidx : (s.bound_ptr : Int) * 256 + 2 - L.MEMSTART + 1 =
      (s.bound_ptr : Int) * 256 + 3 - L.MEMSTART := by ring
  unfold cr_pre_tx at w1 w2 w3
  rw [w1, w2, w3, q1, q2, q3, r7, rm, hidx]
  refine ⟨?_, ?_, ?_⟩
  · exact Nat.mod_eq_of_lt (by omega)
  · exact Nat.mod_eq_of_lt (by omega)
  · exact Nat.mod_eq_of_lt (by omega)

/-- C22 on a ring page with the length field `0x0168`: the byte `0x1a`
(send packet, start) sets up a read of `0x168` bytes at `0x4600`. -/
theorem C22_witness :
    (write_cr layout32K sendpkt_state 0x1a).remote_start = 0x4600 ∧
    (write_cr layout32K sendpkt_state 0x1a).remote_bytes = 0x168 :=
  ⟨(C22_send_packet_command layout32K sendpkt_state 0x1a (by decide) (by decide) (by decide)
      (by decide)).1.trans (by decide),
   (C22_send_packet_command layout32K sendpkt_state 0x1a (by decide) (by decide) (by decide)
      (by decide)).2.2.trans (by decide)⟩

/-- The interrupt raised by the probe is the last effect of the call. -/
theorem write_cr_probe_trace (s : State) (hc : probe_cond s) (hi : s.IMR.rdma_inte = true) :
    (write_cr_probe s).trace = s.trace ++ [Effect.activateIRQ] := by
  unfold write_cr_probe
  rw [if_pos hc]
  simp only
  rw [if_pos hi]
  rfl

/-- C26: if after `write_cr(v)` the device has `CR.rdma_cmd == 1`, `CR.start`
set and `remote_bytes == 0`, then `ISR.rdma_done` is set and, when
`IMR.rdma_inte` is set, the interrupt line is activated as the last effect of
the call; if that condition does not hold, `ISR.rdma_done` is as it was before
the call. -/
theorem C26_irq_probe (L : Layout) (s : State) (data : Nat) :
    (probe_cond (write_cr L s data) →
      (write_cr L s data).ISR.rdma_done = true ∧
      (s.IMR.rdma_inte = true →
        (write_cr L s data).irq = true ∧
        ∃ pre, (write_cr L s data).trace = pre ++ [Effect.activateIRQ])) ∧
    (¬ probe_cond (write_cr L s data) →
      (write_cr L s data).ISR.rdma_done = s.ISR.rdma_done) := by
  obtain ⟨t1, t2, t3, _, _, _, t7⟩ := write_cr_tx_keeps L (cr_pre_tx L s data) (cr_value data)
  obtain ⟨p1, p2, _, _, _, p6, p7, p8, _⟩ :=
    write_cr_probe_keeps (write_cr_tx L (cr_pre_tx L s data) (cr_value data))
  have hs := (write_cr_sendpkt_cr L (write_cr_regs s (cr_value data))).2.1
  have hr := (write_cr_regs_cr s (cr_value data)).2.2.1
  have himr := (write_cr_cr L s data).2.2
  have hcond : probe_cond (write_cr L s data) ↔
      probe_cond (write_cr_tx L (cr_pre_tx L s data) (cr_value data)) := by
    unfold probe_cond
    rw [write_cr_eq]
    unfold cr_pre_tx at p1 p6 ⊢
    rw [p1, p6]
  have hpre : (write_cr_tx L (cr_pre_tx L s data) (cr_value data)).IMR = s.IMR := by
    rw [← himr, write_cr_eq]
    exact p2.symm
  have he : write_cr L s data =
      write_cr_probe (write_cr_tx L (cr_pre_tx L s data) (cr_value data)) := rfl
  constructor
  · intro hc
    have hc1 := hcond.1 hc
    obtain ⟨q1, q2⟩ := p7 hc1
    rw [he]
    refine ⟨q1, fun hi => ?_⟩
    have hi1 : (write_cr_tx L (cr_pre_tx L s data) (cr_value data)).IMR.rdma_inte = true := by
      rw [hpre]; exact hi
    exact ⟨q2 hi1, (write_cr_tx L (cr_pre_tx L s data) (cr_value data)).trace,
      write_cr_probe_trace _ hc1 hi1⟩
  · intro hc
    have hc1 : ¬ probe_cond (write_cr_tx L (cr_pre_tx L s data) (cr_value data)) :=
      fun h => hc (hcond.2 h)
    rw [he, p8 hc1, t3]
    unfold cr_pre_tx
    rw [hs, hr]

/-- C26 on the initialised device with `IMR.rdma_inte` set: the byte `0x0a`
(remote read, start) with `remote_bytes = 0` sets `ISR.rdma_done` and raises
the line. -/
theorem C26_witness :
    (write_cr layout32K { init_state with IMR := { rdma_inte := true } } 0x0a).ISR.rdma_done
      = true ∧
    (write_cr layout32K { init_state with IMR := { rdma_inte := true } } 0x0a).irq = true :=
  ⟨((C26_irq_probe layout32K { init_state with IMR := { rdma_inte := true } } 0x0a).1
      (by decide)).1,
   (((C26_irq_probe layout32K { init_state with IMR := { rdma_inte := true } } 0x0a).1
      (by decide)).2 (by decide)).1⟩

/-- The first part of `write_cr` reads only bits 0, 1, 3-5 and 6-7 of the byte. -/
theorem write_cr_regs_congr (s : State) (v w : Nat)
    (h1 : v &&& 0x01 = w &&& 0x01) (h2 : v &&& 0x02 = w &&& 0x02)
    (h3 : v &&& 0x38 = w &&& 0x38) (h4 : v &&& 0xc0 = w &&& 0xc0) :
    write_cr_regs s v = write_cr_regs s w := by
  unfold write_cr_regs flag
  rw [h1, h2, h3, h4]

set_option maxRecDepth 100000 in
theorem cr_value_clear_txp_byte : ∀ v, v < 256 → v &&& 0x04 ≠ 0 →
    4 ≤ v ∧
    (if (v - 4) &&& 0x38 = 0x00 then (v - 4) ||| 0x20 else v - 4) &&& 0x01 =
      (if v &&& 0x38 = 0x00 then v ||| 0x20 else v) &&& 0x01 ∧
    (if (v - 4) &&& 0x38 = 0x00 then (v - 4) ||| 0x20 else v - 4) &&& 0x02 =
      (if v &&& 0x38 = 0x00 then v ||| 0x20 else v) &&& 0x02 ∧
    (if (v - 4) &&& 0x38 = 0x00 then (v - 4) ||| 0x20 else v - 4) &&& 0x38 =
      (if v &&& 0x38 = 0x00 then v ||| 0x20 else v) &&& 0x38 ∧
    (if (v - 4) &&& 0x38 = 0x00 then (v - 4) ||| 0x20 else v - 4) &&& 0xc0 =
      (if v &&& 0x38 = 0x00 then v ||| 0x20 else v) &&& 0xc0 ∧
    (if (v - 4) &&& 0x38 = 0x00 then (v - 4) ||| 0x20 else v - 4) &&& 0x04 = 0 := by
  decide

/-- The byte with bit 2 taken out gives the same `value`, except for bit 2. -/
theorem cr_value_clear_txp (data : Nat) (hbit : txp_set data) :
    cr_value (data - 4) &&& 0x01 = cr_value data &&& 0x01 ∧
    cr_value (data - 4) &&& 0x02 = cr_value data &&& 0x02 ∧
    cr_value (data - 4) &&& 0x38 = cr_value data &&& 0x38 ∧
    cr_value (data - 4) &&& 0xc0 = cr_value data &&& 0xc0 ∧
    cr_value (data - 4) &&& 0x04 = 0 := by
  obtain ⟨h4, h⟩ := cr_value_clear_txp_byte (data % 256) (Nat.mod_lt _ (by norm_num)) hbit
  have e : (data - 4) % 256 = data % 256 - 4 := by omega
  unfold cr_value
  rw [e]
  exact h

/-- The start-tx part of `write_cr` in the supported loopback mode: what it
sets and what it leaves alone. -/
theorem write_cr_tx_loop_fields (L : Layout) (s : State) (value : Nat)
    (hbit : value &&& 0x04 ≠ 0) (hloop : s.TCR.loop_cntl = 1) :
    write_cr_tx L s value =
      { (if s.IMR.tx_inte = true ∧ s.ISR.pkt_tx = false
         then PIC_ActivateIRQ (rx_frame_ptr L s (loopback_view L s) s.tx_bytes).1
         else (rx_frame_ptr L s (loopback_view L s) s.tx_bytes).1) with ISR.pkt_tx := true } ∧
    (write_cr_tx L s value).ISR.pkt_tx = true ∧
    (s.IMR.tx_inte = true → s.ISR.pkt_tx = false → (write_cr_tx L s value).irq = true) ∧
    (write_cr_tx L s value).events = s.events ∧
    (write_cr_tx L s value).tx_timer_active = s.tx_timer_active ∧
    ∃ post, (write_cr_tx L s value).trace = s.trace ++ post ∧
      ∀ e ∈ post, e = Effect.activateIRQ := by
  obtain ⟨_, k2, k3, _, _, _, _, _, k9, k10, post, hpost, k11⟩ :=
    rx_frame_ptr_keeps L s (loopback_view L s) s.tx_bytes
  have hall : ∀ e ∈ post, e = Effect.activateIRQ := by
    intro e he
    rcases hpost with h | h
    · rw [h] at he; exact absurd he (List.not_mem_nil e)
    · rw [h] at he; exact List.mem_singleton.1 he
  rw [write_cr_tx_loop L s value hbit hloop, k2, k3]
  by_cases hc : s.IMR.tx_inte = true ∧ s.ISR.pkt_tx = false
  · have hc1 : s.IMR.tx_inte = true ∧ ¬ s.ISR.pkt_tx = true := ⟨hc.1, by rw [hc.2]; decide⟩
    rw [if_pos hc, if_pos hc1]
    refine ⟨rfl, rfl, fun _ _ => rfl, k9, k10, post ++ [Effect.activateIRQ], ?_, ?_⟩
    · show (rx_frame_ptr L s (loopback_view L s) s.tx_bytes).1.trace ++ [Effect.activateIRQ] = _
      rw [k11, List.append_assoc]
    · intro e he
      rcases List.mem_append.1 he with h | h
      · exact hall e h
      · exact List.mem_singleton.1 h
  · have hc1 : ¬ (s.IMR.tx_inte = true ∧ ¬ s.ISR.pkt_tx = true) := by
      rintro ⟨a, b⟩
      exact hc ⟨a, by simpa using b⟩
    rw [if_neg hc, if_neg hc1]
    exact ⟨rfl, rfl, fun a b => absurd ⟨a, b⟩ hc, k9, k10, post, k11, hall⟩

/-- The pointer of a loopback transmit is taken at `tx_page_start`, which the
earlier parts of `write_cr` leave alone. -/
theorem loopback_view_pre (L : Layout) (s : State) (data : Nat) :
    loopback_view L (cr_pre_tx L s data) = loopback_view L s := by
  obtain ⟨_, _, _, _, a5, _⟩ := write_cr_regs_fields s (cr_value data)
  obtain ⟨_, _, _, _, b5, _⟩ := write_cr_sendpkt_fields L (write_cr_regs s (cr_value data))
  unfold loopback_view cr_pre_tx
  rw [b5, a5]

/-- C21: a Command Register write with bit 2 set while `TCR.loop_cntl == 1`
leaves the state that `rx_frame`, called with the pointer to the chip memory
at `tx_page_start * 256` and the length `tx_bytes`, produces, with the
interrupt line activated when `IMR.tx_inte` is set and `ISR.pkt_tx` was 0, and
`ISR.pkt_tx` set (followed by the interrupt probe that ends every `write_cr`);
nothing is handed to the transport and no completion event is scheduled or
removed.  With `TCR.loop_cntl` 2 or 3 the call does what the same byte without
bit 2 does. -/
theorem C21_loopback_transmit (L : Layout) (s : State) (data : Nat) (hbit : txp_set data) :
    (s.TCR.loop_cntl = 1 →
      write_cr L s data =
        write_cr_probe
          { (if s.IMR.tx_inte = true ∧ s.ISR.pkt_tx = false
             then PIC_ActivateIRQ
               (rx_frame_ptr L (cr_pre_tx L s data) (loopback_view L s) s.tx_bytes).1
             else (rx_frame_ptr L (cr_pre_tx L s data) (loopback_view L s) s.tx_bytes).1)
            with ISR.pkt_tx := true } ∧
      (write_cr L s data).ISR.pkt_tx = true ∧
      (s.IMR.tx_inte = true → s.ISR.pkt_tx = false → (write_cr L s data).irq = true) ∧
      (write_cr L s data).events = s.events ∧
      (write_cr L s data).tx_timer_active = s.tx_timer_active ∧
      ∃ post, (write_cr L s data).trace = s.trace ++ post ∧
        ∀ e ∈ post, e = Effect.activateIRQ) ∧
    (s.TCR.loop_cntl = 2 ∨ s.TCR.loop_cntl = 3 →
      write_cr L s data = write_cr L s (data - 4) ∧
      write_cr L s data = write_cr_probe (cr_pre_tx L s data) ∧
      (write_cr L s data).events = s.events ∧
      (write_cr L s data).tx_timer_active = s.tx_timer_active ∧
      ∃ post, (write_cr L s data).trace = s.trace ++ post ∧
        ∀ e ∈ post, e = Effect.activateIRQ) := by
  have he : write_cr L s data =
      write_cr_probe (write_cr_tx L (cr_pre_tx L s data) (cr_value data)) := rfl
  have hv : cr_value data &&& 0x04 ≠ 0 :=
    validated_txp (data % 256) (Nat.mod_lt _ (by norm_num)) hbit
  obtain ⟨a1, a2, _, a4, a5, a6, a7, a8⟩ := write_cr_pre_tx L s (cr_value data)
  obtain ⟨q1, q2, _, q4, _, _, ppost, hppost, q7⟩ :=
    write_cr_probe_fields (write_cr_tx L (cr_pre_tx L s data) (cr_value data))
  have hpall : ∀ e ∈ ppost, e = Effect.activateIRQ := by
    intro e hm
    rcases hppost with h | h
    · rw [h] at hm; exact absurd hm (List.not_mem_nil e)
    · rw [h] at hm; exact List.mem_singleton.1 hm
  have hirq := (write_cr_probe_keeps
    (write_cr_tx L (cr_pre_tx L s data) (cr_value data))).2.2.2.2.2.2.2.2
  constructor
  · intro hloop
    have hloop5 : (cr_pre_tx L s data).TCR.loop_cntl = 1 := by
      unfold cr_pre_tx; rw [a6]; exact hloop
    obtain ⟨f1, f2, f3, f4, f5, post, f6, f7⟩ :=
      write_cr_tx_loop_fields L (cr_pre_tx L s data) (cr_value data) hv hloop5
    unfold cr_pre_tx at f1 f3 f4 f5 f6
    rw [a7, a8, a4] at f1
    rw [a7, a8] at f3
    rw [a2] at f4
    rw [a5] at f5
    rw [a1] at f6
    have hlf := loopback_view_pre L s data
    unfold cr_pre_tx at hlf f2 q1 q2 q4 q7 hirq he ⊢
    rw [hlf] at f1
    refine ⟨?_, ?_, ?_, ?_, ?_, post ++ ppost, ?_, ?_⟩
    · rw [he, f1]
    · rw [he, q4, f2]
    · intro hi hp
      rw [he]
      exact hirq (f3 hi hp)
    · rw [he, q1, f4]
    · rw [he, q2, f5]
    · rw [he, q7, f6, List.append_assoc]
    · intro e hm
      rcases List.mem_append.1 hm with h | h
      · exact f7 e h
      · exact hpall e h
  · intro hloop
    have h0 : (cr_pre_tx L s data).TCR.loop_cntl ≠ 0 := by
      unfold cr_pre_tx; rw [a6]; omega
    have h1 : (cr_pre_tx L s data).TCR.loop_cntl ≠ 1 := by
      unfold cr_pre_tx; rw [a6]; omega
    have ht := write_cr_tx_unsupported L (cr_pre_tx L s data) (cr_value data) h0 h1
    obtain ⟨c1, c2, c3, c4, c5⟩ := cr_value_clear_txp data hbit
    have hregs : write_cr_regs s (cr_value (data - 4)) = write_cr_regs s (cr_value data) :=
      write_cr_regs_congr s _ _ c1 c2 c3 c4
    have hpre : cr_pre_tx L s (data - 4) = cr_pre_tx L s data := by
      unfold cr_pre_tx
      rw [hregs]
    have he4 : write_cr L s (data - 4) =
        write_cr_probe (write_cr_tx L (cr_pre_tx L s (data - 4)) (cr_value (data - 4))) := rfl
    have ht4 := write_cr_tx_idle L (cr_pre_tx L s (data - 4)) (cr_value (data - 4))
      (by rw [c5]; simp)
    rw [ht] at q1 q2 q7 he
    unfold cr_pre_tx at q1 q2 q7
    rw [a2] at q1
    rw [a5] at q2
    rw [a1] at q7
    refine ⟨?_, he, ?_, ?_, ppost, ?_, hpall⟩
    · rw [he, he4, ht4, hpre]
    · rw [he]; exact q1
    · rw [he]; exact q2
    · rw [he]; exact q7

/-- C21 on a started device in loopback mode 1 whose 1100-byte frame lies in
the first page of the ring, where every store and load stays inside the chip
memory and no `memcpy` has overlapping source and destination: the byte `0x26`
sets `ISR.pkt_tx` and schedules nothing; the frame is stored split over the end of the ring, `curr_page` goes
from `0x7c` to `0x47`, and the byte `0x80` that the second part of the copy
puts at the start of the transmit buffer is what the test of `pktbuf[0]`
after the copies reads, so `RSR.rx_mbit` is set; `rx_frame` on a copy of the
frame taken before the call would leave it clear. -/
theorem C21_witness :
    (rx_in_bounds layout32K alias_loop_state 1100 ∧
      loopback_defined layout32K alias_loop_state 1100) ∧
    (write_cr layout32K alias_loop_state 0x26).ISR.pkt_tx = true ∧
    (write_cr layout32K alias_loop_state 0x26).events = alias_loop_state.events ∧
    (write_cr layout32K alias_loop_state 0x26).curr_page = 0x47 ∧
    alias_loop_state.mem 0x600 = 0 ∧
    (write_cr layout32K alias_loop_state 0x26).mem 0x600 = 0x80 ∧
    (write_cr layout32K alias_loop_state 0x26).RSR.rx_mbit = true ∧
    (rx_frame layout32K alias_loop_state
      (loopback_view layout32K alias_loop_state alias_loop_state.mem) 1100).1.RSR.rx_mbit = false :=
  ⟨by decide,
   ((C21_loopback_transmit layout32K alias_loop_state 0x26 (by decide)).1 (by decide)).2.1,
   ((C21_loopback_transmit layout32K alias_loop_state 0x26 (by decide)).1 (by decide)).2.2.2.1,
   by decide, by decide, by decide, by decide, by decide⟩

/-! ## The Command Register invariant -/

theorem cr_inv_of_eq (s t : State) (h : t.CR = s.CR) (hs : cr_inv s) : cr_inv t := by
  unfold cr_inv at *
  rw [h]
  exact hs

theorem cr_inv_reset (L : Layout) (s : State) : cr_inv (reset L s) := by
  unfold cr_inv
  refine ⟨rfl, ?_, ?_, ?_⟩
  · show (0 : Nat) < 4
    decide
  · show (4 : Nat) ≠ 0
    decide
  · show (4 : Nat) < 8
    decide

theorem tx_timer_cr (s : State) : (tx_timer s).CR = s.CR := by
  unfold tx_timer
  simp only
  split <;> rfl

theorem fire_cr (s : State) (k : Nat) : (fire s k).CR = s.CR := by
  unfold fire
  split
  · exact tx_timer_cr _
  · rfl

theorem chipmem_write_cr (L : Layout) (s : State) (a d : Nat) (w : io_width_t) :
    (chipmem_write L s a d w).CR = s.CR := by
  unfold chipmem_write
  simp only
  split <;> rfl

theorem rdma_wrap_cr (s : State) : (rdma_wrap s).CR = s.CR := by
  unfold rdma_wrap
  split <;> rfl

theorem rdma_count_read_cr (s : State) : (rdma_count_read s).CR = s.CR := by
  unfold rdma_count_read
  split <;> rfl

theorem rdma_count_write_cr (L : Layout) (s : State) (w : io_width_t) :
    (rdma_count_write L s w).CR = s.CR := by
  unfold rdma_count_write
  simp only
  split <;> rfl

theorem rdma_complete_cr (s : State) : (rdma_complete s).CR = s.CR := by
  unfold rdma_complete
  split
  · simp only
    split <;> rfl
  · rfl

theorem cr_inv_asic_read (L : Layout) (s : State) (offset : Nat) (w : io_width_t)
    (h : cr_inv s) : cr_inv (asic_read L s offset w).1 := by
  unfold asic_read
  split
  · split
    · exact h
    · refine cr_inv_of_eq s _ ?_ h
      simp only
      rw [rdma_complete_cr, rdma_count_read_cr, rdma_wrap_cr]
  · exact cr_inv_reset L s
  · exact h

theorem cr_inv_asic_write (L : Layout) (s : State) (offset value : Nat) (w : io_width_t)
    (h : cr_inv s) : cr_inv (asic_write L s offset value w) := by
  unfold asic_write
  split
  · split
    · exact h
    · refine cr_inv_of_eq s _ ?_ h
      simp only
      rw [rdma_complete_cr, rdma_count_write_cr, rdma_wrap_cr]
      exact chipmem_write_cr L s s.remote_dma value w
  · exact cr_inv_reset L s
  · exact h

theorem isr_write_cr (s : State) (value : Nat) : (isr_write s value).CR = s.CR := by
  unfold isr_write
  simp only
  split <;> rfl

theorem tcr_write_cr (s : State) (value : Nat) : (tcr_write s value).CR = s.CR := by
  unfold tcr_write
  simp only
  split <;> rfl

theorem imr_write_cr (s : State) (value : Nat) : (imr_write s value).CR = s.CR := by
  unfold imr_write
  simp only
  split <;> rfl

theorem page0_write_byte_cr (s : State) (offset data : Nat) :
    (page0_write_byte s offset data).CR = s.CR := by
  unfold page0_write_byte
  simp only
  split <;> first
    | rfl
    | exact isr_write_cr s _
    | exact tcr_write_cr s _
    | exact imr_write_cr s _

theorem page0_write_cr (s : State) (offset data : Nat) (w : io_width_t) :
    (page0_write s offset data w).CR = s.CR := by
  unfold page0_write
  split
  · simp only
    rw [page0_write_byte_cr, page0_write_byte_cr]
  · exact page0_write_byte_cr s _ _

theorem page1_write_cr (s : State) (offset data : Nat) (w : io_width_t) :
    (page1_write s offset data w).CR = s.CR := by
  unfold page1_write
  simp only
  split
  · rfl
  · split
    · rfl
    · split <;> rfl

theorem page2_write_cr (s : State) (offset data : Nat) (w : io_width_t) :
    (page2_write s offset data w).CR = s.CR := by
  unfold page2_write
  simp only
  split <;> rfl

theorem cr_inv_write_cr (L : Layout) (s : State) (data : Nat) (h : cr_inv s) :
    cr_inv (write_cr L s data) := by
  unfold cr_inv
  rw [(write_cr_cr L s data).1]
  refine ⟨h.1, Nat.mod_lt _ (by norm_num), ?_, ?_⟩
  · show (if data / 8 % 8 = 0 then 4 else data / 8 % 8) ≠ 0
    split <;> omega
  · show (if data / 8 % 8 = 0 then 4 else data / 8 % 8) < 8
    split <;> omega

theorem cr_inv_write (L : Layout) (s : State) (address value : Nat) (w : io_width_t)
    (h : cr_inv s) : cr_inv (write L s address value w) := by
  unfold write
  simp only
  split
  · exact cr_inv_asic_write L s _ _ _ h
  · split
    · exact cr_inv_write_cr L s _ h
    · split
      · exact cr_inv_of_eq s _ (page0_write_cr s _ _ _) h
      · exact cr_inv_of_eq s _ (page1_write_cr s _ _ _) h
      · exact cr_inv_of_eq s _ (page2_write_cr s _ _ _) h
      · exact h
      · exact h

theorem cr_inv_read (L : Layout) (s : State) (address : Nat) (w : io_width_t)
    (h : cr_inv s) : cr_inv (read L s address w).1 := by
  unfold read
  simp only
  split
  · exact cr_inv_asic_read L s _ _ h
  · split
    · exact h
    · split <;> exact h

theorem cr_inv_step (L : Layout) (s t : State) (hs : Step L s t) (h : cr_inv s) : cr_inv t := by
  cases hs with
  | read a w => exact cr_inv_read L s a w h
  | write a v w => exact cr_inv_write L s a _ w h
  | rx buf n _ => exact cr_inv_of_eq s _ (rx_frame_keeps L s buf n).1 h
  | tx k _ => exact cr_inv_of_eq s _ (fire_cr s k) h

theorem cr_inv_reachable (L : Layout) (s : State) (h : Reachable L s) : cr_inv s := by
  induction h with
  | init mac base irq => exact cr_inv_reset L _
  | step s t _ hst ih => exact cr_inv_step L s t hst ih

/-- C23: after `write_cr(v)`, `CR.rdma_cmd` is bits 3-5 of `v` when they are
non-zero and 4 when they are zero; and in every state reachable from `init()`
`CR.rdma_cmd` is not 0. -/
theorem C23_rdma_cmd_never_zero (L : Layout) (s : State) (data : Nat) :
    (data / 8 % 8 ≠ 0 → (write_cr L s data).CR.rdma_cmd = data / 8 % 8) ∧
    (data / 8 % 8 = 0 → (write_cr L s data).CR.rdma_cmd = 4) ∧
    (Reachable L s → s.CR.rdma_cmd ≠ 0) := by
  have h := (write_cr_cr L s data).1
  refine ⟨fun hne => ?_, fun he => ?_, fun hr => (cr_inv_reachable L s hr).2.2.1⟩
  · rw [h]
    show (if data / 8 % 8 = 0 then 4 else data / 8 % 8) = _
    rw [if_neg hne]
  · rw [h]
    show (if data / 8 % 8 = 0 then 4 else data / 8 % 8) = _
    rw [if_pos he]

/-- C23 on the initialised device: the byte `0x02` (bits 3-5 zero) stores
command 4, the byte `0x1a` stores command 3, and `rdma_cmd` is not 0 after
`init()`. -/
theorem C23_witness :
    (write_cr layout32K init_state 0x02).CR.rdma_cmd = 4 ∧
    (write_cr layout32K init_state 0x1a).CR.rdma_cmd = 0x1a / 8 % 8 ∧
    init_state.CR.rdma_cmd ≠ 0 :=
  ⟨(C23_rdma_cmd_never_zero layout32K init_state 0x02).2.1 (by decide),
   (C23_rdma_cmd_never_zero layout32K init_state 0x1a).1 (by decide),
   (C23_rdma_cmd_never_zero layout32K init_state 0).2.2 (Reachable.init default_mac 0x300 3)⟩

set_option maxRecDepth 100000 in
theorem read_cr_bits : ∀ v, v < 256 →
    ((v / 64 % 4 &&& 0x03) <<< 6) |||
    (((if v / 8 % 8 = 0 then 4 else v / 8 % 8) &&& 0x07) <<< 3) |||
    (bit false <<< 2) ||| (bit (v.testBit 1) <<< 1) ||| bit (v.testBit 0) =
      (if v &&& 0x38 = 0x00 then v ||| 0x20 else v) &&& 0xfb := by
  decide

/-- C25: in every state reachable from `init()`, `read_cr` returns
`(pgsel << 6) | (rdma_cmd << 3) | (tx_packet << 2) | (start << 1) | stop` (the
masks of the code change nothing), and `read_cr` after `write_cr(v)` returns
the byte `v` with bits 3-5 replaced by 4 when they were 0 and with bit 2
cleared: the transmit bit never reads back as 1. -/
theorem C25_read_cr_round_trip (L : Layout) (s : State) (data : Nat) (h : Reachable L s) :
    read_cr s =
      (s.CR.pgsel <<< 6) ||| (s.CR.rdma_cmd <<< 3) ||| (bit s.CR.tx_packet <<< 2) |||
      (bit s.CR.start <<< 1) ||| bit s.CR.stop ∧
    read_cr (write_cr L s data) = cr_value data &&& 0xfb ∧
    (read_cr (write_cr L s data)).testBit 2 = false := by
  obtain ⟨ht, hp, hc0, hc8⟩ := cr_inv_reachable L s h
  have hval : read_cr (write_cr L s data) = cr_value data &&& 0xfb := by
    unfold read_cr
    rw [(write_cr_cr L s data).1]
    simp only
    rw [ht, ← testBit_byte data 0 (by norm_num), ← testBit_byte data 1 (by norm_num)]
    have e1 : data / 8 % 8 = data % 256 / 8 % 8 := by omega
    have e2 : data / 64 % 4 = data % 256 / 64 % 4 := by omega
    rw [e1, e2]
    exact read_cr_bits (data % 256) (Nat.mod_lt _ (by norm_num))
  refine ⟨?_, hval, ?_⟩
  · unfold read_cr
    have m1 : s.CR.pgsel &&& 0x03 = s.CR.pgsel := by
      rw [Nat.and_pow_two_sub_one_eq_mod _ 2]
      exact Nat.mod_eq_of_lt hp
    have m2 : s.CR.rdma_cmd &&& 0x07 = s.CR.rdma_cmd := by
      rw [Nat.and_pow_two_sub_one_eq_mod _ 3]
      exact Nat.mod_eq_of_lt hc8
    rw [m1, m2]
  · rw [hval, Nat.testBit_land]
    have : (0xfb : Nat).testBit 2 = false := by decide
    rw [this, Bool.and_false]

/-- C25 on the initialised device: the byte `0x06` (start, transmit) reads
back as `0x22`. -/
theorem C25_witness :
    read_cr (write_cr layout32K init_state 0x06) = 0x22 :=
  ((C25_read_cr_round_trip layout32K init_state 0x06
    (Reachable.init default_mac 0x300 3)).2.1).trans (by decide)


/-! ## Reset -/

/-- C31: `reset()`, which is what `init()` ends with and what a read or a
write of ASIC offset `0xF` calls, leaves the power-up values: `read_cr` gives
`0x21`, ISR reads `0x80`, IMR, TCR, TSR and RSR are clear, DCR has only
`longaddr`, the ring, transmit and remote-DMA registers, the counters and
`tx_timer_active` are 0, every cell of the chip-memory array is 0 and the
interrupt line is deactivated. -/
theorem C31_power_up_values (L : Layout) (s : State) (v : Nat) (w : io_width_t) :
    (asic_read L s 0xf w).1 = reset L s ∧
    asic_write L s 0xf v w = reset L s ∧
    init L s = reset L { s with macaddr := (init L s).macaddr } ∧
    read_cr (reset L s) = 0x21 ∧
    (reset L s).CR = { stop := true, rdma_cmd := 4 } ∧
    page0_read (reset L s) 0x7 .byte = 0x80 ∧
    (reset L s).ISR = { reset := true } ∧
    (reset L s).IMR = {} ∧ (reset L s).TCR = {} ∧ (reset L s).TSR = {} ∧ (reset L s).RSR = {} ∧
    (reset L s).DCR = { longaddr := true } ∧
    (reset L s).page_start = 0 ∧ (reset L s).page_stop = 0 ∧ (reset L s).bound_ptr = 0 ∧
    (reset L s).curr_page = 0 ∧ (reset L s).tx_page_start = 0 ∧ (reset L s).tx_bytes = 0 ∧
    (reset L s).local_dma = 0 ∧ (reset L s).remote_start = 0 ∧ (reset L s).remote_dma = 0 ∧
    (reset L s).remote_bytes = 0 ∧
    (reset L s).tallycnt_0 = 0 ∧ (reset L s).tallycnt_1 = 0 ∧ (reset L s).tallycnt_2 = 0 ∧
    (reset L s).num_coll = 0 ∧ (reset L s).tx_timer_active = false ∧
    (∀ i : Int, 0 ≤ i → i < (L.MEMSIZ : Int) → (reset L s).mem i = 0) ∧
    (reset L s).irq = false ∧
    (reset L s).trace = s.trace ++ [Effect.deactivateIRQ] := by
  refine ⟨rfl, rfl, rfl, ?_, rfl, ?_, rfl, rfl, rfl, rfl, rfl, rfl, rfl, rfl, rfl, rfl, rfl, rfl,
    rfl, rfl, rfl, rfl, rfl, rfl, rfl, rfl, rfl, ?_, rfl, rfl⟩
  · show ((0 &&& 0x03) <<< 6) ||| ((4 &&& 0x07) <<< 3) ||| (bit false <<< 2) |||
      (bit false <<< 1) ||| bit true = 0x21
    decide
  · show isr_byte { reset := true } = 0x80
    decide
  · intro i h0 h1
    show (if 0 ≤ i ∧ i < (L.MEMSIZ : Int) then 0 else s.mem i) = 0
    rw [if_pos ⟨h0, h1⟩]

/-- C31 at `layout32K`: cell 5 of the chip memory after a reset of the
transmit-ready device. -/
theorem C31_witness : (reset layout32K tx_ready_state).mem 5 = 0 :=
  (C31_power_up_values layout32K tx_ready_state 0 .byte).2.2.2.2.2.2.2.2.2.2.2.2.2.2.2.2.2.2.2.2.2.2.2.2.2.2.2.1
    5 (by decide) (by decide)

/-! ## The receive path: rejections -/

/-- C34: a stopped device (`CR.stop` set) or one whose ring is not configured
(`page_start == 0`) rejects every frame: `rx_frame` returns -1 and leaves the
state as it is. -/
theorem C34_stopped_rejects (L : Layout) (s : State) (buf : Nat → Nat) (io_len : Nat)
    (h : s.CR.stop = true ∨ s.page_start = 0) :
    (rx_frame L s buf io_len).2 = -1 ∧ (rx_frame L s buf io_len).1 = s := by
  unfold rx_frame
  rw [if_pos h]
  exact ⟨rfl, rfl⟩

/-- C34 on the device right after `init()`, which is stopped. -/
theorem C34_witness : (rx_frame layout32K init_state bcast_frame 64).2 = -1 :=
  (C34_stopped_rejects layout32K init_state bcast_frame 64 (Or.inl (by decide))).1

/-- C35: a frame shorter than 40 bytes is rejected when `RCR.runts_ok` is
clear; an accepted frame returns `max(L, 60)`; and a frame shorter than 60
bytes that is at least 40 bytes long or arrives with `runts_ok` set is
accepted with the returned length 60 when the device is started and
configured, the free pages exceed the pages required and the destination
passes the address filter. -/
theorem C35_runt_frames (L : Layout) (s : State) (buf : Nat → Nat) (io_len : Nat)
    (hlen : io_len < 2 ^ 16) :
    (io_len < 40 → s.RCR.runts_ok = false → (rx_frame L s buf io_len).2 = -1) ∧
    (accepts L s buf io_len → (rx_frame L s buf io_len).2 = ((max io_len 60 : Nat) : Int)) ∧
    (io_len < 60 → (40 ≤ io_len ∨ s.RCR.runts_ok = true) →
      s.CR.stop = false → s.page_start ≠ 0 →
      (pages_required io_len : Int) < free_pages s → dest_accepted s buf →
      accepts L s buf io_len ∧ (rx_frame L s buf io_len).2 = 60) := by
  have hmax : max io_len 60 = if io_len < 60 then 60 else io_len := by
    split <;> omega
  have hret : rx_passes s buf io_len →
      (rx_frame L s buf io_len).2 = ((max io_len 60 : Nat) : Int) := by
    intro hp
    rw [rx_frame_of_passes L s buf io_len hp, hmax]
    exact to_int_small _ (by split <;> omega)
  refine ⟨fun h40 hr => ?_, fun hacc => hret ((accepts_iff L s buf io_len hlen).1 hacc), ?_⟩
  · have hn : ¬ rx_passes s buf io_len := by
      rintro ⟨_, _, _, h4, _⟩
      rcases h4 with c | c
      · omega
      · rw [hr] at c; exact Bool.noConfusion c
    rw [rx_frame_of_not_passes L s buf io_len hn]
  · intro h60 hrunt hstop hconf hfree hdest
    have hp : rx_passes s buf io_len := by
      refine ⟨hstop, hconf, ?_, hrunt, (rx_filtered_iff s buf).2 hdest⟩
      rw [rx_pages_eq io_len hlen, rx_avail_eq]
      exact hfree
    refine ⟨(accepts_iff L s buf io_len hlen).2 hp, ?_⟩
    rw [hret hp]
    have : max io_len 60 = 60 := by omega
    rw [this]
    rfl

/-- C35 at the ring `0x46 .. 0x80`: a 45-byte broadcast frame is accepted with
the returned length 60. -/
theorem C35_witness : (rx_frame layout32K ring_state bcast_frame 45).2 = 60 :=
  ((C35_runt_frames layout32K ring_state bcast_frame 45 (by decide)).2.2 (by decide)
    (Or.inl (by decide)) (by decide) (by decide) (by decide)
    (Or.inr (Or.inl ⟨fun i hi => by interval_cases i <;> decide, by decide⟩))).2

/-- C36: when `rx_frame` returns -1 the whole state, the interrupt line and
the trace of effects included, is what it was before the call. -/
theorem C36_rejected_frame_dropped (L : Layout) (s : State) (buf : Nat → Nat) (io_len : Nat)
    (hlen : io_len < 2 ^ 16) (h : (rx_frame L s buf io_len).2 = -1) :
    (rx_frame L s buf io_len).1 = s := by
  by_cases hp : rx_passes s buf io_len
  · exact absurd h ((accepts_iff L s buf io_len hlen).2 hp)
  · rw [rx_frame_of_not_passes L s buf io_len hp]

/-- C36 on the stopped device right after `init()`. -/
theorem C36_witness : (rx_frame layout32K init_state bcast_frame 64).1 = init_state :=
  C36_rejected_frame_dropped layout32K init_state bcast_frame 64 (by decide) (by decide)

set_option maxRecDepth 100000 in
/-- C33, the defect: a 64-byte frame to the multicast address
`01:00:5E:00:00:01` is accepted through the multicast filter, and the header
stored in the ring carries the multicast status `0x21`, yet `RSR.rx_mbit` is
still 0 afterwards: the flag is set from bit 7 of the first byte
(`pktbuf[0] & 0x80`), not from its low bit. -/
theorem C33_rx_mbit_not_set :
    accepts layout32K mcast_ring_state mcast_frame 64 ∧
    pktbuf mcast_frame 0 % 2 = 1 ∧
    mcast_ring_state.RSR.rx_mbit = false ∧
    (rx_frame layout32K mcast_ring_state mcast_frame 64).1.RSR.rx_mbit = false ∧
    (rx_frame layout32K mcast_ring_state mcast_frame 64).1.mem 0x700 = 0x21 := by
  decide

/-- The hash reads the six address bytes only. -/
theorem mcast_index_congr (d e : Nat → Nat) (h : ∀ i, i < 6 → pktbuf d i = pktbuf e i) :
    mcast_index d = mcast_index e := by
  unfold mcast_index mcast_index_w
  simp only [mcast_outer]
  rw [h 0 (by omega), h 1 (by omega), h 2 (by omega), h 3 (by omega), h 4 (by omega),
    h 5 (by omega)]

set_option maxRecDepth 100000 in
/-- C37: the multicast addresses `01:00:5E:00:00:00` and `01:00:5E:00:00:01`
have different hash indices, and `mcast_index` depends on the six address
bytes only (it takes no device state). -/
theorem C37_distinct_hashes :
    mcast_index mcast_addr_0 ≠ mcast_index mcast_addr_1 ∧
    ∀ d e : Nat → Nat, (∀ i, i < 6 → pktbuf d i = pktbuf e i) →
      mcast_index d = mcast_index e := by
  refine ⟨by decide, mcast_index_congr⟩

/-- C37 for the frame to `01:00:5E:00:00:01`, whose first six bytes are that
address. -/
theorem C37_witness : mcast_index mcast_frame = mcast_index mcast_addr_1 :=
  C37_distinct_hashes.2 mcast_frame mcast_addr_1 (fun i hi => by interval_cases i <;> rfl)

/-! ## Bounds of the chip-memory accesses -/

/-- C38, the defect: a word access at an odd address is only logged, and the
access of the second byte is not checked against the end of the array.  A word
read at chip address 31 reads `macaddr[32]`, one past the 32-byte PROM mirror,
also when it is made through the data port; a word write at the last byte of
the chip memory (`0xbfff` in `layout32K`) stores its high byte in
`mem[MEMSIZ]`, one past the buffer, also through the data port. -/
theorem C38_word_access_past_the_end :
    (∀ (L : Layout) (s : State),
      chipmem_read L s 31 .word = s.macaddr 31 ||| (s.macaddr 32 <<< 8)) ∧
    (∀ (L : Layout) (x : Nat),
      (asic_read L { prom_tail_state with macaddr := store prom_tail_state.macaddr 32 x } 0
        .word).2 = 0x57 ||| (x <<< 8)) ∧
    layout32K.MEMSIZ = 0x8000 ∧
    mem_tail_state.mem 0x8000 = 0 ∧
    (chipmem_write layout32K mem_tail_state 0xbfff 0x1234 .word).mem 0x8000 = 0x12 ∧
    (asic_write layout32K mem_tail_state 0 0x1234 .word).mem 0x8000 = 0x12 := by
  refine ⟨fun L s => ?_, fun L x => ?_, by decide, by decide, by decide, by decide⟩
  · unfold chipmem_read
    rw [if_pos (by decide)]
    simp
  · rw [asic_read_data L _ .word (by show (2 : Nat) ≠ 0; decide)]
    show chipmem_read L _ 31 .word = _
    unfold chipmem_read
    rw [if_pos (by decide)]
    simp [store, prom_tail_state, init_state, init, reset, PIC_DeActivateIRQ, fresh]

/-! ## The PROM mirror -/

theorem tx_timer_macaddr (s : State) : (tx_timer s).macaddr = s.macaddr := by
  unfold tx_timer
  simp only
  split <;> rfl

theorem fire_macaddr (s : State) (k : Nat) : (fire s k).macaddr = s.macaddr := by
  unfold fire
  split
  · exact tx_timer_macaddr _
  · rfl

theorem rx_frame_macaddr (L : Layout) (s : State) (buf : Nat → Nat) (io_len : Nat) :
    (rx_frame L s buf io_len).1.macaddr = s.macaddr := by
  by_cases hp : rx_passes s buf io_len
  · rw [rx_frame_of_passes L s buf io_len hp]
    simp only
    unfold rx_commit
    by_cases hm : pktbuf buf 0 &&& 0x80 ≠ 0 <;>
      rcases Bool.eq_false_or_eq_true s.IMR.rx_inte with hi | hi <;>
      simp [hm, hi, PIC_ActivateIRQ]
  · rw [rx_frame_of_not_passes L s buf io_len hp]

theorem rx_frame_ptr_macaddr (L : Layout) (s : State) (view : (Int → Nat) → Nat → Nat)
    (io_len : Nat) : (rx_frame_ptr L s view io_len).1.macaddr = s.macaddr := by
  have h := rx_frame_macaddr L s (view s.mem) io_len
  rw [rx_frame_ptr_eq]
  exact h

theorem rdma_wrap_macaddr (s : State) : (rdma_wrap s).macaddr = s.macaddr := by
  unfold rdma_wrap
  split <;> rfl

theorem rdma_count_read_macaddr (s : State) : (rdma_count_read s).macaddr = s.macaddr := by
  unfold rdma_count_read
  split <;> rfl

theorem rdma_count_write_macaddr (L : Layout) (s : State) (w : io_width_t) :
    (rdma_count_write L s w).macaddr = s.macaddr := by
  unfold rdma_count_write
  simp only
  split <;> rfl

theorem rdma_complete_macaddr (s : State) : (rdma_complete s).macaddr = s.macaddr := by
  unfold rdma_complete
  split
  · simp only
    split <;> rfl
  · rfl

theorem asic_read_macaddr (L : Layout) (s : State) (offset : Nat) (w : io_width_t) :
    (asic_read L s offset w).1.macaddr = s.macaddr := by
  unfold asic_read
  split
  · split
    · rfl
    · simp only
      rw [rdma_complete_macaddr, rdma_count_read_macaddr, rdma_wrap_macaddr]
  · rfl
  · rfl

theorem asic_write_macaddr (L : Layout) (s : State) (offset value : Nat) (w : io_width_t) :
    (asic_write L s offset value w).macaddr = s.macaddr := by
  unfold asic_write
  split
  · split
    · rfl
    · simp only
      rw [rdma_complete_macaddr, rdma_count_write_macaddr, rdma_wrap_macaddr]
      exact (chipmem_write_fields L s s.remote_dma value w).2.2.2.2.2.2.2
  · rfl
  · rfl

theorem isr_write_macaddr (s : State) (value : Nat) : (isr_write s value).macaddr = s.macaddr := by
  unfold isr_write
  simp only
  split <;> rfl

theorem tcr_write_macaddr (s : State) (value : Nat) : (tcr_write s value).macaddr = s.macaddr := by
  unfold tcr_write
  simp only
  split <;> rfl

theorem imr_write_macaddr (s : State) (value : Nat) : (imr_write s value).macaddr = s.macaddr := by
  unfold imr_write
  simp only
  split <;> rfl

theorem page0_write_byte_macaddr (s : State) (offset data : Nat) :
    (page0_write_byte s offset data).macaddr = s.macaddr := by
  unfold page0_write_byte
  simp only
  split <;> first
    | rfl
    | exact isr_write_macaddr s _
    | exact tcr_write_macaddr s _
    | exact imr_write_macaddr s _

theorem page0_write_macaddr (s : State) (offset data : Nat) (w : io_width_t) :
    (page0_write s offset data w).macaddr = s.macaddr := by
  unfold page0_write
  split
  · simp only
    rw [page0_write_byte_macaddr, page0_write_byte_macaddr]
  · exact page0_write_byte_macaddr s _ _

theorem page1_write_macaddr (s : State) (offset data : Nat) (w : io_width_t) :
    (page1_write s offset data w).macaddr = s.macaddr := by
  unfold page1_write
  simp only
  split
  · rfl
  · split
    · rfl
    · split <;> rfl

theorem page2_write_macaddr (s : State) (offset data : Nat) (w : io_width_t) :
    (page2_write s offset data w).macaddr = s.macaddr := by
  unfold page2_write
  simp only
  split <;> rfl

theorem write_cr_regs_macaddr (s : State) (value : Nat) :
    (write_cr_regs s value).macaddr = s.macaddr := by
  unfold write_cr_regs
  simp only
  split <;> split <;> rfl

theorem write_cr_sendpkt_macaddr (L : Layout) (s : State) :
    (write_cr_sendpkt L s).macaddr = s.macaddr := by
  unfold write_cr_sendpkt
  split <;> rfl

theorem write_cr_tx_macaddr (L : Layout) (s : State) (value : Nat) :
    (write_cr_tx L s value).macaddr = s.macaddr := by
  by_cases hbit : value &&& 0x04 ≠ 0
  · by_cases h0 : s.TCR.loop_cntl = 0
    · unfold write_cr_tx
      rw [if_neg (by rw [h0]; simp), if_pos hbit]
      rcases Bool.eq_false_or_eq_true s.tx_timer_active with ha | ha
      · rcases Bool.eq_false_or_eq_true s.IMR.tx_inte with hi | hi <;>
          rcases Bool.eq_false_or_eq_true s.ISR.pkt_tx with hp | hp <;>
          simp [ha, hi, hp, SendPacket, PIC_AddEvent, NE2000_TX_Event, tx_timer,
            PIC_RemoveEvents, PIC_ActivateIRQ]
      · simp [ha, SendPacket, PIC_AddEvent]
    · by_cases h1 : s.TCR.loop_cntl = 1
      · rw [write_cr_tx_loop L s value hbit h1]
        have k := rx_frame_ptr_macaddr L s (loopback_view L s) s.tx_bytes
        split <;> exact k
      · rw [write_cr_tx_unsupported L s value h0 h1]
  · rw [write_cr_tx_idle L s value hbit]

theorem write_cr_probe_macaddr (s : State) : (write_cr_probe s).macaddr = s.macaddr := by
  unfold write_cr_probe
  split
  · simp only
    split <;> rfl
  · rfl

theorem write_cr_macaddr (L : Layout) (s : State) (data : Nat) :
    (write_cr L s data).macaddr = s.macaddr := by
  rw [write_cr_eq, write_cr_probe_macaddr, write_cr_tx_macaddr, write_cr_sendpkt_macaddr,
    write_cr_regs_macaddr]

theorem write_macaddr (L : Layout) (s : State) (address value : Nat) (w : io_width_t) :
    (write L s address value w).macaddr = s.macaddr := by
  unfold write
  simp only
  split
  · exact asic_write_macaddr L s _ _ _
  · split
    · exact write_cr_macaddr L s _
    · split
      · exact page0_write_macaddr s _ _ _
      · exact page1_write_macaddr s _ _ _
      · exact page2_write_macaddr s _ _ _
      · rfl
      · rfl

theorem read_macaddr (L : Layout) (s : State) (address : Nat) (w : io_width_t) :
    (read L s address w).1.macaddr = s.macaddr := by
  unfold read
  simp only
  split
  · exact asic_read_macaddr L s _ _
  · split
    · rfl
    · split <;> rfl

theorem step_macaddr (L : Layout) (s t : State) (hs : Step L s t) : t.macaddr = s.macaddr := by
  cases hs with
  | read a w => exact read_macaddr L s a w
  | write a v w => exact write_macaddr L s a _ w
  | rx buf n _ => exact rx_frame_macaddr L s buf n
  | tx k _ => exact fire_macaddr s k

theorem prom_inv_init (L : Layout) (s : State) : prom_inv (init L s) := by
  constructor
  · intro i hi
    show (if 2 * i < 12 then s.physaddr (2 * i / 2) else _) =
      (if 2 * i + 1 < 12 then s.physaddr ((2 * i + 1) / 2) else _)
    rw [if_pos (by omega), if_pos (by omega)]
    congr 1
    omega
  · intro k h1 h2
    show (if k < 12 then s.physaddr (k / 2) else if k < 32 then 0x57 else s.macaddr k) = 0x57
    rw [if_neg (by omega), if_pos h2]

theorem prom_inv_reachable (L : Layout) (s : State) (h : Reachable L s) : prom_inv s := by
  induction h with
  | init mac base irq => exact prom_inv_init L _
  | step s t _ hst ih =>
    unfold prom_inv
    rw [step_macaddr L s t hst]
    exact ih

/-- C32 as stated fails: after `init()` with the station address
`ac:de:48:88:bb:aa`, a write of `0x11` to PAR0 and a soft reset through ASIC
offset `0xF`, `physaddr[0]` is `0x11` while the PROM mirror still begins with
`ac ac`. -/
theorem C32_counterexample :
    Reachable layout32K par_reset_state ∧
    par_reset_state.physaddr 0 = 0x11 ∧
    par_reset_state.macaddr 0 = 0xac ∧
    par_reset_state.macaddr 1 = 0xac :=
  ⟨Reachable.step _ _
    (Reachable.step _ _
      (Reachable.step _ _ (Reachable.init default_mac 0x300 3) (Step.write _ 0x300 0x61 .byte))
      (Step.write _ 0x301 0x11 .byte))
    (Step.write _ 0x31f 0 .byte), by decide, by decide, by decide⟩

/-- C32, amended: `init()` sets the PROM mirror to the doubled station address
followed by the signature `0x57` in bytes `12 .. 31`, and keeps `physaddr`;
`reset()` changes neither the PROM mirror nor `physaddr`, and no port access,
received frame or completion event changes the PROM mirror; so in every
reachable state `macaddr[2i] = macaddr[2i+1]` for `i < 6` and
`macaddr[k] = 0x57` for `k` in `12 .. 31`. -/
theorem C32_prom_mirror (L : Layout) (s : State) :
    (∀ i, i < 6 → (init L s).macaddr (2 * i) = s.physaddr i ∧
      (init L s).macaddr (2 * i + 1) = s.physaddr i) ∧
    (∀ k, 12 ≤ k → k < 32 → (init L s).macaddr k = 0x57) ∧
    (init L s).physaddr = s.physaddr ∧
    (reset L s).macaddr = s.macaddr ∧ (reset L s).physaddr = s.physaddr ∧
    (∀ t, Step L s t → t.macaddr = s.macaddr) ∧
    (Reachable L s → prom_inv s) := by
  refine ⟨fun i hi => ?_, (prom_inv_init L s).2, rfl, rfl, rfl, step_macaddr L s,
    prom_inv_reachable L s⟩
  constructor
  · show (if 2 * i < 12 then s.physaddr (2 * i / 2) else _) = _
    rw [if_pos (by omega)]
    congr 1
    omega
  · show (if 2 * i + 1 < 12 then s.physaddr ((2 * i + 1) / 2) else _) = _
    rw [if_pos (by omega)]
    congr 1
    omega

/-- C32 at the state of the counterexample: the PROM mirror still has the
shape `init()` gave it. -/
theorem C32_witness : prom_inv par_reset_state :=
  (C32_prom_mirror layout32K par_reset_state).2.2.2.2.2.2
    (Reachable.step _ _
      (Reachable.step _ _
        (Reachable.step _ _ (Reachable.init default_mac 0x300 3)
          (Step.write _ 0x300 0x61 .byte))
        (Step.write _ 0x301 0x11 .byte))
      (Step.write _ 0x31f 0 .byte))

/-! ## Receive, then send-packet -/

/-- The remote-DMA registers after a Command Register write whose bits 3-5
encode 3, before any truncation is resolved. -/
theorem write_cr_sendpkt_result (L : Layout) (s : State) (data : Nat) (hcmd : data / 8 % 8 = 3) :
    (write_cr L s data).remote_start = s.bound_ptr * 256 % 2 ^ 16 ∧
    (write_cr L s data).remote_dma = s.bound_ptr * 256 % 2 ^ 16 ∧
    (write_cr L s data).remote_bytes =
      (s.mem ((s.bound_ptr : Int) * 256 + 2 - L.MEMSTART) +
        256 * s.mem ((s.bound_ptr : Int) * 256 + 2 - L.MEMSTART + 1)) % 2 ^ 16 := by
  obtain ⟨_, _, _, _, bc, _⟩ := cr_value_bits data
  obtain ⟨r1, _, _, _, _, _, r7⟩ := write_cr_regs_cr s (cr_value data)
  have rm := (write_cr_regs_fields s (cr_value data)).2.2.1
  have hc3 : (write_cr_regs s (cr_value data)).CR.rdma_cmd = 3 := by
    rw [r1]
    show (cr_value data &&& 0x38) >>> 3 = 3
    rw [bc, hcmd]
    rfl
  obtain ⟨q1, q2, q3⟩ := (write_cr_sendpkt_cr L (write_cr_regs s (cr_value data))).2.2.2.1 hc3
  obtain ⟨w1, w2, w3⟩ := write_cr_remote L s data
  unfold cr_pre_tx at w1 w2 w3
  rw [w1, w2, w3, q1, q2, q3, r7, rm]
  exact ⟨rfl, rfl, rfl⟩

/-- C40: in a state whose ring lies inside the chip memory, with `curr_page`
inside the ring and `bound_ptr == curr_page`, after `rx_frame` has accepted a
frame of length `L`, a Command Register write whose bits 3-5 encode 3 sets
`remote_start` and `remote_dma` to the old `curr_page * 256` and `remote_bytes`
to `max(L, 60) + 4`, the length stored in the receive header. -/
theorem C40_send_packet_after_receive (L : Layout) (s : State) (buf : Nat → Nat)
    (io_len data : Nat) (hlen : io_len < 2 ^ 16) (h8 : s.page_stop ≤ 255)
    (hmem : L.MEMSTART ≤ s.page_start * 256 ∧ s.page_stop * 256 ≤ L.MEMEND)
    (hc : s.page_start ≤ s.curr_page ∧ s.curr_page < s.page_stop)
    (hb : s.bound_ptr = s.curr_page)
    (hacc : accepts L s buf io_len) (hcmd : data / 8 % 8 = 3) :
    (write_cr L (rx_frame L s buf io_len).1 data).remote_start = s.curr_page * 256 ∧
    (write_cr L (rx_frame L s buf io_len).1 data).remote_dma = s.curr_page * 256 ∧
    (write_cr L (rx_frame L s buf io_len).1 data).remote_bytes = max io_len 60 + 4 ∧
    (rx_frame L s buf io_len).1.mem ((s.curr_page : Int) * 256 + 2 - L.MEMSTART) +
      256 * (rx_frame L s buf io_len).1.mem ((s.curr_page : Int) * 256 + 3 - L.MEMSTART) =
      max io_len 60 + 4 := by
  have hp := (accepts_iff L s buf io_len hlen).1 hacc
  have havail := hp.2.2.1
  have hmax : max io_len 60 = if io_len < 60 then 60 else io_len := by
    split <;> omega
  have hbr : s.page_start ≤ s.bound_ptr ∧ s.bound_ptr < s.page_stop := by rw [hb]; exact hc
  obtain ⟨hp1, hp2⟩ := rx_pages_pos io_len hlen
  have hsmall : io_len + 263 < 255 * 256 := by
    have hpg : rx_pages io_len = (io_len + 263) / 256 := by unfold rx_pages; omega
    unfold rx_avail at havail
    rw [hpg] at havail
    split at havail <;> omega
  have hn : (if io_len < 60 then 60 else io_len) < 2 ^ 16 := by split <;> omega
  obtain ⟨_, _, v2, v3⟩ :=
    rx_pkthdr_values buf (rx_nextpage s (rx_pages io_len)) (if io_len < 60 then 60 else io_len) hn
  have hh := (rx_copy_contents L s buf io_len hlen h8 hc hbr hmem.1 havail).1
  have hw : ∀ i, i < 4 → ring_wrap s (s.curr_page * 256 + i) = s.curr_page * 256 + i := by
    intro i hi
    unfold ring_wrap
    rw [if_pos (by omega)]
  have h2 := hh 2 (by omega)
  have h3 := hh 3 (by omega)
  rw [hw 2 (by omega), v2] at h2
  rw [hw 3 (by omega), v3] at h3
  have e2 : ((s.curr_page * 256 + 2 : Nat) : Int) - (L.MEMSTART : Int) =
      (s.curr_page : Int) * 256 + 2 - L.MEMSTART := by push_cast; ring
  have e3 : ((s.curr_page * 256 + 3 : Nat) : Int) - (L.MEMSTART : Int) =
      (s.curr_page : Int) * 256 + 3 - L.MEMSTART := by push_cast; ring
  rw [e2] at h2
  rw [e3] at h3
  have hm2 : (rx_frame L s buf io_len).1.mem ((s.curr_page : Int) * 256 + 2 - L.MEMSTART) =
      ((if io_len < 60 then 60 else io_len) + 4) % 256 := by
    rw [rx_frame_of_passes L s buf io_len hp]
    simp only
    rw [rx_commit_mem]
    exact h2
  have hm3 : (rx_frame L s buf io_len).1.mem ((s.curr_page : Int) * 256 + 3 - L.MEMSTART) =
      ((if io_len < 60 then 60 else io_len) + 4) / 256 % 256 := by
    rw [rx_frame_of_passes L s buf io_len hp]
    simp only
    rw [rx_commit_mem]
    exact h3
  have hbp : (rx_frame L s buf io_len).1.bound_ptr = s.curr_page := by
    rw [rx_frame_of_passes L s buf io_len hp]
    simp only
    rw [(rx_commit_ring L s buf io_len).1, hb]
  obtain ⟨q1, q2, q3⟩ := write_cr_sendpkt_result L (rx_frame L s buf io_len).1 data hcmd
  have hidx : (s.curr_page : Int) * 256 + 2 - L.MEMSTART + 1 =
      (s.curr_page : Int) * 256 + 3 - L.MEMSTART := by ring
  rw [hbp] at q1 q2 q3
  rw [hidx] at q3
  rw [q1, q2, q3, hm2, hm3, hmax]
  refine ⟨?_, ?_, ?_, ?_⟩
  · omega
  · omega
  · split <;> omega
  · split <;> omega

/-- C40 at the ring `0x46 .. 0x80` with `BNRY = CURR = 0x47`: after a 64-byte
broadcast frame the byte `0x1a` (send packet, start) sets up a read of 68 bytes
at `0x4700`. -/
theorem C40_witness :
    (write_cr layout32K
      (rx_frame layout32K { ring_state with bound_ptr := 0x47 } bcast_frame 64).1
      0x1a).remote_bytes = max 64 60 + 4 :=
  (C40_send_packet_after_receive layout32K { ring_state with bound_ptr := 0x47 } bcast_frame 64
    0x1a (by decide) (by decide) (by decide) (by decide) (by decide) (by decide)
    (by decide)).2.2.1

/-! ## Remote-DMA round trip in byte mode -/

/-- The two byte writes that load a 16-bit register, low byte first. -/
theorem load16 (x lo hi : Nat) (hlo : lo < 256) (hhi : hi < 256) :
    ((((x &&& 0xff00) ||| (lo &&& 0xff)) &&& 0x00ff) ||| ((hi &&& 0xff) <<< 8)) =
      lo + 256 * hi := by
  have e8 : (0xff : Nat) = 2 ^ 8 - 1 := by norm_num
  have h1 : lo &&& 0xff = lo := by
    rw [e8, Nat.and_pow_two_sub_one_eq_mod]
    exact Nat.mod_eq_of_lt hlo
  have h2 : hi &&& 0xff = hi := by
    rw [e8, Nat.and_pow_two_sub_one_eq_mod]
    exact Nat.mod_eq_of_lt hhi
  have h3 : ((x &&& 0xff00) ||| lo) &&& 0x00ff = lo := by
    have e8' : (0x00ff : Nat) = 2 ^ 8 - 1 := by norm_num
    rw [e8', Nat.and_pow_two_sub_one_eq_mod, or_mod_two_pow', and_mod_two_pow']
    have : (0xff00 : Nat) % 2 ^ 8 = 0 := by norm_num
    rw [this, Nat.and_zero, Nat.zero_or]
    exact Nat.mod_eq_of_lt hlo
  rw [h1, h2, h3, Nat.shiftLeft_eq, Nat.lor_comm, Nat.mul_comm hi,
    ← Nat.mul_add_lt_is_or (by norm_num; exact hlo) hi]
  norm_num
  omega

theorem page0_write_8 (s : State) (v : Nat) :
    page0_write s 0x8 v .byte =
      { s with
        remote_start := (s.remote_start &&& 0xff00) ||| ((v % 256) &&& 0xff)
        remote_dma := (s.remote_start &&& 0xff00) ||| ((v % 256) &&& 0xff) } := by
  unfold page0_write
  rw [if_neg (by decide)]
  rfl

theorem page0_write_9 (s : State) (v : Nat) :
    page0_write s 0x9 v .byte =
      { s with
        remote_start := (s.remote_start &&& 0x00ff) ||| (((v % 256) &&& 0xff) <<< 8)
        remote_dma := (s.remote_start &&& 0x00ff) ||| (((v % 256) &&& 0xff) <<< 8) } := by
  unfold page0_write
  rw [if_neg (by decide)]
  rfl

theorem page0_write_a (s : State) (v : Nat) :
    page0_write s 0xa v .byte =
      { s with remote_bytes := (s.remote_bytes &&& 0xff00) ||| ((v % 256) &&& 0xff) } := by
  unfold page0_write
  rw [if_neg (by decide)]
  rfl

theorem page0_write_b (s : State) (v : Nat) :
    page0_write s 0xb v .byte =
      { s with remote_bytes := (s.remote_bytes &&& 0x00ff) ||| (((v % 256) &&& 0xff) <<< 8) } := by
  unfold page0_write
  rw [if_neg (by decide)]
  rfl

/-- The registers after `rdma_setup`. -/
theorem rdma_setup_fields (s : State) (a n : Nat) (ha : a < 2 ^ 16) (hn : n < 2 ^ 16) :
    (rdma_setup s a n).remote_dma = a ∧
    (rdma_setup s a n).remote_start = a ∧
    (rdma_setup s a n).remote_bytes = n ∧
    (rdma_setup s a n).mem = s.mem ∧
    (rdma_setup s a n).DCR = s.DCR ∧
    (rdma_setup s a n).page_stop = s.page_stop ∧
    (rdma_setup s a n).ISR = s.ISR := by
  have hA := load16 s.remote_start (a % 256 % 256) (a / 256 % 256) (by omega) (by omega)
  have hN := load16 s.remote_bytes (n % 256 % 256) (n / 256 % 256) (by omega) (by omega)
  have eA : a % 256 % 256 + 256 * (a / 256 % 256) = a := by omega
  have eN : n % 256 % 256 + 256 * (n / 256 % 256) = n := by omega
  rw [eA] at hA
  rw [eN] at hN
  unfold rdma_setup
  rw [page0_write_8, page0_write_9, page0_write_a, page0_write_b]
  simp only
  refine ⟨hA, hA, hN, ?_, ?_, ?_, ?_⟩ <;> first | rfl | trivial

theorem chipmem_write_byte_mem (L : Layout) (s : State) (a d : Nat)
    (h : L.MEMSTART ≤ a ∧ a < L.MEMEND) :
    (chipmem_write L s a d .byte).mem =
      store s.mem ((a : Int) - L.MEMSTART) ((d % 2 ^ 16) &&& 0xff) := by
  unfold chipmem_write
  simp only
  rw [if_pos h, if_neg (by decide)]

theorem rdma_count_write_bytes (L : Layout) (s : State) (w : io_width_t) :
    (rdma_count_write L s w).remote_bytes =
      if (s.remote_bytes + 2 ^ 16 - enum_val w) % 2 ^ 16 > L.MEMSIZ then 0
      else (s.remote_bytes + 2 ^ 16 - enum_val w) % 2 ^ 16 := by
  unfold rdma_count_write
  simp only
  split <;> rfl

set_option maxRecDepth 100000 in
theorem low_byte_of_word : ∀ v, v < 256 → v &&& 0xff = v := by
  decide

/-- The byte a data-port write stores is the low byte of the value. -/
theorem stored_byte (d : Nat) : (d % 2 ^ 16) &&& 0xff = d % 256 := by
  have e8 : (0xff : Nat) = 2 ^ 8 - 1 := by norm_num
  rw [e8, Nat.and_pow_two_sub_one_eq_mod]
  omega

/-- One byte-wide write to the data port with the cursor inside the chip
memory and bytes remaining. -/
theorem asic_write_byte_step (L : Layout) (s : State) (v : Nat)
    (ha : L.MEMSTART ≤ s.remote_dma ∧ s.remote_dma < L.MEMEND)
    (hn1 : 1 ≤ s.remote_bytes) (hn16 : s.remote_bytes < 2 ^ 16)
    (hsz : s.remote_bytes ≤ L.MEMSIZ + 1) :
    (asic_write L s 0 v .byte).mem = store s.mem ((s.remote_dma : Int) - L.MEMSTART) (v % 256) ∧
    (asic_write L s 0 v .byte).remote_bytes = s.remote_bytes - 1 ∧
    (asic_write L s 0 v .byte).remote_dma =
      (if (s.remote_dma + 1) % 2 ^ 16 = s.page_stop <<< 8 then (s.page_start <<< 8) % 2 ^ 16
       else (s.remote_dma + 1) % 2 ^ 16) ∧
    (asic_write L s 0 v .byte).DCR = s.DCR ∧
    (asic_write L s 0 v .byte).page_stop = s.page_stop ∧
    (asic_write L s 0 v .byte).ISR.rdma_done =
      (if s.remote_bytes = 1 then true else s.ISR.rdma_done) := by
  have hnw : ¬ (io_width_t.byte = .word ∧ s.DCR.wdsize = false) := by
    rintro ⟨h, _⟩
    exact io_width_t.noConfusion h
  have hcount : (if (s.remote_bytes + 2 ^ 16 - 1) % 2 ^ 16 > L.MEMSIZ then 0
      else (s.remote_bytes + 2 ^ 16 - 1) % 2 ^ 16) = s.remote_bytes - 1 := by
    split <;> omega
  obtain ⟨d1, _, d3⟩ := asic_write_dma L s v .byte hnw
  have hmem := chipmem_write_byte_mem L s s.remote_dma v ha
  rw [stored_byte] at hmem
  obtain ⟨m1, m2, _, _, m5, m6, _⟩ := chipmem_write_fields L s s.remote_dma v .byte
  rw [asic_write_data L s v .byte hnw]
  rw [asic_write_data L s v .byte hnw] at d1 d3
  generalize chipmem_write L s s.remote_dma v .byte = c at hmem m1 m2 m5 m6 d1 d3 ⊢
  have hc := rdma_complete_fields (rdma_count_write L (rdma_wrap
    { c with remote_dma := (c.remote_dma + enum_val .byte) % 2 ^ 16 }) .byte)
  have hr := rdma_count_write_fields L (rdma_wrap
    { c with remote_dma := (c.remote_dma + enum_val .byte) % 2 ^ 16 }) .byte
  have hw := rdma_wrap_fields { c with remote_dma := (c.remote_dma + enum_val .byte) % 2 ^ 16 }
  have hb := rdma_count_write_bytes L (rdma_wrap
    { c with remote_dma := (c.remote_dma + enum_val .byte) % 2 ^ 16 }) .byte
  have hd := rdma_complete_done (rdma_count_write L (rdma_wrap
    { c with remote_dma := (c.remote_dma + enum_val .byte) % 2 ^ 16 }) .byte)
  rw [hw.1] at hb
  have hb' : (rdma_count_write L (rdma_wrap
      { c with remote_dma := (c.remote_dma + enum_val .byte) % 2 ^ 16 }) .byte).remote_bytes =
      s.remote_bytes - 1 := by
    rw [hb]
    show (if (c.remote_bytes + 2 ^ 16 - 1) % 2 ^ 16 > L.MEMSIZ then 0
      else (c.remote_bytes + 2 ^ 16 - 1) % 2 ^ 16) = _
    rw [m2]
    exact hcount
  rw [hb', hr.2.2.1, hw.2.2.1] at hd
  refine ⟨?_, ?_, d1, ?_, d3, ?_⟩
  · rw [hc.2.2.2.2.2, hr.2.2.2.2.2.2, hw.2.2.2.2.2.2]
    exact hmem
  · rw [hc.2.1]
    exact hb'
  · rw [hc.2.2.1, hr.2.1, hw.2.1]
    exact m5
  · rw [hd]
    show (if s.remote_bytes - 1 = 0 then true else c.ISR.rdma_done) = _
    rw [m6]
    by_cases h1 : s.remote_bytes = 1
    · rw [if_pos h1, if_pos (show s.remote_bytes - 1 = 0 by omega)]
    · rw [if_neg h1, if_neg (show ¬ (s.remote_bytes - 1 = 0) by omega)]

theorem chipmem_read_byte_mem (L : Layout) (s : State) (a : Nat) (hL1 : 31 < L.MEMSTART)
    (h : L.MEMSTART ≤ a ∧ a < L.MEMEND) :
    chipmem_read L s a .byte = s.mem ((a : Int) - L.MEMSTART) := by
  unfold chipmem_read
  rw [if_neg (by omega), if_pos h]
  simp

/-- One byte-wide read of the data port in byte mode with the cursor inside
the chip memory and bytes remaining. -/
theorem asic_read_byte_step (L : Layout) (s : State) (hL1 : 31 < L.MEMSTART)
    (hw : s.DCR.wdsize = false)
    (ha : L.MEMSTART ≤ s.remote_dma ∧ s.remote_dma < L.MEMEND)
    (hn1 : 1 ≤ s.remote_bytes) (hn16 : s.remote_bytes < 2 ^ 16) :
    (asic_read L s 0 .byte).2 = s.mem ((s.remote_dma : Int) - L.MEMSTART) ∧
    (asic_read L s 0 .byte).1.mem = s.mem ∧
    (asic_read L s 0 .byte).1.remote_bytes = s.remote_bytes - 1 ∧
    (asic_read L s 0 .byte).1.remote_dma =
      (if (s.remote_dma + 1) % 2 ^ 16 = s.page_stop <<< 8 then (s.page_start <<< 8) % 2 ^ 16
       else (s.remote_dma + 1) % 2 ^ 16) ∧
    (asic_read L s 0 .byte).1.DCR = s.DCR ∧
    (asic_read L s 0 .byte).1.page_stop = s.page_stop ∧
    (asic_read L s 0 .byte).1.ISR.rdma_done =
      (if s.remote_bytes = 1 then true else s.ISR.rdma_done) := by
  have h0 : s.remote_bytes ≠ 0 := by omega
  have hbit : bit s.DCR.wdsize = 0 := by rw [hw]; rfl
  obtain ⟨d1, _, d3⟩ := asic_read_dma L s .byte h0
  rw [hbit, Nat.zero_add] at d1
  have hval : (asic_read L s 0 .byte).2 = s.mem ((s.remote_dma : Int) - L.MEMSTART) := by
    rw [asic_read_data L s .byte h0]
    show chipmem_read L s s.remote_dma (if s.remote_bytes = 1 then io_width_t.byte else .byte) = _
    rw [ite_self]
    exact chipmem_read_byte_mem L s s.remote_dma hL1 ha
  refine ⟨hval, ?_, ?_, d1, ?_, d3, ?_⟩
  all_goals rw [asic_read_data L s .byte h0]
  · have hc := rdma_complete_fields (rdma_count_read (rdma_wrap
      { s with remote_dma := (s.remote_dma + (bit s.DCR.wdsize + 1)) % 2 ^ 16 }))
    have hr := rdma_count_read_fields (rdma_wrap
      { s with remote_dma := (s.remote_dma + (bit s.DCR.wdsize + 1)) % 2 ^ 16 })
    have hwr := rdma_wrap_fields
      { s with remote_dma := (s.remote_dma + (bit s.DCR.wdsize + 1)) % 2 ^ 16 }
    simp only at hc hr hwr ⊢
    rw [hc.2.2.2.2.2, hr.2.2.2.2.2.2, hwr.2.2.2.2.2.2]
  · obtain ⟨k1, _, _⟩ := rdma_read_stages
      { s with remote_dma := (s.remote_dma + (bit s.DCR.wdsize + 1)) % 2 ^ 16 }
    simp only at k1 ⊢
    rw [k1, hbit]
    split <;> omega
  · obtain ⟨_, k2, _⟩ := rdma_read_stages
      { s with remote_dma := (s.remote_dma + (bit s.DCR.wdsize + 1)) % 2 ^ 16 }
    simp only at k2 ⊢
    rw [k2]
  · obtain ⟨k1, _, k3⟩ := rdma_read_stages
      { s with remote_dma := (s.remote_dma + (bit s.DCR.wdsize + 1)) % 2 ^ 16 }
    simp only at k1 k3 ⊢
    rw [k3, k1, hbit]
    by_cases h1 : s.remote_bytes = 1
    · rw [if_pos h1, if_neg (show ¬ s.remote_bytes > 1 by omega)]
      rfl
    · rw [if_neg h1, if_pos (show s.remote_bytes > 1 by omega)]
      split
      · rename_i hz
        omega
      · rfl

/-- The write phase: `n + 1` bytes written through the data port in byte
width land at the chip addresses `a`, `a + 1`, ... in order; nothing else in
the memory changes, and the count ends at 0 with `ISR.rdma_done` set. -/
theorem asic_write_n_spec (L : Layout) (hL1 : 31 < L.MEMSTART)
    (hL2 : L.MEMEND ≤ L.MEMSTART + L.MEMSIZ) (hL3 : L.MEMEND ≤ 2 ^ 16) :
    ∀ (n : Nat) (b : Nat → Nat) (s : State) (a : Nat),
      s.remote_dma = a → s.remote_bytes = n + 1 → L.MEMSTART ≤ a → a + (n + 1) ≤ L.MEMEND →
      (∀ k, 0 < k → k < n + 1 → a + k ≠ s.page_stop * 256) →
      (∀ j, j < n + 1 →
        (asic_write_n L .byte b (n + 1) s).mem ((a : Int) - L.MEMSTART + j) = b j % 256) ∧
      (∀ i : Int, i < (a : Int) - L.MEMSTART ∨ (a : Int) - L.MEMSTART + (n + 1 : Nat) ≤ i →
        (asic_write_n L .byte b (n + 1) s).mem i = s.mem i) ∧
      (asic_write_n L .byte b (n + 1) s).remote_bytes = 0 ∧
      (asic_write_n L .byte b (n + 1) s).ISR.rdma_done = true ∧
      (asic_write_n L .byte b (n + 1) s).DCR = s.DCR ∧
      (asic_write_n L .byte b (n + 1) s).page_stop = s.page_stop := by
  intro n
  induction n with
  | zero =>
    intro b s a hd hb hlo hhi _
    obtain ⟨e1, e2, _, e4, e5, e6⟩ := asic_write_byte_step L s (b 0)
      ⟨by omega, by omega⟩ (by omega) (by omega) (by omega)
    have hdef : asic_write_n L .byte b (0 + 1) s = asic_write L s 0 (b 0) .byte := rfl
    rw [hdef, e1, e2, e4, e5, e6, hd]
    refine ⟨fun j hj => ?_, fun i hi => ?_, by omega, by rw [if_pos hb], rfl, rfl⟩
    · have hj0 : j = 0 := by omega
      subst hj0
      unfold store
      rw [if_pos (by push_cast; omega)]
    · unfold store
      rw [if_neg (by push_cast at hi ⊢; omega)]
  | succ n ih =>
    intro b s a hd hb hlo hhi hstop
    obtain ⟨e1, e2, e3, e4, e5, e6⟩ := asic_write_byte_step L s (b 0)
      ⟨by omega, by omega⟩ (by omega) (by omega) (by omega)
    have hs8 : s.page_stop <<< 8 = s.page_stop * 256 := by rw [Nat.shiftLeft_eq]
    have hnext : (asic_write L s 0 (b 0) .byte).remote_dma = a + 1 := by
      have h1 := hstop 1 (by omega) (by omega)
      rw [e3, hs8, hd]
      have hm : (a + 1) % 2 ^ 16 = a + 1 := Nat.mod_eq_of_lt (by omega)
      rw [hm, if_neg h1]
    have hdef : asic_write_n L .byte b (n + 1 + 1) s =
        asic_write_n L .byte (fun i => b (i + 1)) (n + 1) (asic_write L s 0 (b 0) .byte) := rfl
    obtain ⟨i1, i2, i3, i4, i5, i6⟩ := ih (fun i => b (i + 1)) (asic_write L s 0 (b 0) .byte)
      (a + 1) hnext (by rw [e2, hb]; omega) (by omega) (by omega)
      (by
        intro k hk0 hk1
        rw [e5]
        have := hstop (k + 1) (by omega) (by omega)
        omega)
    rw [hdef]
    refine ⟨fun j hj => ?_, fun i hi => ?_, i3, i4, by rw [i5, e4], by rw [i6, e5]⟩
    · cases j with
      | zero =>
        rw [i2 _ (Or.inl (by push_cast; omega)), e1, hd]
        unfold store
        rw [if_pos (by push_cast; omega)]
      | succ j =>
        have := i1 j (by omega)
        have hidx : ((a + 1 : Nat) : Int) - L.MEMSTART + (j : Nat) =
            (a : Int) - L.MEMSTART + ((j + 1 : Nat) : Int) := by push_cast; ring
        rw [hidx] at this
        exact this
    · rw [i2 i (by push_cast at hi ⊢; omega), e1, hd]
      unfold store
      rw [if_neg (by push_cast at hi ⊢; omega)]

/-- The read phase: `n + 1` byte-wide reads of the data port in byte mode
return the chip memory at `a`, `a + 1`, ... in order, and the count ends at 0
with `ISR.rdma_done` set. -/
theorem asic_read_n_spec (L : Layout) (hL1 : 31 < L.MEMSTART) (hL3 : L.MEMEND ≤ 2 ^ 16) :
    ∀ (n : Nat) (s : State) (a : Nat),
      s.remote_dma = a → s.remote_bytes = n + 1 → s.DCR.wdsize = false →
      L.MEMSTART ≤ a → a + (n + 1) ≤ L.MEMEND →
      (∀ k, 0 < k → k < n + 1 → a + k ≠ s.page_stop * 256) →
      (∀ i, i < n + 1 →
        (asic_read L (asic_read_n L .byte i s) 0 .byte).2 = s.mem ((a : Int) - L.MEMSTART + i)) ∧
      (asic_read_n L .byte (n + 1) s).remote_bytes = 0 ∧
      (asic_read_n L .byte (n + 1) s).ISR.rdma_done = true := by
  intro n
  induction n with
  | zero =>
    intro s a hd hb hw hlo hhi _
    obtain ⟨e0, _, e2, _, _, _, e6⟩ := asic_read_byte_step L s hL1 hw
      ⟨by omega, by omega⟩ (by omega) (by omega)
    have hdef : asic_read_n L .byte (0 + 1) s = (asic_read L s 0 .byte).1 := rfl
    rw [hdef, e2, e6, hd] at *
    refine ⟨fun i hi => ?_, by omega, by rw [if_pos hb]⟩
    have hi0 : i = 0 := by omega
    subst hi0
    show (asic_read L s 0 .byte).2 = _
    rw [e0]
    congr 1
    push_cast
    omega
  | succ n ih =>
    intro s a hd hb hw hlo hhi hstop
    obtain ⟨e0, e1, e2, e3, e4, e5, _⟩ := asic_read_byte_step L s hL1 hw
      ⟨by omega, by omega⟩ (by omega) (by omega)
    have hs8 : s.page_stop <<< 8 = s.page_stop * 256 := by rw [Nat.shiftLeft_eq]
    have hnext : (asic_read L s 0 .byte).1.remote_dma = a + 1 := by
      have h1 := hstop 1 (by omega) (by omega)
      rw [e3, hs8, hd]
      have hm : (a + 1) % 2 ^ 16 = a + 1 := Nat.mod_eq_of_lt (by omega)
      rw [hm, if_neg h1]
    obtain ⟨i1, i2, i3⟩ := ih (asic_read L s 0 .byte).1 (a + 1) hnext (by rw [e2, hb]; omega)
      (by rw [e4]; exact hw) (by omega) (by omega)
      (by
        intro k hk0 hk1
        rw [e5]
        have := hstop (k + 1) (by omega) (by omega)
        omega)
    have hdef : ∀ k, asic_read_n L .byte (k + 1) s =
        asic_read_n L .byte k (asic_read L s 0 .byte).1 := fun _ => rfl
    refine ⟨fun i hi => ?_, by rw [hdef]; exact i2, by rw [hdef]; exact i3⟩
    cases i with
    | zero =>
      show (asic_read L s 0 .byte).2 = _
      rw [e0, hd]
      congr 1
      push_cast
      omega
    | succ i =>
      rw [hdef, i1 i (by omega), e1]
      congr 1
      push_cast
      ring

/-- C39: in byte mode, with the `N ≥ 1` chip addresses `A .. A + N - 1` inside
the chip memory and `page_stop * 256` not strictly between `A` and `A + N`,
loading RSAR = `A` and RBCR = `N` through page 0 and writing `b 0 .. b (N-1)`
to the data port, then loading RSAR and RBCR again and reading the data port
`N` times at byte width, makes the `i`-th read return the byte `b i`; at the
end of each phase `remote_bytes` is 0 and `ISR.rdma_done` is set.  The layout
hypotheses say that the PROM window lies below the chip memory, that the chip
memory fits its array and that chip addresses have 16 bits. -/
theorem C39_rdma_round_trip (L : Layout) (s : State) (A N : Nat) (b : Nat → Nat)
    (hL1 : 31 < L.MEMSTART) (hL2 : L.MEMEND ≤ L.MEMSTART + L.MEMSIZ) (hL3 : L.MEMEND ≤ 2 ^ 16)
    (hw : s.DCR.wdsize = false) (hN : 1 ≤ N) (hA : L.MEMSTART ≤ A) (hAN : A + N ≤ L.MEMEND)
    (hstop : ∀ k, 0 < k → k < N → A + k ≠ s.page_stop * 256) :
    (∀ i, i < N →
      (asic_read L
        (asic_read_n L .byte i (rdma_setup (asic_write_n L .byte b N (rdma_setup s A N)) A N))
        0 .byte).2 = b i % 256) ∧
    (asic_write_n L .byte b N (rdma_setup s A N)).remote_bytes = 0 ∧
    (asic_write_n L .byte b N (rdma_setup s A N)).ISR.rdma_done = true ∧
    (asic_read_n L .byte N
      (rdma_setup (asic_write_n L .byte b N (rdma_setup s A N)) A N)).remote_bytes = 0 ∧
    (asic_read_n L .byte N
      (rdma_setup (asic_write_n L .byte b N (rdma_setup s A N)) A N)).ISR.rdma_done = true := by
  obtain ⟨n, rfl⟩ : ∃ n, N = n + 1 := ⟨N - 1, by omega⟩
  obtain ⟨s1, _, s3, _, s5, s6, _⟩ := rdma_setup_fields s A (n + 1) (by omega) (by omega)
  obtain ⟨w1, w2, w3, w4, w5, w6⟩ := asic_write_n_spec L hL1 hL2 hL3 n b (rdma_setup s A (n + 1)) A
    s1 s3 hA hAN (by rw [s6]; exact hstop)
  obtain ⟨t1, _, t3, t4, t5, t6, _⟩ := rdma_setup_fields
    (asic_write_n L .byte b (n + 1) (rdma_setup s A (n + 1))) A (n + 1) (by omega) (by omega)
  obtain ⟨r1, r2, r3⟩ := asic_read_n_spec L hL1 hL3 n
    (rdma_setup (asic_write_n L .byte b (n + 1) (rdma_setup s A (n + 1))) A (n + 1)) A
    t1 t3 (by rw [t5, w5, s5]; exact hw) hA hAN (by rw [t6, w6, s6]; exact hstop)
  refine ⟨fun i hi => ?_, w3, w4, r2, r3⟩
  rw [r1 i hi, t4]
  exact w1 i hi

/-- C39 in `layout32K`: three bytes written at the start of the chip memory
are read back, the second read returning the second byte. -/
theorem C39_witness :
    (asic_read layout32K
      (asic_read_n layout32K .byte 1
        (rdma_setup (asic_write_n layout32K .byte (fun i => 0x10 + i) 3
          (rdma_setup byte_mode_state 0x4000 3)) 0x4000 3))
      0 .byte).2 = (0x10 + 1) % 256 :=
  (C39_rdma_round_trip layout32K byte_mode_state 0x4000 3 (fun i => 0x10 + i)
    (by decide) (by decide) (by decide) (by decide) (by decide) (by decide) (by decide)
    (fun k _ hk => by
      show 0x4000 + k ≠ 0x80 * 256
      omega)).1 1 (by decide)


end NE2K
